import Mathlib

/-!
# TerrainGenerator: noise engine and heightfield generator

A shallow embedding of `src/src/noise.cpp` and `src/src/terrain.cpp`.

Conventions of the embedding.

* `float` values are exact rationals (`ℚ`): the statements below are about
  exact arithmetic, not about rounding.
* `int` and `unsigned` values are `Int` / `Nat`.  Where the source relies on the
  width of a machine integer (the `GLuint` counters of `calculateElements`, the
  `unsigned` products of `Terrain`, the `int` shift `1 << k`) the width is
  modelled explicitly.
* The conversion `int(x)` of a coordinate is the integral part of `x`
  (`intPart`).  That is the value of the 32 bit conversion for `x` below `2^31`
  only; from `2^31` on the conversion of the source is undefined.  The
  theorems whose conclusion depends on the converted value (wrap-around and
  periodicity of the seamless samplers, zeros on the lattice, bound of the
  height range) are stated for coordinates inside the range of `int`
  (`InIntRange`).
* `printCriticalError` terminates the program: a function that reaches it
  returns a `Fault` instead of a value.  Accesses outside a table are faults as
  well, so a returned value certifies that every access was inside its table.
* The pseudo random engine `eng` is a stream `Nat → Nat`: the values returned by
  successive calls of `eng()`.  `cos`, `sin`, `sqrt`, the seeding function and
  the distribution `dist1` belong to the C++ standard library and are
  parameters (`Lib`).
-/

namespace TerrainGenerator

/-! ## Faults -/

/-- The ways in which a call can end without a value. -/
inductive Fault where
  /-- `printCriticalError` in a constructor: a parameter was rejected. -/
  | invalidParameter
  /-- `printCriticalError` in a sampler: a standard sampler called on a seamless
  engine or the other way round. -/
  | modeMismatch
  /-- An index outside a table or vector (`vector::at` throws, raw indexing is
  undefined). -/
  | outOfRange
  /-- A `vector::resize` with a negative (hence huge) size. -/
  | lengthError
  /-- An `int` computation whose result does not fit into 32 bits. -/
  | intOverflow
  deriving DecidableEq, Repr

/-! ## Machine integers -/

/-- Number of values of a 32 bit `unsigned`. -/
@[irreducible]
def u32Size : Nat := 4294967296

/-- Wrap a natural number into the range of `unsigned`. -/
@[irreducible]
def u32 (n : Nat) : Nat := n % u32Size

/-- Difference `a - b` of two `unsigned` values: `a - b` modulo `2^32`. -/
@[irreducible]
def u32Sub (a b : Nat) : Nat :=
  if u32 b ≤ u32 a then u32 a - u32 b else u32Size - (u32 b - u32 a)

/-- The `int` expression `1 << k`: defined for `0 ≤ k ≤ 30`; for other `k` the
result is not a positive `int`. -/
def shl1 (k : Int) : Except Fault Nat :=
  if 0 ≤ k ∧ k < 31 then .ok (2 ^ k.toNat) else .error .intOverflow

/-- The expression `a & m` for a non-negative `a` and an `int` mask `m`. -/
def andMask (a : Nat) (m : Int) : Int := Int.land (a : Int) m

/-- Element `i` of a table, `i` being an `int`. -/
def tableAt {α : Type} (t : List α) (i : Int) : Except Fault α :=
  if i < 0 then .error .outOfRange
  else match t[i.toNat]? with
    | some v => .ok v
    | none => .error .outOfRange

/-- Number of non-negative values of a 32 bit `int`: the largest `int` is
`intSize - 1 = 2147483647`. -/
@[irreducible]
def intSize : Nat := 2147483648

/-- The conversion `int(x)` of a non-negative `float` inside the range of
`int`: the integral part of `x`.  For `0 ≤ x < intSize` this is the value of
the 32 bit conversion of the source; from `intSize` on the conversion of the
source is undefined and `intPart` is not its value. -/
def intPart (x : ℚ) : Nat := ⌊x⌋₊

/-- The coordinate `x` is inside the range in which the `int` arithmetic of a
sampler is defined: `int(x)`, `int(x) + 1` and the sum of these with an entry
of the table `m_perm` (at most 255) are values of a 32 bit `int`.  A negative
coordinate is replaced by `0` before it is converted. -/
def InIntRange (x : ℚ) : Prop := x + 256 < (intSize : ℚ)

/-! ## Constants of `noise.cpp` -/

/-- Size for the permutation table. -/
def permSize : Nat := 256

/-- Value to limit values between 0 and 255 via the `&` operator. -/
def maxValue : Nat := permSize - 1

/-- Size of the gradient table for 2 dimensional noise. -/
def g2Size : Nat := 8

/-- Value to limit values between 0 and 7 via the `&` operator. -/
def g2MaxValue : Nat := g2Size - 1

/-- The constant `tau = 6.2831853071f`. -/
def tau : ℚ := 62831853071 / 10000000000

/-- Interpolation macro `S0(x) = ((3 - 2*x) * (x*x))`. -/
def S0 (x : ℚ) : ℚ := (3 - 2 * x) * (x * x)

/-- Smooth interpolation macro `S1(x) = ((6*x*x - 15*x + 10) * (x*x*x))`. -/
def S1 (x : ℚ) : ℚ := (6 * x * x - 15 * x + 10) * (x * x * x)

/-! ## The random engine and the library functions -/

/-- The values returned by successive calls of `eng()`. -/
abbrev Engine := Nat → Nat

/-- The engine after `k` calls. -/
def Engine.drop (e : Engine) (k : Nat) : Engine := fun n => e (n + k)

/-- Functions of the C++ standard library used by the noise engine. -/
structure Lib where
  /-- The function `cos`. -/
  cos : ℚ → ℚ
  /-- The function `sin`. -/
  sin : ℚ → ℚ
  /-- The function `sqrt`. -/
  sqrt : ℚ → ℚ
  /-- The output stream of `eng` after `eng.seed(seed)`. -/
  seed : Int → Engine
  /-- One draw `dist1(eng)`: the value and the engine afterwards. -/
  dist1 : Engine → ℚ × Engine

/-! ## Data model of `Noise` -/

/-- Enumeration of the noise types. -/
inductive NoiseType where
  | PerlinNoise
  | BillowyNoise
  | RidgidNoise
  | CosinusNoise
  deriving DecidableEq, Repr

/-- The type `vec2`. -/
structure Vec2 where
  x : ℚ
  y : ℚ
  deriving DecidableEq, Repr

/-- The type `vec3` with coefficients in `K` (`K` stands for `float`). -/
structure Vector3 (K : Type) where
  x : K
  y : K
  z : K
  deriving DecidableEq, Repr

/-- The type `vec3` over the rationals. -/
abbrev Vec3 := Vector3 ℚ

/-- The members of the class `Noise`. -/
structure Noise where
  m_gradients1D : List ℚ
  m_gradients2D : List Vec2
  m_perm : List Nat
  m_perms : List (List Nat)
  m_seed : Int
  m_layerCount : Int
  m_startFrequency : ℚ
  m_frequencyFactor : ℚ
  m_startWeight : ℚ
  m_weightDivisor : ℚ
  m_amplitude : ℚ
  m_isSeamless : Bool
  m_type : NoiseType
  m_startLayer : Int
  m_endLayer : Int

/-! ## Permutation tables -/

/-- The call `swap(t[i], t[j])`. -/
def swapAt (t : List Nat) (i j : Nat) : List Nat :=
  (t.set i (t.getD j 0)).set j (t.getD i 0)

/-- The loop `for (j = 0; j < size; j++) t[j] = j` on a table of `size` entries. -/
def identityTable (size : Nat) : List Nat := List.range size

/-- The index `eng() & (size - 1)` that entry `j` is swapped with; `r` is the
value the engine returned. -/
def swapTarget (r : Nat) (size : Nat) : Nat := r &&& (size - 1)

/-- The loop `for (j = 0; j < size; j++) swap(t[j], t[eng() & (size - 1)])`. -/
def shuffle (e : Engine) (size : Nat) (t : List Nat) : List Nat :=
  (List.range size).foldl (fun t j => swapAt t j (swapTarget (e j) size)) t

/-- The loop of `init` filling `m_gradients1D` with `dist1(eng)`. -/
def gradients1DLoop (lib : Lib) : Nat → Engine → List ℚ → List ℚ
  | 0, _, acc => acc
  | n + 1, e, acc => gradients1DLoop lib n (lib.dist1 e).2 (acc ++ [(lib.dist1 e).1])

/-- The loop filling `m_gradients2D`: `g2Size` directions, the angle growing by
`tau / float(g2Size)`. -/
def gradients2DLoop (lib : Lib) : Nat → ℚ → List Vec2 → List Vec2
  | 0, _, acc => acc
  | n + 1, angle, acc =>
    gradients2DLoop lib n (angle + tau / (g2Size : ℚ)) (acc ++ [⟨lib.cos angle, lib.sin angle⟩])

/-- The permutation table built by `Noise::init` from the engine `e`. -/
def initPerm (e : Engine) : List Nat := shuffle e permSize (identityTable permSize)

/-- The method `Noise::init`; `e` is the state of the engine when it is called. -/
def Noise.init (lib : Lib) (e : Engine) (N : Noise) : Noise :=
  { N with
    m_perm := initPerm e
    m_gradients1D := gradients1DLoop lib permSize (e.drop permSize) []
    m_gradients2D := gradients2DLoop lib g2Size 0 [] }

/-- The call `m_perms.resize(n)`: keeps the first `n` tables, pads with empty ones. -/
def resizeTables (old : List (List Nat)) (n : Nat) : List (List Nat) :=
  old.take n ++ List.replicate (n - old.length) []

/-- The loop of `init_seamless` over the layers, `n` iterations from layer `i`. -/
def initSeamlessLoop (startLayer : Int) :
    Nat → Nat → Engine → List (List Nat) → Except Fault (List (List Nat))
  | 0, _, _, perms => .ok perms
  | n + 1, i, e, perms =>
    match shl1 ((i : Int) + startLayer) with
    | .error f => .error f
    | .ok size =>
      initSeamlessLoop startLayer n (i + 1) (e.drop size)
        (perms.set i (shuffle e size (identityTable size)))

/-- The tables built by `Noise::init_seamless`. -/
def initSeamlessPerms (e : Engine) (layerCount startLayer : Int) (old : List (List Nat)) :
    Except Fault (List (List Nat)) :=
  if layerCount < 0 then .error .lengthError
  else initSeamlessLoop startLayer layerCount.toNat 0 e (resizeTables old layerCount.toNat)

/-- The method `Noise::init_seamless`. -/
def Noise.init_seamless (lib : Lib) (e : Engine) (N : Noise) : Except Fault Noise :=
  match initSeamlessPerms e N.m_layerCount N.m_startLayer N.m_perms with
  | .error f => .error f
  | .ok perms =>
    .ok { N with m_perms := perms, m_gradients2D := gradients2DLoop lib g2Size 0 [] }

/-! ## Constructors -/

/-- The loop `for (i = from; i < lC; i++) { b += a; a /= wD; }` of the
constructors, as `n` iterations on the pair `(a, b)`. -/
def weightLoop (wD : ℚ) : Nat → ℚ × ℚ → ℚ × ℚ
  | 0, ab => ab
  | n + 1, ab => weightLoop wD n (ab.1 / wD, ab.2 + ab.1)

/-- The value `1.0f / b` after the weight loop starting at `i = start` and the
final `b += a`. -/
def startWeightOf (start lC : Int) (wD : ℚ) : ℚ :=
  let ab := weightLoop wD (lC - start).toNat (1, 0)
  1 / (ab.2 + ab.1)

/-- The constructor `Noise(seed, lC, fS, fF, wD, am)` of a standard engine. -/
def Noise.standard (lib : Lib) (seed lC : Int) (fS fF wD am : ℚ) : Except Fault Noise :=
  if lC < 0 then .error .invalidParameter
  else if fS < 0 then .error .invalidParameter
  else if fF < 0 then .error .invalidParameter
  else if wD < 0 then .error .invalidParameter
  else if am < 0 then .error .invalidParameter
  else
    let N : Noise :=
      { m_gradients1D := [], m_gradients2D := [], m_perm := [], m_perms := []
        m_seed := seed, m_layerCount := lC, m_startFrequency := fS
        m_frequencyFactor := fF, m_startWeight := 0, m_weightDivisor := wD
        m_amplitude := am, m_isSeamless := false, m_type := NoiseType.PerlinNoise
        m_startLayer := 0, m_endLayer := 0 }
    .ok { N.init lib (lib.seed seed) with m_startWeight := startWeightOf 1 lC wD }

/-- The constructor `Noise(seed, lC, lS, lE, tR, wD, am)` of a seamless engine. -/
def Noise.seamless (lib : Lib) (seed lC lS lE tR : Int) (wD am : ℚ) : Except Fault Noise :=
  if lC < 0 then .error .invalidParameter
  else if lS < 0 then .error .invalidParameter
  else if lE < 0 then .error .invalidParameter
  else if tR < 0 then .error .invalidParameter
  else if wD < 0 then .error .invalidParameter
  else if am < 0 then .error .invalidParameter
  else
    match shl1 lS with
    | .error f => .error f
    | .ok p =>
      let N : Noise :=
        { m_gradients1D := [], m_gradients2D := [], m_perm := [], m_perms := []
          m_seed := seed, m_layerCount := lC, m_startFrequency := (tR : ℚ) / (p : ℚ)
          m_frequencyFactor := 2, m_startWeight := 0, m_weightDivisor := wD
          m_amplitude := am, m_isSeamless := true, m_type := NoiseType.PerlinNoise
          m_startLayer := lS, m_endLayer := lE }
      match N.init_seamless lib (lib.seed seed) with
      | .error f => .error f
      | .ok N1 => .ok { N1 with m_startWeight := startWeightOf lS lC wD }

/-! ## Samplers -/

/-- The clamping of negative coordinates used by the 2D samplers: when one
coordinate is negative both are set to `0`. -/
def clamp2 (x y : ℚ) : ℚ × ℚ := if x < 0 ∨ y < 0 then (0, 0) else (x, y)

/-- The clamping of a negative coordinate used by the 1D samplers. -/
def clamp1 (x : ℚ) : ℚ := if x < 0 then 0 else x

/-- The blend of the four corner dot products at the fractional position
`(nx, ny)`, shared by `n2` and `n2_seamless`. -/
def blend2 (nx ny : ℚ) (gXY gX1Y gXY1 gX1Y1 : Vec2) : ℚ :=
  let dp0 := nx * gXY.x + ny * gXY.y
  let dp1 := (nx - 1) * gX1Y.x + ny * gX1Y.y
  let dp2 := nx * gXY1.x + (ny - 1) * gXY1.y
  let dp3 := (nx - 1) * gX1Y1.x + (ny - 1) * gX1Y1.y
  let sx := S1 nx
  let sy := S1 ny
  let av1 := dp0 * (1 - sx) + dp1 * sx
  let av2 := dp2 * (1 - sx) + dp3 * sx
  av1 * (1 - sy) + av2 * sy

/-- The method `Noise::n1`. -/
def Noise.n1 (N : Noise) (x : ℚ) : Except Fault ℚ :=
  if N.m_isSeamless then .error .modeMismatch
  else do
    let x := clamp1 x
    let intX := intPart x
    let nx := x - (intX : ℚ)
    let p0 ← tableAt N.m_perm ((intX &&& maxValue : Nat) : Int)
    let g0 ← tableAt N.m_gradients1D ((p0 &&& maxValue : Nat) : Int)
    let p1 ← tableAt N.m_perm (((intX + 1) &&& maxValue : Nat) : Int)
    let g1 ← tableAt N.m_gradients1D ((p1 &&& maxValue : Nat) : Int)
    let dp0 := nx * g0
    let dp1 := (nx - 1) * g1
    let sx := S0 nx
    pure (dp0 * (1 - sx) + dp1 * sx)

/-- The method `Noise::n2`. -/
def Noise.n2 (N : Noise) (x y : ℚ) : Except Fault ℚ :=
  if N.m_isSeamless then .error .modeMismatch
  else do
    let c := clamp2 x y
    let intX := intPart c.1
    let intY := intPart c.2
    let nx := c.1 - (intX : ℚ)
    let ny := c.2 - (intY : ℚ)
    let pY ← tableAt N.m_perm ((intY &&& maxValue : Nat) : Int)
    let iXY ← tableAt N.m_perm (((intX + pY) &&& maxValue : Nat) : Int)
    let gXY ← tableAt N.m_gradients2D ((iXY &&& g2MaxValue : Nat) : Int)
    let iX1Y ← tableAt N.m_perm ((((intX + 1) + pY) &&& maxValue : Nat) : Int)
    let gX1Y ← tableAt N.m_gradients2D ((iX1Y &&& g2MaxValue : Nat) : Int)
    let pY1 ← tableAt N.m_perm (((intY + 1) &&& maxValue : Nat) : Int)
    let iXY1 ← tableAt N.m_perm (((intX + pY1) &&& maxValue : Nat) : Int)
    let gXY1 ← tableAt N.m_gradients2D ((iXY1 &&& g2MaxValue : Nat) : Int)
    let iX1Y1 ← tableAt N.m_perm ((((intX + 1) + pY1) &&& maxValue : Nat) : Int)
    let gX1Y1 ← tableAt N.m_gradients2D ((iX1Y1 &&& g2MaxValue : Nat) : Int)
    pure (blend2 nx ny gXY gX1Y gXY1 gX1Y1)

/-- The method `Noise::noiseValue`. -/
def Noise.noiseValue (lib : Lib) (N : Noise) (perlinValue : ℚ) : ℚ :=
  match N.m_type with
  | NoiseType.PerlinNoise => perlinValue
  | NoiseType.BillowyNoise => |perlinValue|
  | NoiseType.RidgidNoise => 1 - |perlinValue|
  | NoiseType.CosinusNoise => 1 - |lib.cos perlinValue|

/-- The variables `f`, `w` and `offset` of the layered samplers. -/
structure Octave where
  f : ℚ
  w : ℚ
  offset : ℚ
  deriving DecidableEq, Repr

/-- The values of `f`, `w` and `offset` before the first sample of every
layered sampler (`offset = 7.19f`). -/
def Noise.firstOctave (N : Noise) : Octave :=
  { f := N.m_startFrequency, w := N.m_startWeight, offset := 719 / 100 }

/-- The update of `f` and `w` at the start of an iteration of `n1_layered`. -/
def Noise.nextOctave1 (N : Noise) (o : Octave) : Octave :=
  { o with f := o.f / N.m_frequencyFactor, w := o.w / N.m_weightDivisor }

/-- The loop of `n1_layered`: `k` iterations. -/
def Noise.n1LayeredLoop (lib : Lib) (N : Noise) (x : ℚ) : Nat → Octave → ℚ → Except Fault ℚ
  | 0, _, n => .ok n
  | k + 1, o, n => do
    let o1 := N.nextOctave1 o
    let v ← N.n1 (x / o1.f)
    Noise.n1LayeredLoop lib N x k o1 (n + N.noiseValue lib v * o1.w)

/-- The method `Noise::n1_layered`. -/
def Noise.n1_layered (lib : Lib) (N : Noise) (x : ℚ) : Except Fault ℚ :=
  if N.m_isSeamless then .error .modeMismatch
  else do
    let x := clamp1 x
    let o := N.firstOctave
    let v ← N.n1 (x / o.f)
    let n ← Noise.n1LayeredLoop lib N x N.m_layerCount.toNat o (N.noiseValue lib v * o.w)
    pure (n * N.m_amplitude)

/-- The update of `f`, `w` and `offset` at the start of an iteration of
`n2_layered` (`offset *= 1.73f`). -/
def Noise.nextOctave2 (N : Noise) (o : Octave) : Octave :=
  { f := o.f * N.m_frequencyFactor, w := o.w / N.m_weightDivisor, offset := o.offset * (173 / 100) }

/-- One sample of `n2_layered` with the variables `o`:
`noiseValue(n2((x + offset) * (f / 1000), (y + offset * 2) * (f / 1000)))`. -/
def Noise.octaveSample2 (lib : Lib) (N : Noise) (x y : ℚ) (o : Octave) : Except Fault ℚ := do
  let v ← N.n2 ((x + o.offset) * (o.f / 1000)) ((y + o.offset * 2) * (o.f / 1000))
  pure (N.noiseValue lib v)

/-- The loop of `n2_layered`: `k` iterations. -/
def Noise.n2LayeredLoop (lib : Lib) (N : Noise) (x y : ℚ) : Nat → Octave → ℚ → Except Fault ℚ
  | 0, _, n => .ok n
  | k + 1, o, n => do
    let o1 := N.nextOctave2 o
    let v ← N.octaveSample2 lib x y o1
    Noise.n2LayeredLoop lib N x y k o1 (n + v * o1.w)

/-- The method `Noise::n2_layered`. -/
def Noise.n2_layered (lib : Lib) (N : Noise) (x y : ℚ) : Except Fault ℚ :=
  if N.m_isSeamless then .error .modeMismatch
  else do
    let c := clamp2 x y
    let o := N.firstOctave
    let v ← N.octaveSample2 lib c.1 c.2 o
    let n ← Noise.n2LayeredLoop lib N c.1 c.2 (N.m_layerCount - 1).toNat o (v * o.w)
    pure (n * N.m_amplitude)

/-- The weights `w` of the samples accumulated by `n2_layered`, in order: the
`w` of `firstOctave` and of its successive `nextOctave2` updates, one per
sample (`1 + (m_layerCount - 1)` samples). -/
def Noise.n2LayeredWeights (N : Noise) : List ℚ :=
  (List.range (1 + (N.m_layerCount - 1).toNat)).map (fun i => (N.nextOctave2^[i] N.firstOctave).w)

/-- Every call of `n2` made by `n2_layered(x, y)` has its coordinates inside the
range of `int`: the coordinates `(x + offset) * (f / 1000)` and
`(y + offset * 2) * (f / 1000)` of the sample before the loop and of the
`m_layerCount - 1` samples in it, the variables being those of `firstOctave`
and of its successive `nextOctave2` updates. -/
def Noise.n2LayeredInRange (N : Noise) (x y : ℚ) : Prop :=
  ∀ i : Nat, i ≤ (N.m_layerCount - 1).toNat →
    InIntRange (((clamp2 x y).1 + (N.nextOctave2^[i] N.firstOctave).offset) *
      ((N.nextOctave2^[i] N.firstOctave).f / 1000)) ∧
    InIntRange (((clamp2 x y).2 + (N.nextOctave2^[i] N.firstOctave).offset * 2) *
      ((N.nextOctave2^[i] N.firstOctave).f / 1000))

/-- The method `Noise::n2_seamless`. -/
def Noise.n2_seamless (N : Noise) (x y : ℚ) (layer limit : Int) : Except Fault ℚ :=
  if !N.m_isSeamless then .error .modeMismatch
  else do
    let c := clamp2 x y
    let intX := intPart c.1
    let intY := intPart c.2
    let nx := c.1 - (intX : ℚ)
    let ny := c.2 - (intY : ℚ)
    let perm ← tableAt N.m_perms layer
    let pY ← tableAt perm (andMask intY limit)
    let iXY ← tableAt perm (andMask (intX + pY) limit)
    let gXY ← tableAt N.m_gradients2D ((iXY &&& g2MaxValue : Nat) : Int)
    let iX1Y ← tableAt perm (andMask ((intX + 1) + pY) limit)
    let gX1Y ← tableAt N.m_gradients2D ((iX1Y &&& g2MaxValue : Nat) : Int)
    let pY1 ← tableAt perm (andMask (intY + 1) limit)
    let iXY1 ← tableAt perm (andMask (intX + pY1) limit)
    let gXY1 ← tableAt N.m_gradients2D ((iXY1 &&& g2MaxValue : Nat) : Int)
    let iX1Y1 ← tableAt perm (andMask ((intX + 1) + pY1) limit)
    let gX1Y1 ← tableAt N.m_gradients2D ((iX1Y1 &&& g2MaxValue : Nat) : Int)
    pure (blend2 nx ny gXY gX1Y gXY1 gX1Y1)

/-- The expression `(1 << (layer + 1)) - 1`. -/
def limitOf (layer : Int) : Except Fault Int :=
  match shl1 (layer + 1) with
  | .error f => .error f
  | .ok p => .ok ((p : Int) - 1)

/-- One sample of `n2_seamless_layered` with the variables `o`:
`noiseValue(n2_seamless((x + offset) / f, (y + offset * 2) / f, layer, limit))`
with `limit = (1 << (layer + 1)) - 1`. -/
def Noise.octaveSampleSeamless (lib : Lib) (N : Noise) (x y : ℚ) (o : Octave) (layer : Int) :
    Except Fault ℚ := do
  let limit ← limitOf layer
  let v ← N.n2_seamless ((x + o.offset) / o.f) ((y + o.offset * 2) / o.f) layer limit
  pure (N.noiseValue lib v)

/-- The update of `f`, `w` and `offset` in an iteration of `n2_seamless_layered`. -/
def Noise.nextOctaveSeamless (N : Noise) (o : Octave) : Octave :=
  { f := o.f / N.m_frequencyFactor, w := o.w / N.m_weightDivisor, offset := o.offset * (173 / 100) }

/-- The loop of `n2_seamless_layered`: `k` iterations from `i`. -/
def Noise.n2SeamlessLayeredLoop (lib : Lib) (N : Noise) (x y : ℚ) :
    Nat → Int → Octave → ℚ → Except Fault ℚ
  | 0, _, _, n => .ok n
  | k + 1, i, o, n => do
    let o1 := N.nextOctaveSeamless o
    let v ← N.octaveSampleSeamless lib x y o1 i
    Noise.n2SeamlessLayeredLoop lib N x y k (i + 1) o1 (n + v * o1.w)

/-- The method `Noise::n2_seamless_layered`. -/
def Noise.n2_seamless_layered (lib : Lib) (N : Noise) (x y : ℚ) : Except Fault ℚ :=
  if !N.m_isSeamless then .error .modeMismatch
  else do
    let c := clamp2 x y
    let o := N.firstOctave
    let v ← N.octaveSampleSeamless lib c.1 c.2 o (N.m_startLayer - 1)
    let n ← Noise.n2SeamlessLayeredLoop lib N c.1 c.2 (N.m_endLayer - N.m_startLayer).toNat
      N.m_startLayer o (v * o.w)
    pure (n * N.m_amplitude)

/-- Every call of `n2_seamless` made by `n2_seamless_layered(x, y)` has its
coordinates inside the range of `int`: the coordinates `(x + offset) / f` and
`(y + offset * 2) / f` of the sample before the loop and of the
`m_endLayer - m_startLayer` samples in it, the variables being those of
`firstOctave` and of its successive `nextOctaveSeamless` updates. -/
def Noise.n2SeamlessLayeredInRange (N : Noise) (x y : ℚ) : Prop :=
  ∀ i : Nat, i ≤ (N.m_endLayer - N.m_startLayer).toNat →
    InIntRange (((clamp2 x y).1 + (N.nextOctaveSeamless^[i] N.firstOctave).offset) /
      (N.nextOctaveSeamless^[i] N.firstOctave).f) ∧
    InIntRange (((clamp2 x y).2 + (N.nextOctaveSeamless^[i] N.firstOctave).offset * 2) /
      (N.nextOctaveSeamless^[i] N.firstOctave).f)

/-- The method `Noise::setNewSeed`. -/
def Noise.setNewSeed (lib : Lib) (N : Noise) (seed : Int) : Except Fault Noise :=
  let N1 := { N with m_seed := seed }
  if N1.m_isSeamless then N1.init_seamless lib (lib.seed seed)
  else .ok (N1.init lib (lib.seed seed))

/-! ## Data model of `Terrain` -/

/-- The struct `Vertex`. -/
structure Vertex where
  pos : Vec3
  texCoord : Vec2
  deriving DecidableEq, Repr

/-- The members of the class `Terrain`; `m_noise` is the engine the pointer
refers to. -/
structure Terrain where
  m_surfaceWidth : ℚ
  m_surfaceDepth : ℚ
  m_min : ℚ
  m_max : ℚ
  m_brightness : ℚ
  m_seamlessTexEnabled : Bool
  m_vertexDetail : Nat
  m_vpr : Nat
  m_vpc : Nat
  m_programId : Nat
  m_normalMapDetail : Nat
  m_normalMapWidth : Nat
  m_normalMapHeight : Nat
  m_elementsSize : Nat
  m_noise : Noise
  m_vertices : List Vertex
  m_elements : List Nat
  m_normalMap : List Vec3
  m_seamlessMap : List Vec3

/-- A value-initialised `Vertex`, as created by `vector::resize`. -/
def zeroVertex : Vertex := ⟨⟨0, 0, 0⟩, ⟨0, 0⟩⟩

/-- A loop `for (unsigned i = start; ...; i++) step(i)` of `n` iterations. -/
def forLoop {σ : Type} (step : Nat → σ → Except Fault σ) : Nat → Nat → σ → Except Fault σ
  | 0, _, s => .ok s
  | n + 1, i, s =>
    match step i s with
    | .error f => .error f
    | .ok s1 => forLoop step n (i + 1) s1

/-- The nested loops `for (z = 0; z < vpc; z++) for (x = 0; x < vpr; x++) step(x, z)`. -/
def gridLoop {σ : Type} (step : Nat → Nat → σ → Except Fault σ) (vpr vpc : Nat) (s : σ) :
    Except Fault σ :=
  forLoop (fun z s => forLoop (fun x s => step x z s) vpr 0 s) vpc 0 s

/-- The variables changed by the loops of `calculateVertices`. -/
structure VertState where
  vertices : List Vertex
  m_min : ℚ
  m_max : ℚ
  index : Nat

/-- The body of the first pair of loops of `calculateVertices`. -/
def Terrain.vertexStep (lib : Lib) (T : Terrain) (x z : Nat) (s : VertState) :
    Except Fault VertState :=
  let addWidth := T.m_surfaceWidth / (T.m_vpr : ℚ)
  let subDepth := T.m_surfaceDepth / (T.m_vpc : ℚ)
  let surfaceMidX := T.m_surfaceWidth / 2
  let surfaceMidZ := T.m_surfaceDepth / 2
  let textureCoordAddX := 1 / ((T.m_vpr : ℚ) - 1)
  let textureCoordAddY := 1 / ((T.m_vpc : ℚ) - 1)
  match T.m_noise.n2_layered lib ((x : ℚ) * addWidth) ((z : ℚ) * subDepth) with
  | .error f => .error f
  | .ok noiseValue =>
    if s.index < s.vertices.length then
      .ok { vertices := s.vertices.set s.index
              { pos := ⟨(x : ℚ) * addWidth - surfaceMidX, noiseValue,
                        (z : ℚ) * (-subDepth) + surfaceMidZ⟩
                texCoord := ⟨(x : ℚ) * textureCoordAddX, (z : ℚ) * textureCoordAddY⟩ }
            m_max := if noiseValue > s.m_max then noiseValue else s.m_max
            m_min := if noiseValue < s.m_min then noiseValue else s.m_min
            index := s.index + 1 }
    else .error .outOfRange

/-- The body of the second pair of loops of `calculateVertices`:
`m_vertices->at(index).pos.y -= m_min`. -/
def rebaseStep (s : VertState) : Except Fault VertState :=
  match s.vertices[s.index]? with
  | none => .error .outOfRange
  | some v =>
    .ok { s with
          vertices := s.vertices.set s.index { v with pos := { v.pos with y := v.pos.y - s.m_min } }
          index := s.index + 1 }

/-- The method `Terrain::calculateVertices` (the upload of `m_max - m_min` to
the shader is not part of the model). -/
def Terrain.calculateVertices (lib : Lib) (T : Terrain) : Except Fault Terrain :=
  match T.m_noise.n2_layered lib 0 0 with
  | .error f => .error f
  | .ok h0 =>
    let s0 : VertState :=
      { vertices := List.replicate (u32 (T.m_vpr * T.m_vpc)) zeroVertex
        m_min := h0, m_max := h0, index := 0 }
    match gridLoop (T.vertexStep lib) T.m_vpr T.m_vpc s0 with
    | .error f => .error f
    | .ok s1 =>
      match gridLoop (fun _ _ s => rebaseStep s) T.m_vpr T.m_vpc { s1 with index := 0 } with
      | .error f => .error f
      | .ok s2 => .ok { T with m_vertices := s2.vertices, m_min := s2.m_min, m_max := s2.m_max }

/-- The getter `Terrain::getMax`. -/
def Terrain.getMax (T : Terrain) : ℚ := T.m_max - T.m_min

/-- The restart index `~0` as a `GLuint`. -/
def restartIndex : Nat := 4294967295

/-- The variables changed by the loops of `calculateElements`. -/
structure ElemState where
  elements : List Nat
  bot : Nat
  top : Nat

/-- The inner loop of `calculateElements`, `n` iterations of
`push_back(bot++); push_back(top++)`. -/
def elementsRow : Nat → ElemState → ElemState
  | 0, s => s
  | n + 1, s =>
    elementsRow n
      { elements := (s.elements ++ [s.bot]) ++ [s.top], bot := u32 (s.bot + 1), top := u32 (s.top + 1) }

/-- The outer loop of `calculateElements`, `n` iterations: one row and
`push_back(~0)`. -/
def elementsLoop (vpr : Nat) : Nat → ElemState → ElemState
  | 0, s => s
  | n + 1, s =>
    let s1 := elementsRow vpr s
    elementsLoop vpr n { s1 with elements := s1.elements ++ [restartIndex] }

/-- The value of `elementSize` in `calculateElements`, computed on `unsigned`:
`((2 * m_vpr) * (m_vpc - 2)) + (2 * m_vpr) - (m_vpc - 2)`. -/
def elementSize (vpr vpc : Nat) : Nat :=
  u32Sub (u32 (u32 (u32 (2 * vpr) * u32Sub vpc 2) + u32 (2 * vpr))) (u32Sub vpc 2)

/-- The index list built by the loops of `calculateElements`. -/
def elementList (vpr vpc : Nat) : List Nat :=
  (elementsLoop vpr (u32Sub vpc 1) { elements := [], bot := 0, top := vpr }).elements

/-- The method `Terrain::calculateElements`. -/
def Terrain.calculateElements (T : Terrain) : Terrain :=
  { T with m_elements := elementList T.m_vpr T.m_vpc
           m_elementsSize := elementSize T.m_vpr T.m_vpc }

/-- The count that `Terrain::draw` passes to `glDrawElements`. -/
def Terrain.drawCount (T : Terrain) : Nat := T.m_elementsSize

/-- The constructor `Terrain(n, sW, sD, vD, nmD, progId)` (the uploads to the
shader are not part of the model). -/
def Terrain.create (lib : Lib) (n : Noise) (sW sD : ℚ) (vD nmD progId : Nat) :
    Except Fault Terrain :=
  if sW ≤ 0 ∨ sD ≤ 0 then .error .invalidParameter
  else if vD = 0 then .error .invalidParameter
  else if nmD = 0 then .error .invalidParameter
  else
    let T : Terrain :=
      { m_surfaceWidth := sW, m_surfaceDepth := sD, m_min := 0, m_max := 0
        m_brightness := 1, m_seamlessTexEnabled := true, m_vertexDetail := vD
        m_vpr := u32 (128 * vD), m_vpc := u32 (128 * vD), m_programId := progId
        m_normalMapDetail := nmD, m_normalMapWidth := u32 (256 * nmD)
        m_normalMapHeight := u32 (256 * nmD), m_elementsSize := 0, m_noise := n
        m_vertices := [], m_elements := [], m_normalMap := [], m_seamlessMap := [] }
    match T.calculateVertices lib with
    | .error f => .error f
    | .ok T1 => .ok T1.calculateElements

/-! ## Auxiliary definitions for the statements -/

/-- Table of layer `k` of a seamless engine with start layer `s`: `2^(k+s)`
entries that are a permutation of `0 .. 2^(k+s) - 1`. -/
def GoodTable (s k : Nat) (t : List Nat) : Prop :=
  t.length = 2 ^ (k + s) ∧ t.Perm (List.range (2 ^ (k + s)))

/-! ## Concrete inputs -/

/-- Sample library: polynomial stand-ins for `cos`, `sin` and `sqrt`, a linear
congruential stream for the engine. -/
def demoLib : Lib :=
  { cos := fun a => 1 - a * a / 2
    sin := fun a => a - a * a * a / 6
    sqrt := fun a => (a + 1) / 2
    seed := fun s n => (16807 * (s.toNat + n + 1)) % 2147483647
    dist1 := fun e => (((e 0 % 2000 : Nat) : ℚ) / 1000 - 1, e.drop 1) }

/-- Sample seamless engine state before its tables are built: three layers,
start layer 1. -/
def demoSeamlessConfig : Noise :=
  { m_gradients1D := [], m_gradients2D := [], m_perm := [], m_perms := []
    m_seed := 7, m_layerCount := 3, m_startFrequency := 32
    m_frequencyFactor := 2, m_startWeight := 1, m_weightDivisor := 2
    m_amplitude := 100, m_isSeamless := true, m_type := NoiseType.PerlinNoise
    m_startLayer := 1, m_endLayer := 3 }

/-- Eight sample directions for the gradient table. -/
def demoGradients : List Vec2 :=
  [⟨1, 0⟩, ⟨7 / 10, 7 / 10⟩, ⟨0, 1⟩, ⟨-7 / 10, 7 / 10⟩,
   ⟨-1, 0⟩, ⟨-7 / 10, -7 / 10⟩, ⟨0, -1⟩, ⟨7 / 10, -7 / 10⟩]

/-- Sample seamless engine with three per-layer tables of 2, 4 and 8 entries
(start layer 1). -/
def demoSeamlessNoise : Noise :=
  { demoSeamlessConfig with
    m_gradients2D := demoGradients
    m_perms := [[1, 0], [2, 0, 3, 1], [5, 2, 7, 0, 3, 6, 1, 4]] }

/-- What the seamless constructor establishes. -/
structure SeamlessBuilt (N : Noise) (L s e : Nat) (R : Int) (wD am : ℚ) : Prop where
  isSeamless : N.m_isSeamless = true
  layerCount : N.m_layerCount = (L : Int)
  startLayer : N.m_startLayer = (s : Int)
  endLayer : N.m_endLayer = (e : Int)
  startFrequency : N.m_startFrequency = (R : ℚ) / ((2 ^ s : Nat) : ℚ)
  frequencyFactor : N.m_frequencyFactor = 2
  weightDivisor : N.m_weightDivisor = wD
  amplitude : N.m_amplitude = am
  startWeight : N.m_startWeight = startWeightOf (s : Int) (L : Int) wD
  gradients : N.m_gradients2D.length = g2Size
  tablesLength : N.m_perms.length = L
  tables : ∀ i, i < L → ∃ t, N.m_perms[i]? = some t ∧ GoodTable s i t
  startBound : s < 31
  bound : L = 0 ∨ L + s ≤ 31

/-- Sample seamless engine as built by the seamless constructor: seed 7, three
layers, start layer 1, end layer 3, texture resolution 64, weight divisor 2,
amplitude 100. -/
def demoBuiltSeamless : Noise :=
  match Noise.seamless demoLib 7 3 1 3 64 2 100 with
  | .ok N => N
  | .error _ => demoSeamlessConfig

/-- Sample standard engine as built by the standard constructor: seed 5, three
layers, start frequency 20, frequency factor 2, weight divisor 2, amplitude 42. -/
def demoBuiltStandard : Noise :=
  match Noise.standard demoLib 5 3 20 2 2 42 with
  | .ok N => N
  | .error _ => demoSeamlessConfig

/-- Tables of a standard engine after `init`: 256 permutation entries and 8
gradients. -/
structure StandardReady (N : Noise) : Prop where
  notSeamless : N.m_isSeamless = false
  permLength : N.m_perm.length = permSize
  gradientsLength : N.m_gradients2D.length = g2Size

/-- The raw noise sample of grid point `(x, z)` in `calculateVertices`:
`n2_layered(x * addWidth, z * subDepth)`. -/
def Terrain.rawSample (lib : Lib) (T : Terrain) (x z : Nat) : Except Fault ℚ :=
  T.m_noise.n2_layered lib ((x : ℚ) * (T.m_surfaceWidth / (T.m_vpr : ℚ)))
    ((z : ℚ) * (T.m_surfaceDepth / (T.m_vpc : ℚ)))

/-- Every call of `n2` made by `calculateVertices` has its coordinates inside
the range of `int`: the calls for the sample at the origin and for the sample
of every grid point. -/
def Terrain.samplesInIntRange (T : Terrain) : Prop :=
  T.m_noise.n2LayeredInRange 0 0 ∧
  ∀ x z : Nat, x < T.m_vpr → z < T.m_vpc →
    T.m_noise.n2LayeredInRange ((x : ℚ) * (T.m_surfaceWidth / (T.m_vpr : ℚ)))
      ((z : ℚ) * (T.m_surfaceDepth / (T.m_vpc : ℚ)))

/-- The vertex that `calculateVertices` stores for grid point `(x, z)` when the
elevation is `h`. -/
def Terrain.gridVertex (T : Terrain) (x z : Nat) (h : ℚ) : Vertex :=
  { pos := ⟨(x : ℚ) * (T.m_surfaceWidth / (T.m_vpr : ℚ)) - T.m_surfaceWidth / 2, h,
            (z : ℚ) * (-(T.m_surfaceDepth / (T.m_vpc : ℚ))) + T.m_surfaceDepth / 2⟩
    texCoord := ⟨(x : ℚ) * (1 / ((T.m_vpr : ℚ) - 1)), (z : ℚ) * (1 / ((T.m_vpc : ℚ) - 1))⟩ }

/-- State of the first pass of `calculateVertices` after `k` grid points, the
raw sample of point `j` being `G j` and the sample at the origin `h0`. -/
structure FirstPassInv (T : Terrain) (G : Nat → ℚ) (h0 : ℚ) (n k : Nat) (s : VertState) : Prop where
  index : s.index = k
  length : s.vertices.length = n
  done : ∀ j, j < k → s.vertices[j]? = some (T.gridVertex (j % T.m_vpr) (j / T.m_vpr) (G j))
  lower : ∀ j, j < k → s.m_min ≤ G j
  upper : ∀ j, j < k → G j ≤ s.m_max
  lower0 : s.m_min ≤ h0
  upper0 : h0 ≤ s.m_max
  minAttained : s.m_min = h0 ∨ ∃ j, j < k ∧ s.m_min = G j
  maxAttained : s.m_max = h0 ∨ ∃ j, j < k ∧ s.m_max = G j

/-- State of the second pass of `calculateVertices` after `k` grid points. -/
structure SecondPassInv (T : Terrain) (G : Nat → ℚ) (m M : ℚ) (n k : Nat) (s : VertState) :
    Prop where
  index : s.index = k
  min : s.m_min = m
  max : s.m_max = M
  length : s.vertices.length = n
  done : ∀ j, j < k → s.vertices[j]? = some (T.gridVertex (j % T.m_vpr) (j / T.m_vpr) (G j - m))
  todo : ∀ j, k ≤ j → j < n →
    s.vertices[j]? = some (T.gridVertex (j % T.m_vpr) (j / T.m_vpr) (G j))

/-- Result of `calculateVertices` on `T`, the raw sample of point `j` (row-major)
being `G j` and the sample at the origin `h0`. -/
structure VerticesBuilt (T T1 : Terrain) (G : Nat → ℚ) (h0 : ℚ) : Prop where
  frame : T1 = { T with m_vertices := T1.m_vertices, m_min := T1.m_min, m_max := T1.m_max }
  length : T1.m_vertices.length = T.m_vpr * T.m_vpc
  vertices : ∀ j, j < T.m_vpr * T.m_vpc →
    T1.m_vertices[j]? = some (T.gridVertex (j % T.m_vpr) (j / T.m_vpr) (G j - T1.m_min))
  lower : ∀ j, j < T.m_vpr * T.m_vpc → T1.m_min ≤ G j
  upper : ∀ j, j < T.m_vpr * T.m_vpc → G j ≤ T1.m_max
  lower0 : T1.m_min ≤ h0
  upper0 : h0 ≤ T1.m_max
  minAttained : T1.m_min = h0 ∨ ∃ j, j < T.m_vpr * T.m_vpc ∧ T1.m_min = G j
  maxAttained : T1.m_max = h0 ∨ ∃ j, j < T.m_vpr * T.m_vpc ∧ T1.m_max = G j

/-- Sample terrain state before `calculateVertices`: the 128 x 128 grid of the
constructor call `Terrain(noise, 128, 128, 1, 1, progId)` on the sample
standard engine. -/
def demoTerrain : Terrain :=
  { m_surfaceWidth := 128, m_surfaceDepth := 128, m_min := 0, m_max := 0
    m_brightness := 1, m_seamlessTexEnabled := true, m_vertexDetail := 1
    m_vpr := 128, m_vpc := 128, m_programId := 1
    m_normalMapDetail := 1, m_normalMapWidth := 256
    m_normalMapHeight := 256, m_elementsSize := 0, m_noise := demoBuiltStandard
    m_vertices := [], m_elements := [], m_normalMap := [], m_seamlessMap := [] }

/-- The entry that position `p` of the index list of a grid with `c` columns
holds: each strip row is a block of `2 * c + 1` entries, the bottom and top
vertex index alternating and the restart index last. -/
def stripEntry (c p : Nat) : Nat :=
  let y := p / (2 * c + 1)
  let q := p % (2 * c + 1)
  if q = 2 * c then restartIndex
  else if q % 2 = 0 then u32 (y * c + q / 2)
  else u32 (c + y * c + q / 2)

/-- State of the loops of `calculateElements` after `y` complete strip rows and
`x` columns of the next one. -/
structure StripInv (c y x : Nat) (s : ElemState) : Prop where
  length : s.elements.length = y * (2 * c + 1) + 2 * x
  bot : s.bot = u32 (y * c + x)
  top : s.top = u32 (c + y * c + x)
  entries : ∀ p, p < s.elements.length → s.elements[p]? = some (stripEntry c p)

/-- Sample library whose engine returns `0, 1, 2, ...` after seeding, so that
every swap of `init` exchanges an entry with itself. -/
def identityLib : Lib := { demoLib with seed := fun _ n => n }

/-- Sample standard engine built on `identityLib` with the parameters of the
scenario: seed 5, one layer, start frequency 20, frequency factor 2, weight
divisor 2, amplitude 42. -/
def demoIdentityStandard : Noise :=
  match Noise.standard identityLib 5 1 20 2 2 42 with
  | .ok N => N
  | .error _ => demoSeamlessConfig

/-! ## Normal map and seamless map

The normal computations are written for an arbitrary field `K` standing for
`float`, with the square root as a parameter: the methods of `Terrain` use
`K = ℚ` and the library `sqrt`, statements about exact real arithmetic use
`K = ℝ` and the real square root. -/

/-- The difference `a - b` of two vectors. -/
def Vector3.sub {K : Type} [Field K] (a b : Vector3 K) : Vector3 K :=
  ⟨a.x - b.x, a.y - b.y, a.z - b.z⟩

/-- The sum `a + b` of two vectors. -/
def Vector3.add {K : Type} [Field K] (a b : Vector3 K) : Vector3 K :=
  ⟨a.x + b.x, a.y + b.y, a.z + b.z⟩

/-- The vector `-a`. -/
def Vector3.neg {K : Type} [Field K] (a : Vector3 K) : Vector3 K := ⟨-a.x, -a.y, -a.z⟩

/-- The vector `vec3(0.0, 0.0, 0.0)`. -/
def Vector3.zero {K : Type} [Field K] : Vector3 K := ⟨0, 0, 0⟩

/-- The function `cross` of GLM. -/
def Vector3.cross {K : Type} [Field K] (a b : Vector3 K) : Vector3 K :=
  ⟨a.y * b.z - b.y * a.z, a.z * b.x - b.z * a.x, a.x * b.y - b.x * a.y⟩

/-- The function `dot` of GLM. -/
def Vector3.dot {K : Type} [Field K] (a b : Vector3 K) : K := a.x * b.x + a.y * b.y + a.z * b.z

/-- The function `normalize` of GLM: `v * inversesqrt(dot(v, v))`. -/
def Vector3.normalize {K : Type} [Field K] (sqrt : K → K) (v : Vector3 K) : Vector3 K :=
  ⟨v.x * (1 / sqrt (v.dot v)), v.y * (1 / sqrt (v.dot v)), v.z * (1 / sqrt (v.dot v))⟩

/-- The function `length` of GLM: `sqrt(dot(v, v))`. -/
def Vector3.length {K : Type} [Field K] (sqrt : K → K) (v : Vector3 K) : K := sqrt (v.dot v)

/-- The contribution `-cross(a - current, b - current)` of a pair of neighbours,
the zero vector when one of them is missing. -/
def pairNormal {K : Type} [Field K] (a b : Option (Vector3 K)) (current : Vector3 K) :
    Vector3 K :=
  match a, b with
  | some a, some b => ((a.sub current).cross (b.sub current)).neg
  | _, _ => Vector3.zero

/-- The number of neighbour pairs among (left, bottom), (bottom, right),
(right, top), (top, left) of which both members exist. -/
def pairCount {K : Type} (left bottom right top : Option (Vector3 K)) : Nat :=
  (if left.isSome ∧ bottom.isSome then 1 else 0) + (if bottom.isSome ∧ right.isSome then 1 else 0) +
  (if right.isSome ∧ top.isSome then 1 else 0) + (if top.isSome ∧ left.isSome then 1 else 0)

/-- A neighbour of the current texel: read from `noise_values[i]` when the
condition `c` holds, absent otherwise. -/
def neighbour {K : Type} (c : Bool) (noise_values : List K) (i : Nat) (px pz : K) :
    Except Fault (Option (Vector3 K)) :=
  if c then
    match tableAt noise_values (i : Int) with
    | .error f => .error f
    | .ok h => .ok (some ⟨px, h, pz⟩)
  else .ok none

/-- The variables changed by the loops that calculate the normals. -/
structure NormalState (K : Type) where
  normals : List (Vector3 K)
  index : Nat

/-- The four neighbours `(left, bottom, right, top)` that the loop body reads
for the texel `(x, z)` at position `index`; `cx` and `cz` give the x- and
z-coordinate of a column and a row.  The differences `x - 1`, `z - 1`,
`index - 1` and `index - width` are taken only under `x > 0` and `z > 0`. -/
def texelNeighbours {K : Type} (cx cz : Nat → K) (width height : Nat) (noise_values : List K)
    (x z index : Nat) :
    Except Fault (Option (Vector3 K) × Option (Vector3 K) × Option (Vector3 K) ×
      Option (Vector3 K)) :=
  match neighbour (decide (0 < x)) noise_values (index - 1) (cx (x - 1)) (cz z) with
  | .error f => .error f
  | .ok left =>
    match neighbour (decide (0 < z)) noise_values (index - width) (cx x) (cz (z - 1)) with
    | .error f => .error f
    | .ok bottom =>
      match neighbour (decide (x < u32Sub width 1)) noise_values (index + 1) (cx (x + 1))
          (cz z) with
      | .error f => .error f
      | .ok right =>
        match neighbour (decide (z < u32Sub height 1)) noise_values (index + width) (cx x)
            (cz (z + 1)) with
        | .error f => .error f
        | .ok top => .ok (left, bottom, right, top)

/-- The sum `n1 + n2 + n3 + n4` of the contributions of the neighbour pairs. -/
def normalSum {K : Type} [Field K] (current : Vector3 K)
    (nb : Option (Vector3 K) × Option (Vector3 K) × Option (Vector3 K) × Option (Vector3 K)) :
    Vector3 K :=
  let n1 := pairNormal nb.1 nb.2.1 current
  let n2 := pairNormal nb.2.1 nb.2.2.1 current
  let n3 := pairNormal nb.2.2.1 nb.2.2.2 current
  let n4 := pairNormal nb.2.2.2 nb.1 current
  ((n1.add n2).add n3).add n4

/-- The body of the loops that calculate the normals, shared by
`calculateNormalMap` and `calculateSeamlessMap`. -/
def normalStep {K : Type} [Field K] (sqrt : K → K) (cx cz : Nat → K) (width height : Nat)
    (noise_values : List K) (x z : Nat) (s : NormalState K) : Except Fault (NormalState K) :=
  match tableAt noise_values (s.index : Int) with
  | .error f => .error f
  | .ok h =>
    match texelNeighbours cx cz width height noise_values x z s.index with
    | .error f => .error f
    | .ok nb =>
      .ok { normals := s.normals ++ [(normalSum ⟨cx x, h, cz z⟩ nb).normalize sqrt]
            index := s.index + 1 }

/-- The loops `for (z < height) for (x < width)` that calculate the normals
from the elevations `noise_values`. -/
def normalsOf {K : Type} [Field K] (sqrt : K → K) (cx cz : Nat → K) (width height : Nat)
    (noise_values : List K) : Except Fault (List (Vector3 K)) :=
  match gridLoop (normalStep sqrt cx cz width height noise_values) width height
      { normals := [], index := 0 } with
  | .error f => .error f
  | .ok s => .ok s.normals

/-- The x-coordinate `(x / widthDivisor) * addWidth` of column `x` in
`calculateNormalMap`. -/
def Terrain.mapX {K : Type} [Field K] (T : Terrain) (x : Nat) : K :=
  ((x : K) / (((u32Sub T.m_normalMapWidth 1 : Nat) : K) / ((u32Sub T.m_vpr 1 : Nat) : K))) *
    ((T.m_surfaceWidth : K) / ((T.m_vpr : Nat) : K))

/-- The z-coordinate `(z / heightDivisor) * subDepth` of row `z` in
`calculateNormalMap`. -/
def Terrain.mapZ {K : Type} [Field K] (T : Terrain) (z : Nat) : K :=
  ((z : K) / (((u32Sub T.m_normalMapHeight 1 : Nat) : K) / ((u32Sub T.m_vpc 1 : Nat) : K))) *
    ((T.m_surfaceDepth : K) / ((T.m_vpc : Nat) : K))

/-- The normals that `calculateNormalMap` computes from the elevations
`noise_values`. -/
def Terrain.normalMapNormals {K : Type} [Field K] (sqrt : K → K) (T : Terrain)
    (noise_values : List K) : Except Fault (List (Vector3 K)) :=
  normalsOf sqrt T.mapX T.mapZ T.m_normalMapWidth T.m_normalMapHeight noise_values

/-- The normals that `calculateSeamlessMap` computes from the elevations
`noise_values`: column `x` and row `z` have the coordinates `x` and `z`. -/
def seamlessMapNormals {K : Type} [Field K] (sqrt : K → K) (resolution : Nat)
    (noise_values : List K) : Except Fault (List (Vector3 K)) :=
  normalsOf sqrt (fun x => (x : K)) (fun z => (z : K)) resolution resolution noise_values

/-- The first branch of `calculateNormalMap` filling `noise_values`: a fresh
sample `n2_layered((x / widthDivisor) * addWidth, (y / heightDivisor) * subDepth)`
for every texel. -/
def Terrain.resampledElevations (lib : Lib) (T : Terrain) : Except Fault (List ℚ) :=
  gridLoop (fun x y (nv : List ℚ) =>
      match T.m_noise.n2_layered lib (T.mapX x) (T.mapZ y) with
      | .error f => .error f
      | .ok v => .ok (nv ++ [v]))
    T.m_normalMapWidth T.m_normalMapHeight []

/-- The second branch of `calculateNormalMap` filling `noise_values`: the
height `m_vertices->at(index).pos.y` of the vertices, in order. -/
def Terrain.vertexElevations (T : Terrain) : Except Fault (List ℚ) :=
  match gridLoop (fun _ _ (s : List ℚ × Nat) =>
      match T.m_vertices[s.2]? with
      | none => .error .outOfRange
      | some v => .ok (s.1 ++ [v.pos.y], s.2 + 1))
    T.m_normalMapWidth T.m_normalMapHeight ([], 0) with
  | .error f => .error f
  | .ok s => .ok s.1

/-- The elevations of `calculateNormalMap`: the heights of the vertices when the
map has the dimensions of the vertex grid, fresh samples of `n2_layered`
otherwise. -/
def Terrain.normalMapElevations (lib : Lib) (T : Terrain) : Except Fault (List ℚ) :=
  if T.m_normalMapWidth ≠ T.m_vpr ∨ T.m_normalMapHeight ≠ T.m_vpc then T.resampledElevations lib
  else T.vertexElevations

/-- The method `Terrain::calculateNormalMap` with `float` read as `K`. -/
def Terrain.normalMapOver (K : Type) [Field K] (sqrt : K → K) (lib : Lib) (T : Terrain) :
    Except Fault (List (Vector3 K)) :=
  match T.normalMapElevations lib with
  | .error f => .error f
  | .ok nv => T.normalMapNormals sqrt (List.map (fun (v : ℚ) => (v : K)) nv)

/-- The method `Terrain::calculateNormalMap`. -/
def Terrain.calculateNormalMap (lib : Lib) (T : Terrain) : Except Fault Terrain :=
  match T.normalMapOver ℚ lib.sqrt lib with
  | .error f => .error f
  | .ok m => .ok { T with m_normalMap := m }

/-- The elevations of `calculateSeamlessMap`: `n.n2_seamless_layered(x, y)` for
every texel. -/
def seamlessMapElevations (lib : Lib) (n : Noise) (resolution : Nat) : Except Fault (List ℚ) :=
  gridLoop (fun x y (nv : List ℚ) =>
      match n.n2_seamless_layered lib (x : ℚ) (y : ℚ) with
      | .error f => .error f
      | .ok v => .ok (nv ++ [v]))
    resolution resolution []

/-- The method `Terrain::calculateSeamlessMap` with `float` read as `K`. -/
def seamlessMapOver (K : Type) [Field K] (sqrt : K → K) (lib : Lib) (n : Noise)
    (resolution : Nat) : Except Fault (List (Vector3 K)) :=
  match seamlessMapElevations lib n resolution with
  | .error f => .error f
  | .ok nv => seamlessMapNormals sqrt resolution (List.map (fun (v : ℚ) => (v : K)) nv)

/-- The method `Terrain::calculateSeamlessMap`. -/
def Terrain.calculateSeamlessMap (lib : Lib) (T : Terrain) (n : Noise) (resolution : Nat) :
    Except Fault Terrain :=
  match seamlessMapOver ℚ lib.sqrt lib n resolution with
  | .error f => .error f
  | .ok m => .ok { T with m_seamlessMap := m }

/-- The method `Terrain::getNormalMap`. -/
def Terrain.getNormalMap (lib : Lib) (T : Terrain) (detail : Nat) : Except Fault Terrain :=
  if detail = 0 then .error .invalidParameter
  else
    Terrain.calculateNormalMap lib
      { T with m_normalMapDetail := detail, m_normalMapWidth := u32 (256 * detail),
               m_normalMapHeight := u32 (256 * detail) }

/-- The method `Terrain::getSeamlessMap`. -/
def Terrain.getSeamlessMap (lib : Lib) (T : Terrain) (n : Noise) (resolution : Nat) :
    Except Fault Terrain :=
  if resolution = 0 then .error .invalidParameter
  else T.calculateSeamlessMap lib n resolution

/-! ## Mutators -/

/-- The method `Noise::setStartLayer`. -/
def Noise.setStartLayer (N : Noise) (startLayer : Int) : Noise :=
  { N with m_startLayer := startLayer }

/-- The method `Noise::setEndLayer`. -/
def Noise.setEndLayer (N : Noise) (endLayer : Int) : Noise := { N with m_endLayer := endLayer }

/-- The method `Noise::setLayerCount`. -/
def Noise.setLayerCount (N : Noise) (layerCount : Int) : Noise :=
  { N with m_layerCount := layerCount }

/-- The method `Noise::setStartFrequency`. -/
def Noise.setStartFrequency (N : Noise) (startFrequency : ℚ) : Noise :=
  { N with m_startFrequency := startFrequency }

/-- The method `Noise::setFrequencyFactor`. -/
def Noise.setFrequencyFactor (N : Noise) (frequencyFactor : ℚ) : Noise :=
  { N with m_frequencyFactor := frequencyFactor }

/-- The method `Noise::setWeightDivisor`. -/
def Noise.setWeightDivisor (N : Noise) (weightDivisor : ℚ) : Noise :=
  { N with m_weightDivisor := weightDivisor }

/-- The method `Noise::setAmplitude`. -/
def Noise.setAmplitude (N : Noise) (amplitude : ℚ) : Noise := { N with m_amplitude := amplitude }

/-- The method `Noise::setNoiseType`. -/
def Noise.setNoiseType (N : Noise) (type : NoiseType) : Noise := { N with m_type := type }

/-- The conversion of an `unsigned` argument to an `int` parameter. -/
def unsignedToInt (n : Nat) : Int :=
  if n < 2147483648 then (n : Int) else (n : Int) - 4294967296

/-- The method `Terrain::setNoise`, acting on the engine the terrain refers to. -/
def Terrain.setNoise (lib : Lib) (T : Terrain) (seed : Int) (lC : Nat) (sF fF wD a : ℚ) :
    Except Fault Terrain :=
  match T.m_noise.setNewSeed lib seed with
  | .error f => .error f
  | .ok N =>
    .ok { T with
          m_noise := ((((N.setLayerCount (unsignedToInt lC)).setStartFrequency sF).setFrequencyFactor
            fF).setWeightDivisor wD).setAmplitude a }

/-! ## Octaves of the layered samplers -/

/-- The weights `w` of the samples accumulated by `n1_layered`, in order: the
`w` of `firstOctave` and of its successive `nextOctave1` updates, one per
sample (`1 + m_layerCount` samples: one before the loop and one per iteration
`i = 0 .. m_layerCount - 1`). -/
def Noise.n1LayeredWeights (N : Noise) : List ℚ :=
  (List.range (1 + N.m_layerCount.toNat)).map (fun i => (N.nextOctave1^[i] N.firstOctave).w)

/-- The weights `w` of the samples accumulated by `n2_seamless_layered`, in
order: one sample before the loop and one per iteration
`i = m_startLayer .. m_endLayer - 1`. -/
def Noise.n2SeamlessLayeredWeights (N : Noise) : List ℚ :=
  (List.range (1 + (N.m_endLayer - N.m_startLayer).toNat)).map
    (fun i => (N.nextOctaveSeamless^[i] N.firstOctave).w)

/-- The values of `layer` in the calls `n2_seamless(.., layer, limit)` made by
`n2_seamless_layered`, in order: `m_startLayer - 1` before the loop, then
`i = m_startLayer .. m_endLayer - 1`. -/
def Noise.seamlessLayers (N : Noise) : List Int :=
  (N.m_startLayer - 1) ::
    (List.range (N.m_endLayer - N.m_startLayer).toNat).map
      (fun (k : Nat) => N.m_startLayer + (k : Int))

/-- The seamless engine of `main.cpp`, `Noise(20340, 10, 2, 10, 2048, 2.2f, 100.0f)`,
on the sample library: ten layers, start layer 2, end layer 10. -/
def demoMainSeamless : Noise :=
  match Noise.seamless demoLib 20340 10 2 10 2048 (11 / 5) 100 with
  | .ok N => N
  | .error _ => demoSeamlessConfig

/-- Sample seamless engine whose end layer is below its layer count: three
layers, start layer 1, end layer 2, resolution 64, weight divisor 2. -/
def demoShortSeamless : Noise :=
  match Noise.seamless demoLib 7 3 1 2 64 2 100 with
  | .ok N => N
  | .error _ => demoSeamlessConfig

/-- Sample terrain state `Terrain(noise, 128, 128, 1, 1, progId)` on the engine
`Noise(5, 1, 20, 2, 2, 42)` built on `identityLib`. -/
def demoIdentityTerrain : Terrain := { demoTerrain with m_noise := demoIdentityStandard }

/-- Sample terrain state whose vertex grid has the dimensions of its normal
map: vertex detail 2 (256 x 256 vertices), normal map detail 1 (256 x 256
texels), on the sample standard engine. -/
def demoSquareTerrain : Terrain :=
  { demoTerrain with m_vertexDetail := 2, m_vpr := 256, m_vpc := 256 }

/-! ## A library with unit gradients and a chosen engine stream -/

/-- The index of the multiple of `tau / 8` nearest to `|a|`, modulo 8. -/
def octantIndex (a : ℚ) : Nat := ⌊|a| / (tau / (g2Size : ℚ)) + 1 / 2⌋₊ % 8

/-- The cosine of `k * tau / 8` to four decimals. -/
def octantCos : Nat → ℚ
  | 0 => 1
  | 1 => 7071 / 10000
  | 2 => 0
  | 3 => -(7071 / 10000)
  | 4 => -1
  | 5 => -(7071 / 10000)
  | 6 => 0
  | _ => 7071 / 10000

/-- The sine of `k * tau / 8` to four decimals. -/
def octantSin : Nat → ℚ
  | 0 => 0
  | 1 => 7071 / 10000
  | 2 => 1
  | 3 => 7071 / 10000
  | 4 => 0
  | 5 => -(7071 / 10000)
  | 6 => -1
  | _ => -(7071 / 10000)

/-- An engine output stream: `eng()` returns `n` at call `n`, except at nine
calls. -/
def craftedStream (n : Nat) : Nat :=
  if n = 1 then 16 else if n = 2 then 32 else if n = 3 then 17 else if n = 5 then 18
  else if n = 7 then 19 else if n = 32 then 39 else if n = 33 then 37 else if n = 34 then 35
  else if n = 35 then 41 else n

/-- The permutation that `init` builds from `craftedStream`: the identity except
at sixteen entries. -/
def craftedPerm (n : Nat) : Nat :=
  if n = 1 then 16 else if n = 16 then 1 else if n = 3 then 17 else if n = 17 then 3
  else if n = 5 then 18 else if n = 18 then 5 else if n = 7 then 19 else if n = 19 then 7
  else if n = 33 then 37 else if n = 37 then 33 else if n = 2 then 32 else if n = 32 then 39
  else if n = 39 then 2 else if n = 34 then 35 else if n = 35 then 41 else if n = 41 then 34
  else n

/-- Sample library with gradients of unit length: `cos` and `sin` take the
value, to four decimals, of the nearest multiple of `tau / 8` (the angles that
`init` uses are exactly these multiples), and the engine returns
`craftedStream` after seeding. -/
def craftedLib : Lib :=
  { cos := fun a => octantCos (octantIndex a)
    sin := fun a => if a < 0 then -octantSin (octantIndex a) else octantSin (octantIndex a)
    sqrt := demoLib.sqrt
    seed := fun _ => craftedStream
    dist1 := demoLib.dist1 }

/-- The standard engine of the scenario, `Noise(5, 1, 20, 2, 2, 42)`, built on
`craftedLib`. -/
def demoCraftedStandard : Noise :=
  match Noise.standard craftedLib 5 1 20 2 2 42 with
  | .ok N => N
  | .error _ => demoSeamlessConfig

/-- The terrain state of the scenario, `Terrain(noise, 128, 128, 1, 1, progId)`,
on `demoCraftedStandard`. -/
def demoCraftedTerrain : Terrain := { demoTerrain with m_noise := demoCraftedStandard }

/-- The terrain state of the scenario on the engine `demoCraftedStandard` after
`setNoiseType(NoiseType::BillowyNoise)`. -/
def demoBillowyTerrain : Terrain :=
  { demoTerrain with m_noise := demoCraftedStandard.setNoiseType NoiseType.BillowyNoise }

/-! ## Permutation tables: proofs -/

theorem swapAt_length (t : List Nat) (i j : Nat) : (swapAt t i j).length = t.length := by
  simp [swapAt]

theorem swapAt_perm (t : List Nat) (i j : Nat) (hi : i < t.length) (hj : j < t.length) :
    (swapAt t i j).Perm t := by
  rw [List.perm_iff_count]
  intro b
  have hj' : j < (t.set i (t.getD j 0)).length := by simpa using hj
  have h1 := List.count_set (t.getD i 0) b (t.set i (t.getD j 0)) j hj'
  have h2 := List.count_set (t.getD j 0) b t i hi
  have h3 : (t.set i (t.getD j 0))[j] = t[j] := by
    rw [List.getElem_set]
    split
    · rename_i h; subst h; simp [List.getD_eq_getElem?_getD, List.getElem?_eq_getElem hi]
    · rfl
  have h4 : t.getD i 0 = t[i] := by simp [List.getD_eq_getElem?_getD, List.getElem?_eq_getElem hi]
  have h5 : t.getD j 0 = t[j] := by simp [List.getD_eq_getElem?_getD, List.getElem?_eq_getElem hj]
  have h6 : (if t[i] == b then 1 else 0) ≤ t.count b := by
    split
    · rename_i h
      have : t[i] = b := by simpa using h
      have hm : b ∈ t := this ▸ List.getElem_mem hi
      exact List.count_pos_iff.mpr hm
    · exact Nat.zero_le _
  unfold swapAt
  rw [h1, h2, h3, h4, h5]
  omega

theorem swapTarget_lt (r size : Nat) (h : 0 < size) : swapTarget r size < size := by
  have : r &&& (size - 1) ≤ size - 1 := Nat.and_le_right
  unfold swapTarget
  omega

theorem shuffle_aux (e : Engine) (size : Nat) (l : List Nat) (t : List Nat)
    (hl : ∀ j ∈ l, j < size) (ht : t.length = size) :
    (l.foldl (fun t j => swapAt t j (swapTarget (e j) size)) t).Perm t ∧
    (l.foldl (fun t j => swapAt t j (swapTarget (e j) size)) t).length = size := by
  induction l generalizing t with
  | nil => exact ⟨List.Perm.refl _, ht⟩
  | cons a l ih =>
    have ha : a < size := hl a (List.mem_cons_self _ _)
    have hs : 0 < size := by omega
    have hlen : (swapAt t a (swapTarget (e a) size)).length = size := by
      rw [swapAt_length, ht]
    have hp : (swapAt t a (swapTarget (e a) size)).Perm t :=
      swapAt_perm t a _ (by omega) (by have := swapTarget_lt (e a) size hs; omega)
    obtain ⟨h1, h2⟩ := ih (swapAt t a (swapTarget (e a) size))
      (fun j hj => hl j (List.mem_cons_of_mem _ hj)) hlen
    exact ⟨h1.trans hp, h2⟩

theorem shuffle_perm (e : Engine) (size : Nat) :
    (shuffle e size (identityTable size)).Perm (List.range size) ∧
    (shuffle e size (identityTable size)).length = size :=
  shuffle_aux e size (List.range size) (List.range size) (fun _ hj => List.mem_range.mp hj)
    (List.length_range size)

theorem perm_range_count {t : List Nat} {n : Nat} (h : t.Perm (List.range n)) (v : Nat)
    (hv : v < n) : t.count v = 1 := by
  rw [h.count_eq]
  exact List.count_eq_one_of_mem (List.nodup_range n) (List.mem_range.mpr hv)

theorem perm_range_lt {t : List Nat} {n : Nat} (h : t.Perm (List.range n)) (v : Nat)
    (hv : v ∈ t) : v < n :=
  List.mem_range.mp (h.subset hv)

/-- C1: for every state of the random engine, after `Noise::init` the table
`m_perm` has 256 entries and is a permutation of `0..255` (every value below
256 occurs exactly once and nothing else occurs), and every index
`eng() & 255` that an entry is swapped with lies inside the table. -/
theorem init_perm_is_permutation (lib : Lib) (e : Engine) (N : Noise) :
    (N.init lib e).m_perm.length = 256 ∧
    (N.init lib e).m_perm.Perm (List.range 256) ∧
    (∀ v, v < 256 → (N.init lib e).m_perm.count v = 1) ∧
    (∀ v, v ∈ (N.init lib e).m_perm → v < 256) ∧
    (∀ r : Nat, swapTarget r permSize < (N.init lib e).m_perm.length) := by
  have hm : (N.init lib e).m_perm = initPerm e := by simp only [Noise.init]
  have h256 : permSize = 256 := rfl
  rw [hm, ← h256]
  unfold initPerm
  obtain ⟨hp, hl⟩ := shuffle_perm e permSize
  refine ⟨hl, hp, fun v hv => perm_range_count hp v hv, fun v hv => perm_range_lt hp v hv, ?_⟩
  intro r
  rw [hl]
  exact swapTarget_lt r permSize (by decide)

theorem shl1_ok {k : Int} {p : Nat} (h : shl1 k = .ok p) : 0 ≤ k ∧ k < 31 ∧ p = 2 ^ k.toNat := by
  unfold shl1 at h
  split at h
  · rename_i hk
    injection h with h
    exact ⟨hk.1, hk.2, h.symm⟩
  · cases h

theorem shl1_of_lt {k : Int} (h0 : 0 ≤ k) (h1 : k < 31) : shl1 k = .ok (2 ^ k.toNat) := by
  unfold shl1
  rw [if_pos ⟨h0, h1⟩]

theorem initSeamlessLoop_spec (s : Nat) (n : Nat) :
    ∀ (i : Nat) (e : Engine) (perms out : List (List Nat)),
      initSeamlessLoop (s : Int) n i e perms = .ok out → i + n ≤ perms.length →
      out.length = perms.length ∧
      (∀ k, k < i → out[k]? = perms[k]?) ∧
      (∀ k, i ≤ k → k < i + n → ∃ t, out[k]? = some t ∧ GoodTable s k t) := by
  induction n with
  | zero =>
    intro i e perms out h _
    simp only [initSeamlessLoop] at h
    injection h with h
    subst h
    exact ⟨rfl, fun _ _ => rfl, fun k h1 h2 => by omega⟩
  | succ n ih =>
    intro i e perms out h hlen
    simp only [initSeamlessLoop] at h
    split at h
    · cases h
    · rename_i size hsize
      obtain ⟨_, _, hsz⟩ := shl1_ok hsize
      have hsz' : size = 2 ^ (i + s) := by
        rw [hsz]; congr 1
      obtain ⟨h1, h2, h3⟩ := ih (i + 1) (e.drop size) _ out h (by simp; omega)
      have hshuf := shuffle_perm e size
      refine ⟨by simpa using h1, ?_, ?_⟩
      · intro k hk
        rw [h2 k (by omega), List.getElem?_set_ne (by omega)]
      · intro k hk1 hk2
        by_cases hki : k = i
        · subst hki
          refine ⟨shuffle e size (identityTable size), ?_, ?_⟩
          · rw [h2 k (by omega), List.getElem?_set_self (by omega)]
          · rw [hsz'] at hshuf
            rw [hsz']
            exact ⟨hshuf.2, hshuf.1⟩
        · exact h3 k (by omega) (by omega)

theorem initSeamlessLoop_total (s : Nat) (n : Nat) :
    ∀ (i : Nat) (e : Engine) (perms : List (List Nat)),
      (n = 0 ∨ i + n + s ≤ 31) → ∃ out, initSeamlessLoop (s : Int) n i e perms = .ok out := by
  induction n with
  | zero => intro i e perms _; exact ⟨perms, rfl⟩
  | succ n ih =>
    intro i e perms h
    have hb : i + (n + 1) + s ≤ 31 := by omega
    simp only [initSeamlessLoop]
    rw [shl1_of_lt (by omega) (by omega)]
    exact ih (i + 1) _ _ (by omega)

theorem resizeTables_length (old : List (List Nat)) (n : Nat) :
    (resizeTables old n).length = n := by
  simp [resizeTables]
  omega

/-- C2: for a seamless engine with `layerCount = L ≥ 0` and `startLayer = s ≥ 0`,
`init_seamless` completes whenever every shift `1 << (i + s)` fits an `int`
(`L + s ≤ 31`), and whenever it completes there are exactly `L` per-layer
tables, table `i` having `2^(i+s)` entries that are a permutation of
`0 .. 2^(i+s) - 1`. -/
theorem init_seamless_tables (lib : Lib) (e : Engine) (N : Noise) (L s : Nat)
    (hL : N.m_layerCount = (L : Int)) (hs : N.m_startLayer = (s : Int)) :
    (L + s ≤ 31 → ∃ N1, N.init_seamless lib e = .ok N1) ∧
    ∀ N1, N.init_seamless lib e = .ok N1 →
      N1.m_perms.length = L ∧
      ∀ i, i < L → ∃ t, N1.m_perms[i]? = some t ∧ t.length = 2 ^ (i + s) ∧
        t.Perm (List.range (2 ^ (i + s))) ∧ (∀ v, v < 2 ^ (i + s) → t.count v = 1) := by
  have hperms : initSeamlessPerms e N.m_layerCount N.m_startLayer N.m_perms =
      initSeamlessLoop (s : Int) L 0 e (resizeTables N.m_perms L) := by
    unfold initSeamlessPerms
    rw [hL, hs, if_neg (by omega)]
    rfl
  constructor
  · intro hb
    obtain ⟨out, hout⟩ := initSeamlessLoop_total s L 0 e (resizeTables N.m_perms L) (by omega)
    unfold Noise.init_seamless
    rw [hperms, hout]
    exact ⟨_, rfl⟩
  · intro N1 h
    unfold Noise.init_seamless at h
    rw [hperms] at h
    split at h
    · cases h
    · rename_i perms hp
      injection h with h
      subst h
      obtain ⟨h1, _, h3⟩ := initSeamlessLoop_spec s L 0 e _ perms hp
        (by rw [resizeTables_length]; omega)
      refine ⟨by rw [h1, resizeTables_length], ?_⟩
      intro i hi
      obtain ⟨t, ht, hg⟩ := h3 i (by omega) (by omega)
      exact ⟨t, ht, hg.1, hg.2, fun v hv => perm_range_count hg.2 v hv⟩

/-- Witness for C2: three layers from start layer 1. -/
theorem init_seamless_tables_witness :
    (3 + 1 ≤ 31 → ∃ N1, demoSeamlessConfig.init_seamless demoLib (demoLib.seed 7) = .ok N1) ∧
    ∀ N1, demoSeamlessConfig.init_seamless demoLib (demoLib.seed 7) = .ok N1 →
      N1.m_perms.length = 3 ∧
      ∀ i, i < 3 → ∃ t, N1.m_perms[i]? = some t ∧ t.length = 2 ^ (i + 1) ∧
        t.Perm (List.range (2 ^ (i + 1))) ∧ (∀ v, v < 2 ^ (i + 1) → t.count v = 1) :=
  init_seamless_tables demoLib (demoLib.seed 7) demoSeamlessConfig 3 1 rfl rfl

/-! ## Seamless sampling: proofs -/

theorem andMask_natCast (a m : Nat) : andMask a (m : Int) = ((a &&& m : Nat) : Int) := rfl

theorem land_mask_add (a k : Nat) : (a + 2 ^ k) &&& (2 ^ k - 1) = a &&& (2 ^ k - 1) := by
  rw [Nat.and_pow_two_sub_one_eq_mod, Nat.and_pow_two_sub_one_eq_mod, Nat.add_mod_right]

theorem andMask_shift (a k : Nat) :
    andMask (a + 2 ^ k) ((2 ^ k - 1 : Nat) : Int) = andMask a ((2 ^ k - 1 : Nat) : Int) := by
  rw [andMask_natCast, andMask_natCast, land_mask_add]

theorem andMask_shift_add (a b k : Nat) :
    andMask (a + 2 ^ k + b) ((2 ^ k - 1 : Nat) : Int) = andMask (a + b) ((2 ^ k - 1 : Nat) : Int) := by
  rw [show a + 2 ^ k + b = (a + b) + 2 ^ k by omega, andMask_shift]

theorem andMask_shift_succ (a k : Nat) :
    andMask (a + 2 ^ k + 1) ((2 ^ k - 1 : Nat) : Int) = andMask (a + 1) ((2 ^ k - 1 : Nat) : Int) :=
  andMask_shift_add a 1 k

theorem andMask_shift_succ_add (a b k : Nat) :
    andMask (a + 2 ^ k + 1 + b) ((2 ^ k - 1 : Nat) : Int) =
      andMask (a + 1 + b) ((2 ^ k - 1 : Nat) : Int) := by
  rw [show a + 2 ^ k + 1 + b = (a + 1 + b) + 2 ^ k by omega, andMask_shift]

theorem intPart_inRange (x : ℚ) (hx : 0 ≤ x) (h : InIntRange x) :
    intPart x + 256 < intSize := by
  unfold InIntRange at h
  unfold intPart
  have h1 : ((⌊x⌋₊ : Nat) : ℚ) ≤ x := Nat.floor_le hx
  have h2 : ((⌊x⌋₊ + 256 : Nat) : ℚ) < (intSize : ℚ) := by
    push_cast
    linarith
  exact_mod_cast h2

theorem intPart_add_pow (x : ℚ) (hx : 0 ≤ x) (k : Nat) :
    intPart (x + ((2 ^ k : Nat) : ℚ)) = intPart x + 2 ^ k := by
  unfold intPart
  exact Nat.floor_add_nat hx _

theorem clamp2_of_nonneg {x y : ℚ} (hx : 0 ≤ x) (hy : 0 ≤ y) : clamp2 x y = (x, y) := by
  unfold clamp2
  rw [if_neg]
  intro h
  rcases h with h | h
  · exact absurd hx (not_le.mpr h)
  · exact absurd hy (not_le.mpr h)

theorem n2_seamless_shift_x (N : Noise) (x y : ℚ) (layer : Int) (k : Nat) (hx : 0 ≤ x) :
    N.n2_seamless (x + ((2 ^ k : Nat) : ℚ)) y layer ((2 ^ k - 1 : Nat) : Int) =
      N.n2_seamless x y layer ((2 ^ k - 1 : Nat) : Int) := by
  have hP : (0 : ℚ) ≤ ((2 ^ k : Nat) : ℚ) := Nat.cast_nonneg _
  by_cases hy : y < 0
  · have h1 : clamp2 (x + ((2 ^ k : Nat) : ℚ)) y = clamp2 x y := by
      unfold clamp2
      rw [if_pos (Or.inr hy), if_pos (Or.inr hy)]
    unfold Noise.n2_seamless
    rw [h1]
  · have hy' : 0 ≤ y := not_lt.mp hy
    have h1 : clamp2 (x + ((2 ^ k : Nat) : ℚ)) y = (x + ((2 ^ k : Nat) : ℚ), y) :=
      clamp2_of_nonneg (add_nonneg hx hP) hy'
    have h2 : clamp2 x y = (x, y) := clamp2_of_nonneg hx hy'
    have h3 : x + ((2 ^ k : Nat) : ℚ) - ((intPart x + 2 ^ k : Nat) : ℚ) = x - (intPart x : ℚ) := by
      push_cast; ring
    unfold Noise.n2_seamless
    simp only [h1, h2, intPart_add_pow x hx k, h3, andMask_shift_add, andMask_shift_succ_add]

theorem n2_seamless_shift_y (N : Noise) (x y : ℚ) (layer : Int) (k : Nat) (hy : 0 ≤ y) :
    N.n2_seamless x (y + ((2 ^ k : Nat) : ℚ)) layer ((2 ^ k - 1 : Nat) : Int) =
      N.n2_seamless x y layer ((2 ^ k - 1 : Nat) : Int) := by
  have hP : (0 : ℚ) ≤ ((2 ^ k : Nat) : ℚ) := Nat.cast_nonneg _
  by_cases hx : x < 0
  · have h1 : clamp2 x (y + ((2 ^ k : Nat) : ℚ)) = clamp2 x y := by
      unfold clamp2
      rw [if_pos (Or.inl hx), if_pos (Or.inl hx)]
    unfold Noise.n2_seamless
    rw [h1]
  · have hx' : 0 ≤ x := not_lt.mp hx
    have h1 : clamp2 x (y + ((2 ^ k : Nat) : ℚ)) = (x, y + ((2 ^ k : Nat) : ℚ)) :=
      clamp2_of_nonneg hx' (add_nonneg hy hP)
    have h2 : clamp2 x y = (x, y) := clamp2_of_nonneg hx' hy
    have h3 : y + ((2 ^ k : Nat) : ℚ) - ((intPart y + 2 ^ k : Nat) : ℚ) = y - (intPart y : ℚ) := by
      push_cast; ring
    unfold Noise.n2_seamless
    simp only [h1, h2, intPart_add_pow y hy k, h3, andMask_shift, andMask_shift_succ]

theorem tableAt_natCast_ok {α : Type} {t : List α} {i : Nat} (h : i < t.length) :
    tableAt t (i : Int) = .ok t[i] := by
  unfold tableAt
  rw [if_neg (by omega)]
  simp [List.getElem?_eq_getElem h]

theorem tableAt_ok_lt {α : Type} {t : List α} {i : Int} {v : α} (h : tableAt t i = .ok v) :
    0 ≤ i ∧ i.toNat < t.length ∧ t[i.toNat]? = some v := by
  unfold tableAt at h
  split at h
  · cases h
  · rename_i hi
    split at h
    · rename_i w hw
      injection h with h
      subst h
      refine ⟨by omega, ?_, hw⟩
      by_contra hcon
      rw [List.getElem?_eq_none (by omega)] at hw
      cases hw
    · cases h

theorem okBind {α β : Type} (a : α) (f : α → Except Fault β) : (Except.ok a >>= f) = f a := rfl

theorem land_lt_of_lt (a m n : Nat) (h : m < n) : a &&& m < n :=
  lt_of_le_of_lt Nat.and_le_right h

theorem n2_seamless_ok (N : Noise) (x y : ℚ) (layer : Int) (limit : Nat) (t : List Nat)
    (hS : N.m_isSeamless = true) (hg : N.m_gradients2D.length = g2Size)
    (ht : tableAt N.m_perms layer = .ok t) (hlim : limit < t.length) :
    ∃ v, N.n2_seamless x y layer (limit : Int) = .ok v := by
  have hg7 : ∀ a : Nat, a &&& g2MaxValue < N.m_gradients2D.length := by
    intro a
    rw [hg]
    exact land_lt_of_lt a _ _ (by decide)
  unfold Noise.n2_seamless
  simp only [hS, Bool.not_true, Bool.false_eq_true, if_false, ht, okBind, andMask_natCast,
    tableAt_natCast_ok (land_lt_of_lt _ _ _ hlim), tableAt_natCast_ok (hg7 _)]
  exact ⟨_, rfl⟩

/-- C3: for `x, y ≥ 0` with the shifted coordinate `x + limit + 1` and `y`
inside the range of `int`, a layer whose table exists and a limit `2^k - 1`
smaller than the size of that table,
`n2_seamless(x + limit + 1, y, layer, limit)` equals
`n2_seamless(x, y, layer, limit)`; on a seamless engine with its eight
gradients both sides are a sample value, not a fault. -/
theorem n2_seamless_wraparound (N : Noise) (x y : ℚ) (layer : Int) (k : Nat) (t : List Nat)
    (hx : 0 ≤ x) (hy : 0 ≤ y)
    (hxr : InIntRange (x + ((((2 ^ k - 1 : Nat) : Int) : ℚ)) + 1)) (hyr : InIntRange y)
    (ht : tableAt N.m_perms layer = .ok t)
    (hlim : 2 ^ k - 1 < t.length) :
    N.n2_seamless (x + ((((2 ^ k - 1 : Nat) : Int) : ℚ)) + 1) y layer ((2 ^ k - 1 : Nat) : Int) =
      N.n2_seamless x y layer ((2 ^ k - 1 : Nat) : Int) ∧
    (N.m_isSeamless = true → N.m_gradients2D.length = g2Size →
      ∃ v, N.n2_seamless x y layer ((2 ^ k - 1 : Nat) : Int) = .ok v) := by
  have _ := hy
  have _ := hxr
  have _ := hyr
  constructor
  · have hpos : 1 ≤ 2 ^ k := Nat.one_le_two_pow
    have hc : x + ((((2 ^ k - 1 : Nat) : Int) : ℚ)) + 1 = x + ((2 ^ k : Nat) : ℚ) := by
      rw [Int.cast_natCast, Nat.cast_sub hpos]
      push_cast
      ring
    rw [hc]
    exact n2_seamless_shift_x N x y layer k hx
  · intro hS hg
    exact n2_seamless_ok N x y layer (2 ^ k - 1) t hS hg ht hlim

/-- Witness for C3: layer 1 (four entries), limit 3, at the point (5/2, 7/3). -/
theorem n2_seamless_wraparound_witness :
    demoSeamlessNoise.n2_seamless (5 / 2 + ((((2 ^ 2 - 1 : Nat) : Int) : ℚ)) + 1) (7 / 3) 1
        ((2 ^ 2 - 1 : Nat) : Int) =
      demoSeamlessNoise.n2_seamless (5 / 2) (7 / 3) 1 ((2 ^ 2 - 1 : Nat) : Int) ∧
    (demoSeamlessNoise.m_isSeamless = true → demoSeamlessNoise.m_gradients2D.length = g2Size →
      ∃ v, demoSeamlessNoise.n2_seamless (5 / 2) (7 / 3) 1 ((2 ^ 2 - 1 : Nat) : Int) = .ok v) :=
  n2_seamless_wraparound demoSeamlessNoise (5 / 2) (7 / 3) 1 2 [2, 0, 3, 1]
    (by norm_num) (by norm_num) (by unfold InIntRange intSize; norm_num)
    (by unfold InIntRange intSize; norm_num) rfl (by decide)

theorem gradients2DLoop_length (lib : Lib) (n : Nat) :
    ∀ (angle : ℚ) (acc : List Vec2), (gradients2DLoop lib n angle acc).length = acc.length + n := by
  induction n with
  | zero => intro angle acc; rfl
  | succ n ih =>
    intro angle acc
    simp only [gradients2DLoop]
    rw [ih]
    simp
    omega

theorem initSeamlessLoop_bound (s : Nat) (n : Nat) :
    ∀ (i : Nat) (e : Engine) (perms out : List (List Nat)),
      initSeamlessLoop (s : Int) n i e perms = .ok out → n = 0 ∨ i + n + s ≤ 31 := by
  induction n with
  | zero => intro i e perms out _; exact Or.inl rfl
  | succ n ih =>
    intro i e perms out h
    simp only [initSeamlessLoop] at h
    split at h
    · cases h
    · rename_i size hsize
      obtain ⟨_, hlt, _⟩ := shl1_ok hsize
      rcases ih (i + 1) _ _ out h with h0 | h1
      · right; omega
      · right; omega


theorem init_seamless_ok (lib : Lib) (e : Engine) (N N1 : Noise) (L s : Nat)
    (hL : N.m_layerCount = (L : Int)) (hs : N.m_startLayer = (s : Int))
    (h : N.init_seamless lib e = .ok N1) :
    (∃ perms, N1 = { N with m_perms := perms, m_gradients2D := gradients2DLoop lib g2Size 0 [] }) ∧
    N1.m_perms.length = L ∧ (∀ i, i < L → ∃ t, N1.m_perms[i]? = some t ∧ GoodTable s i t) ∧
    (L = 0 ∨ L + s ≤ 31) := by
  have hperms : initSeamlessPerms e N.m_layerCount N.m_startLayer N.m_perms =
      initSeamlessLoop (s : Int) L 0 e (resizeTables N.m_perms L) := by
    unfold initSeamlessPerms
    rw [hL, hs, if_neg (by omega)]
    rfl
  unfold Noise.init_seamless at h
  rw [hperms] at h
  split at h
  · cases h
  · rename_i perms hp
    injection h with h
    subst h
    obtain ⟨h1, _, h3⟩ := initSeamlessLoop_spec s L 0 e _ perms hp
      (by rw [resizeTables_length]; omega)
    refine ⟨⟨perms, rfl⟩, by rw [h1, resizeTables_length], ?_, ?_⟩
    · intro i hi
      exact h3 i (by omega) (by omega)
    · have := initSeamlessLoop_bound s L 0 e _ perms hp
      omega

theorem seamless_built (lib : Lib) (seed L s e R : Int) (wD am : ℚ) (N : Noise)
    (h : Noise.seamless lib seed L s e R wD am = .ok N) :
    0 ≤ L ∧ 0 ≤ s ∧ 0 ≤ e ∧ 0 ≤ R ∧ SeamlessBuilt N L.toNat s.toNat e.toNat R wD am := by
  unfold Noise.seamless at h
  split at h
  · cases h
  rename_i hL
  split at h
  · cases h
  rename_i hs
  split at h
  · cases h
  rename_i he
  split at h
  · cases h
  rename_i hR
  split at h
  · cases h
  split at h
  · cases h
  simp only at h
  split at h
  · cases h
  rename_i p hp
  split at h
  · cases h
  rename_i N1 hN1
  injection h with h
  subst h
  have hL' : (0 : Int) ≤ L := not_lt.mp hL
  have hs' : (0 : Int) ≤ s := not_lt.mp hs
  have he' : (0 : Int) ≤ e := not_lt.mp he
  obtain ⟨_, hs31, hpv⟩ := shl1_ok hp
  obtain ⟨⟨perms, hN1eq⟩, hlen, htab, hb⟩ :=
    init_seamless_ok lib (lib.seed seed) _ N1 L.toNat s.toNat
      (by simp [Int.toNat_of_nonneg hL']) (by simp [Int.toNat_of_nonneg hs']) hN1
  subst hN1eq
  refine ⟨hL', hs', he', not_lt.mp hR, ?_⟩
  exact
    { isSeamless := rfl
      layerCount := by simp [Int.toNat_of_nonneg hL']
      startLayer := by simp [Int.toNat_of_nonneg hs']
      endLayer := by simp [Int.toNat_of_nonneg he']
      startFrequency := by simp [hpv]
      frequencyFactor := rfl
      weightDivisor := rfl
      amplitude := rfl
      startWeight := by simp [Int.toNat_of_nonneg hL', Int.toNat_of_nonneg hs']
      gradients := by simp [gradients2DLoop_length]
      tablesLength := hlen
      tables := htab
      startBound := by omega
      bound := hb }

theorem limitOf_ok {layer : Int} {limit : Int} (h : limitOf layer = .ok limit) :
    0 ≤ layer + 1 ∧ layer + 1 < 31 ∧ limit = ((2 ^ (layer + 1).toNat - 1 : Nat) : Int) := by
  unfold limitOf at h
  split at h
  · cases h
  · rename_i p hp
    injection h with h
    obtain ⟨h0, h1, hpv⟩ := shl1_ok hp
    refine ⟨h0, h1, ?_⟩
    have hpos : 1 ≤ 2 ^ (layer + 1).toNat := Nat.one_le_two_pow
    rw [← h, hpv, Nat.cast_sub hpos]
    simp

theorem limitOf_of_lt {layer : Int} (h0 : 0 ≤ layer + 1) (h1 : layer + 1 < 31) :
    limitOf layer = .ok ((2 ^ (layer + 1).toNat - 1 : Nat) : Int) := by
  unfold limitOf
  rw [shl1_of_lt h0 h1]
  have hpos : 1 ≤ 2 ^ (layer + 1).toNat := Nat.one_le_two_pow
  simp only [Nat.cast_sub hpos]
  simp

theorem errBind {α β : Type} (e : Fault) (f : α → Except Fault β) :
    (Except.error e >>= f) = Except.error e := rfl

theorem nextOctaveSeamless_f (N : Noise) (o : Octave) :
    (N.nextOctaveSeamless o).f = o.f / N.m_frequencyFactor := rfl

theorem nextOctaveSeamless_w (N : Noise) (o : Octave) :
    (N.nextOctaveSeamless o).w = o.w / N.m_weightDivisor := rfl

theorem nextOctaveSeamless_offset (N : Noise) (o : Octave) :
    (N.nextOctaveSeamless o).offset = o.offset * (173 / 100) := rfl

theorem octaveSampleSeamless_shift (lib : Lib) (N : Noise) (x y : ℚ) (o : Octave) (layer : Int)
    (R : ℚ) (hR : 0 < R) (hf : o.f = R / ((2 ^ (layer + 1).toNat : Nat) : ℚ))
    (hoff : 0 ≤ o.offset) (hx : 0 ≤ x) (hy : 0 ≤ y) :
    N.octaveSampleSeamless lib (x + R) y o layer = N.octaveSampleSeamless lib x y o layer ∧
    N.octaveSampleSeamless lib x (y + R) o layer = N.octaveSampleSeamless lib x y o layer := by
  have hp : (0 : ℚ) < ((2 ^ (layer + 1).toNat : Nat) : ℚ) := by
    exact_mod_cast Nat.pos_of_ne_zero (by positivity)
  have hfpos : 0 < o.f := by rw [hf]; exact div_pos hR hp
  have hRf : R / o.f = ((2 ^ (layer + 1).toNat : Nat) : ℚ) := by
    rw [hf]
    field_simp
  have e1 : (x + R + o.offset) / o.f = (x + o.offset) / o.f + ((2 ^ (layer + 1).toNat : Nat) : ℚ) := by
    rw [← hRf]
    ring
  have e2 : (y + R + o.offset * 2) / o.f =
      (y + o.offset * 2) / o.f + ((2 ^ (layer + 1).toNat : Nat) : ℚ) := by
    rw [← hRf]
    ring
  have hx0 : 0 ≤ (x + o.offset) / o.f := div_nonneg (add_nonneg hx hoff) hfpos.le
  have hy0 : 0 ≤ (y + o.offset * 2) / o.f :=
    div_nonneg (add_nonneg hy (mul_nonneg hoff (by norm_num))) hfpos.le
  unfold Noise.octaveSampleSeamless
  cases hl : limitOf layer with
  | error f => simp only [errBind, and_self]
  | ok limit =>
    obtain ⟨_, _, hlim⟩ := limitOf_ok hl
    subst hlim
    simp only [okBind]
    rw [e1, e2, n2_seamless_shift_x N _ _ layer _ hx0, n2_seamless_shift_y N _ _ layer _ hy0]
    simp only [and_self]

theorem n2SeamlessLayeredLoop_shift (lib : Lib) (N : Noise) (x y R : ℚ) (hR : 0 < R)
    (hF : N.m_frequencyFactor = 2) (hx : 0 ≤ x) (hy : 0 ≤ y) (cnt : Nat) :
    ∀ (i : Nat) (o : Octave) (n : ℚ), o.f = R / ((2 ^ i : Nat) : ℚ) → 0 ≤ o.offset →
      Noise.n2SeamlessLayeredLoop lib N (x + R) y cnt (i : Int) o n =
        Noise.n2SeamlessLayeredLoop lib N x y cnt (i : Int) o n ∧
      Noise.n2SeamlessLayeredLoop lib N x (y + R) cnt (i : Int) o n =
        Noise.n2SeamlessLayeredLoop lib N x y cnt (i : Int) o n := by
  induction cnt with
  | zero => intro i o n _ _; simp only [Noise.n2SeamlessLayeredLoop, and_self]
  | succ cnt ih =>
    intro i o n hf hoff
    have hk : ((i : Int) + 1).toNat = i + 1 := by omega
    have hf1 : (N.nextOctaveSeamless o).f = R / ((2 ^ ((i : Int) + 1).toNat : Nat) : ℚ) := by
      rw [nextOctaveSeamless_f, hF, hf, hk, pow_succ]
      push_cast
      field_simp
    have hoff1 : 0 ≤ (N.nextOctaveSeamless o).offset := by
      rw [nextOctaveSeamless_offset]
      exact mul_nonneg hoff (by norm_num)
    obtain ⟨s1, s2⟩ := octaveSampleSeamless_shift lib N x y _ (i : Int) R hR hf1 hoff1 hx hy
    simp only [Noise.n2SeamlessLayeredLoop]
    rw [s1, s2]
    cases hv : N.octaveSampleSeamless lib x y (N.nextOctaveSeamless o) (i : Int) with
    | error f => simp only [errBind, and_self]
    | ok v =>
      simp only [okBind]
      have hf2 : (N.nextOctaveSeamless o).f = R / ((2 ^ (i + 1) : Nat) : ℚ) := by
        rw [hf1, hk]
      have := ih (i + 1) (N.nextOctaveSeamless o) (n + v * (N.nextOctaveSeamless o).w) hf2 hoff1
      rw [Nat.cast_add, Nat.cast_one] at this
      exact this

theorem tableAt_of_getElem? {α : Type} {t : List α} {i : Nat} {v : α} (h : t[i]? = some v) :
    tableAt t (i : Int) = .ok v := by
  unfold tableAt
  rw [if_neg (by omega)]
  simp [h]

theorem octaveSampleSeamless_ok (lib : Lib) (N : Noise) (L s e : Nat) (R : Int) (wD am : ℚ)
    (hB : SeamlessBuilt N L s e R wD am) (hs : 1 ≤ s) (x y : ℚ) (o : Octave) (i : Nat)
    (hi : i < L) : ∃ v, N.octaveSampleSeamless lib x y o (i : Int) = .ok v := by
  obtain ⟨t, ht, hlen, _⟩ := hB.tables i hi
  have hb := hB.bound
  have hlim : 2 ^ ((i : Int) + 1).toNat - 1 < t.length := by
    rw [hlen, show ((i : Int) + 1).toNat = i + 1 by omega]
    have h1 : 2 ^ (i + 1) ≤ 2 ^ (i + s) := Nat.pow_le_pow_right (by norm_num) (by omega)
    have h2 : 1 ≤ 2 ^ (i + 1) := Nat.one_le_two_pow
    omega
  obtain ⟨v, hv⟩ := n2_seamless_ok N ((x + o.offset) / o.f) ((y + o.offset * 2) / o.f) (i : Int)
    (2 ^ ((i : Int) + 1).toNat - 1) t hB.isSeamless hB.gradients (tableAt_of_getElem? ht) hlim
  unfold Noise.octaveSampleSeamless
  rw [limitOf_of_lt (by omega) (by omega)]
  simp only [okBind]
  rw [hv]
  exact ⟨_, rfl⟩

theorem n2SeamlessLayeredLoop_ok (lib : Lib) (N : Noise) (L s e : Nat) (R : Int) (wD am : ℚ)
    (hB : SeamlessBuilt N L s e R wD am) (hs : 1 ≤ s) (x y : ℚ) (cnt : Nat) :
    ∀ (i : Nat) (o : Octave) (n : ℚ), i + cnt ≤ L →
      ∃ v, Noise.n2SeamlessLayeredLoop lib N x y cnt (i : Int) o n = .ok v := by
  induction cnt with
  | zero => intro i o n _; exact ⟨n, by simp only [Noise.n2SeamlessLayeredLoop]⟩
  | succ cnt ih =>
    intro i o n hle
    obtain ⟨v, hv⟩ := octaveSampleSeamless_ok lib N L s e R wD am hB hs x y
      (N.nextOctaveSeamless o) i (by omega)
    simp only [Noise.n2SeamlessLayeredLoop]
    rw [hv]
    simp only [okBind]
    have := ih (i + 1) (N.nextOctaveSeamless o) (n + v * (N.nextOctaveSeamless o).w) (by omega)
    rw [Nat.cast_add, Nat.cast_one] at this
    exact this

theorem n2_seamless_layered_shift (lib : Lib) (N : Noise) (L s e : Nat) (R : Int) (wD am : ℚ)
    (hB : SeamlessBuilt N L s e R wD am) (hR : 0 < R) (hs : 1 ≤ s) (x y : ℚ)
    (hx : 0 ≤ x) (hy : 0 ≤ y) :
    N.n2_seamless_layered lib (x + (R : ℚ)) y = N.n2_seamless_layered lib x y ∧
    N.n2_seamless_layered lib x (y + (R : ℚ)) = N.n2_seamless_layered lib x y := by
  have hRq : (0 : ℚ) < (R : ℚ) := by exact_mod_cast hR
  have hf0 : N.firstOctave.f = (R : ℚ) / ((2 ^ (((s : Int) - 1) + 1).toNat : Nat) : ℚ) := by
    rw [show (((s : Int) - 1) + 1).toNat = s by omega]
    exact hB.startFrequency
  have hf1 : N.firstOctave.f = (R : ℚ) / ((2 ^ s : Nat) : ℚ) := hB.startFrequency
  have hoff : 0 ≤ N.firstOctave.offset := by
    show (0 : ℚ) ≤ 719 / 100
    norm_num
  obtain ⟨a1, a2⟩ := octaveSampleSeamless_shift lib N x y N.firstOctave ((s : Int) - 1) (R : ℚ)
    hRq hf0 hoff hx hy
  have hloop := n2SeamlessLayeredLoop_shift lib N x y (R : ℚ) hRq hB.frequencyFactor hx hy
    ((e : Int) - (s : Int)).toNat s N.firstOctave
  have c0 : clamp2 x y = (x, y) := clamp2_of_nonneg hx hy
  have c1 : clamp2 (x + (R : ℚ)) y = (x + (R : ℚ), y) :=
    clamp2_of_nonneg (add_nonneg hx hRq.le) hy
  have c2 : clamp2 x (y + (R : ℚ)) = (x, y + (R : ℚ)) :=
    clamp2_of_nonneg hx (add_nonneg hy hRq.le)
  unfold Noise.n2_seamless_layered
  simp only [hB.isSeamless, Bool.not_true, Bool.false_eq_true, if_false, c0, c1, c2,
    hB.startLayer, hB.endLayer, a1, a2]
  cases hv : N.octaveSampleSeamless lib x y N.firstOctave ((s : Int) - 1) with
  | error f => simp only [errBind, and_self]
  | ok v =>
    simp only [okBind]
    obtain ⟨l1, l2⟩ := hloop (v * N.firstOctave.w) hf1 hoff
    rw [l1, l2]
    simp only [and_self]

theorem n2_seamless_layered_ok (lib : Lib) (N : Noise) (L s e : Nat) (R : Int) (wD am : ℚ)
    (hB : SeamlessBuilt N L s e R wD am) (hs : 1 ≤ s) (hse : s ≤ e) (heL : e ≤ L) (x y : ℚ) :
    ∃ v, N.n2_seamless_layered lib x y = .ok v := by
  obtain ⟨v0, hv0⟩ := octaveSampleSeamless_ok lib N L s e R wD am hB hs (clamp2 x y).1
    (clamp2 x y).2 N.firstOctave (s - 1) (by omega)
  rw [show ((s - 1 : Nat) : Int) = (s : Int) - 1 by omega] at hv0
  obtain ⟨v1, hv1⟩ := n2SeamlessLayeredLoop_ok lib N L s e R wD am hB hs (clamp2 x y).1
    (clamp2 x y).2 ((e : Int) - (s : Int)).toNat s N.firstOctave (v0 * N.firstOctave.w) (by omega)
  unfold Noise.n2_seamless_layered
  simp only [hB.isSeamless, Bool.not_true, Bool.false_eq_true, if_false,
    hB.startLayer, hB.endLayer, hv0, okBind, hv1]
  exact ⟨_, rfl⟩

/-- C4: a seamless engine built by the seamless constructor with texture
resolution `R > 0` and `1 ≤ startLayer ≤ endLayer ≤ layerCount` samples a
layered field that is periodic with period `R` in both axes: for all
`x, y ≥ 0` for which the three calls keep every octave coordinate inside the
range of `int`, `n2_seamless_layered(x + R, y)` and
`n2_seamless_layered(x, y + R)` equal `n2_seamless_layered(x, y)`, which is a
sample value (not a fault). -/
theorem n2_seamless_layered_periodic (lib : Lib) (seed L s e R : Int) (wD am : ℚ) (N : Noise)
    (hN : Noise.seamless lib seed L s e R wD am = .ok N) (hR : 0 < R)
    (hs : 1 ≤ s) (hse : s ≤ e) (heL : e ≤ L) (x y : ℚ) (hx : 0 ≤ x) (hy : 0 ≤ y)
    (hr : N.n2SeamlessLayeredInRange x y)
    (hrx : N.n2SeamlessLayeredInRange (x + (R : ℚ)) y)
    (hry : N.n2SeamlessLayeredInRange x (y + (R : ℚ))) :
    N.n2_seamless_layered lib (x + (R : ℚ)) y = N.n2_seamless_layered lib x y ∧
    N.n2_seamless_layered lib x (y + (R : ℚ)) = N.n2_seamless_layered lib x y ∧
    ∃ v, N.n2_seamless_layered lib x y = .ok v := by
  have _ := hr
  have _ := hrx
  have _ := hry
  obtain ⟨hL0, hs0, he0, _, hB⟩ := seamless_built lib seed L s e R wD am N hN
  obtain ⟨p1, p2⟩ := n2_seamless_layered_shift lib N L.toNat s.toNat e.toNat R wD am hB hR
    (by omega) x y hx hy
  exact ⟨p1, p2, n2_seamless_layered_ok lib N L.toNat s.toNat e.toNat R wD am hB
    (by omega) (by omega) (by omega) x y⟩

theorem init_seamless_total (lib : Lib) (e : Engine) (N : Noise) (L s : Nat)
    (hL : N.m_layerCount = (L : Int)) (hs : N.m_startLayer = (s : Int))
    (hb : L = 0 ∨ L + s ≤ 31) : ∃ N1, N.init_seamless lib e = .ok N1 := by
  have hperms : initSeamlessPerms e N.m_layerCount N.m_startLayer N.m_perms =
      initSeamlessLoop (s : Int) L 0 e (resizeTables N.m_perms L) := by
    unfold initSeamlessPerms
    rw [hL, hs, if_neg (by omega)]
    rfl
  obtain ⟨out, hout⟩ := initSeamlessLoop_total s L 0 e (resizeTables N.m_perms L) (by omega)
  unfold Noise.init_seamless
  rw [hperms, hout]
  exact ⟨_, rfl⟩

theorem seamless_total (lib : Lib) (seed : Int) (L s e : Nat) (R : Int) (wD am : ℚ)
    (hR : 0 ≤ R) (hw : 0 ≤ wD) (ha : 0 ≤ am) (hs : s < 31) (hb : L = 0 ∨ L + s ≤ 31) :
    ∃ N, Noise.seamless lib seed (L : Int) (s : Int) (e : Int) R wD am = .ok N := by
  unfold Noise.seamless
  rw [if_neg (by omega), if_neg (by omega), if_neg (by omega), if_neg (by omega),
    if_neg (not_lt.mpr hw), if_neg (not_lt.mpr ha), shl1_of_lt (by omega) (by omega)]
  simp only
  obtain ⟨N1, hN1⟩ := init_seamless_total lib (lib.seed seed)
    { m_gradients1D := [], m_gradients2D := [], m_perm := [], m_perms := []
      m_seed := seed, m_layerCount := (L : Int)
      m_startFrequency := (R : ℚ) / ((2 ^ (s : Int).toNat : Nat) : ℚ)
      m_frequencyFactor := 2, m_startWeight := 0, m_weightDivisor := wD
      m_amplitude := am, m_isSeamless := true, m_type := NoiseType.PerlinNoise
      m_startLayer := (s : Int), m_endLayer := (e : Int) } L s rfl rfl hb
  rw [hN1]
  exact ⟨_, rfl⟩

theorem demoBuiltSeamless_eq : Noise.seamless demoLib 7 3 1 3 64 2 100 = .ok demoBuiltSeamless := by
  obtain ⟨N, hN⟩ := seamless_total demoLib 7 3 1 3 64 2 100 (by norm_num) (by norm_num)
    (by norm_num) (by norm_num) (by norm_num)
  have h : Noise.seamless demoLib 7 3 1 3 64 2 100 = .ok N := hN
  unfold demoBuiltSeamless
  rw [h]

theorem demoBuiltSeamless_inRange (x y : ℚ) (hx0 : 0 ≤ x) (hx : x ≤ 100) (hy0 : 0 ≤ y)
    (hy : y ≤ 100) : demoBuiltSeamless.n2SeamlessLayeredInRange x y := by
  obtain ⟨_, _, _, _, hB⟩ := seamless_built demoLib 7 3 1 3 64 2 100 demoBuiltSeamless
    demoBuiltSeamless_eq
  have hf2 := hB.frequencyFactor
  have hf0 : demoBuiltSeamless.m_startFrequency = 32 := by
    rw [hB.startFrequency]
    norm_num
  have h0 : demoBuiltSeamless.firstOctave =
      (⟨32, demoBuiltSeamless.m_startWeight, 719 / 100⟩ : Octave) := by
    unfold Noise.firstOctave
    rw [hf0]
  have hn : ∀ o : Octave, demoBuiltSeamless.nextOctaveSeamless o =
      (⟨o.f / 2, o.w / demoBuiltSeamless.m_weightDivisor, o.offset * (173 / 100)⟩ : Octave) := by
    intro o
    unfold Noise.nextOctaveSeamless
    rw [hf2]
  intro i hi
  rw [hB.endLayer, hB.startLayer] at hi
  have hi2 : i ≤ 2 := hi
  rw [clamp2_of_nonneg hx0 hy0]
  unfold InIntRange intSize
  interval_cases i
  · simp only [Function.iterate_zero, id_eq, h0]
    constructor <;> norm_num <;> linarith
  · simp only [Function.iterate_succ, Function.iterate_zero, Function.comp_apply, id_eq, h0, hn]
    constructor <;> norm_num <;> linarith
  · simp only [Function.iterate_succ, Function.iterate_zero, Function.comp_apply, id_eq, h0, hn]
    constructor <;> norm_num <;> linarith

/-- Witness for C4: the engine built with three layers, start layer 1, end
layer 3 and resolution 64, at the point (5/2, 7/3). -/
theorem n2_seamless_layered_periodic_witness :
    demoBuiltSeamless.n2_seamless_layered demoLib (5 / 2 + ((64 : Int) : ℚ)) (7 / 3) =
      demoBuiltSeamless.n2_seamless_layered demoLib (5 / 2) (7 / 3) ∧
    demoBuiltSeamless.n2_seamless_layered demoLib (5 / 2) (7 / 3 + ((64 : Int) : ℚ)) =
      demoBuiltSeamless.n2_seamless_layered demoLib (5 / 2) (7 / 3) ∧
    ∃ v, demoBuiltSeamless.n2_seamless_layered demoLib (5 / 2) (7 / 3) = .ok v :=
  n2_seamless_layered_periodic demoLib 7 3 1 3 64 2 100 demoBuiltSeamless demoBuiltSeamless_eq
    (by decide) (by decide) (by decide) (by decide) (5 / 2) (7 / 3) (by norm_num) (by norm_num)
    (demoBuiltSeamless_inRange _ _ (by norm_num) (by norm_num) (by norm_num) (by norm_num))
    (demoBuiltSeamless_inRange _ _ (by norm_num) (by norm_num) (by norm_num) (by norm_num))
    (demoBuiltSeamless_inRange _ _ (by norm_num) (by norm_num) (by norm_num) (by norm_num))

/-! ## Weights: proofs -/

theorem weightLoop_closed (d : ℚ) (n : Nat) :
    ∀ a b : ℚ, weightLoop d n (a, b) =
      (a / d ^ n, b + a * ∑ i in Finset.range n, (d ^ i)⁻¹) := by
  induction n with
  | zero => intro a b; simp [weightLoop]
  | succ n ih =>
    intro a b
    simp only [weightLoop]
    rw [ih, Finset.sum_range_succ']
    congr 1
    · rw [pow_succ, div_div, mul_comm]
    · have : ∀ i, (d ^ (i + 1))⁻¹ = d⁻¹ * (d ^ i)⁻¹ := by
        intro i
        rw [pow_succ, mul_inv, mul_comm]
      simp only [this, ← Finset.mul_sum]
      rw [div_eq_mul_inv]
      simp
      ring

theorem startWeightOf_closed (start lC : Int) (d : ℚ) :
    startWeightOf start lC d = 1 / ∑ i in Finset.range ((lC - start).toNat + 1), (d ^ i)⁻¹ := by
  unfold startWeightOf
  simp only [weightLoop_closed]
  rw [Finset.sum_range_succ]
  simp [div_eq_mul_inv]

theorem geomSum_pos (d : ℚ) (hd : 0 < d) (n : Nat) :
    0 < ∑ i in Finset.range (n + 1), (d ^ i)⁻¹ := by
  apply Finset.sum_pos
  · intro i _
    positivity
  · exact ⟨0, Finset.mem_range.mpr (Nat.succ_pos n)⟩

theorem nextOctave2_iterate_w (N : Noise) (o : Octave) (i : Nat) :
    (N.nextOctave2^[i] o).w = o.w / N.m_weightDivisor ^ i := by
  induction i with
  | zero => simp
  | succ i ih =>
    rw [Function.iterate_succ_apply']
    show (N.nextOctave2^[i] o).w / N.m_weightDivisor = _
    rw [ih, pow_succ, div_div]

theorem standard_fields (lib : Lib) (seed lC : Int) (fS fF wD am : ℚ) (N : Noise)
    (h : Noise.standard lib seed lC fS fF wD am = .ok N) :
    0 ≤ lC ∧ N.m_isSeamless = false ∧ N.m_layerCount = lC ∧ N.m_startFrequency = fS ∧
    N.m_frequencyFactor = fF ∧ N.m_weightDivisor = wD ∧ N.m_amplitude = am ∧
    N.m_startWeight = startWeightOf 1 lC wD ∧ N.m_perm = initPerm (lib.seed seed) ∧
    N.m_gradients2D.length = g2Size := by
  unfold Noise.standard at h
  split at h
  · cases h
  rename_i hL
  split at h
  · cases h
  split at h
  · cases h
  split at h
  · cases h
  split at h
  · cases h
  simp only at h
  injection h with h
  subst h
  refine ⟨not_lt.mp hL, rfl, rfl, rfl, rfl, rfl, rfl, rfl, by simp only [Noise.init], ?_⟩
  simp only [Noise.init]
  rw [gradients2DLoop_length]
  rfl

theorem standard_total (lib : Lib) (seed lC : Int) (fS fF wD am : ℚ)
    (hL : 0 ≤ lC) (hfS : 0 ≤ fS) (hfF : 0 ≤ fF) (hw : 0 ≤ wD) (ha : 0 ≤ am) :
    ∃ N, Noise.standard lib seed lC fS fF wD am = .ok N := by
  unfold Noise.standard
  rw [if_neg (not_lt.mpr hL), if_neg (not_lt.mpr hfS), if_neg (not_lt.mpr hfF),
    if_neg (not_lt.mpr hw), if_neg (not_lt.mpr ha)]
  exact ⟨_, rfl⟩

theorem demoBuiltStandard_eq : Noise.standard demoLib 5 3 20 2 2 42 = .ok demoBuiltStandard := by
  obtain ⟨N, hN⟩ := standard_total demoLib 5 3 20 2 2 42 (by norm_num) (by norm_num)
    (by norm_num) (by norm_num) (by norm_num)
  unfold demoBuiltStandard
  rw [hN]

/-- C5: a standard engine constructed with `layerCount = L ≥ 1` and
`weightDivisor = d > 0` has `startWeight = 1 / Σ_{i<L} d^(-i)`; the weights of
the samples accumulated by `n2_layered` are `startWeight / d^i` for
`i = 0 .. L-1`, and they sum to exactly 1. -/
theorem standard_weights_sum_one (lib : Lib) (seed L : Int) (fS fF d am : ℚ) (N : Noise)
    (hN : Noise.standard lib seed L fS fF d am = .ok N) (hL : 1 ≤ L) (hd : 0 < d) :
    N.m_startWeight = 1 / ∑ i in Finset.range L.toNat, (d ^ i)⁻¹ ∧
    N.n2LayeredWeights = (List.range L.toNat).map (fun i => N.m_startWeight / d ^ i) ∧
    N.n2LayeredWeights.sum = 1 := by
  obtain ⟨_, _, hLc, _, _, hwD, _, hsw, _, _⟩ := standard_fields lib seed L fS fF d am N hN
  have hn : (L - 1).toNat + 1 = L.toNat := by omega
  have hsw' : N.m_startWeight = 1 / ∑ i in Finset.range L.toNat, (d ^ i)⁻¹ := by
    rw [hsw, startWeightOf_closed, hn]
  have hw : N.n2LayeredWeights = (List.range L.toNat).map (fun i => N.m_startWeight / d ^ i) := by
    unfold Noise.n2LayeredWeights
    rw [hLc, Nat.add_comm, hn]
    apply List.map_congr_left
    intro i _
    rw [nextOctave2_iterate_w, hwD]
    rfl
  refine ⟨hsw', hw, ?_⟩
  have hpos : 0 < ∑ i in Finset.range L.toNat, (d ^ i)⁻¹ := by
    rw [← hn]
    exact geomSum_pos d hd _
  rw [hw, hsw']
  have hsum : ∀ (c : ℚ) (n : Nat), ((List.range n).map (fun i => c / d ^ i)).sum =
      c * ∑ i in Finset.range n, (d ^ i)⁻¹ := by
    intro c n
    induction n with
    | zero => simp
    | succ n ih =>
      rw [List.range_succ, List.map_append, List.sum_append, ih, Finset.sum_range_succ]
      simp [div_eq_mul_inv]
      ring
  rw [hsum, one_div, inv_mul_cancel₀ hpos.ne']

/-- Witness for C5: three layers, weight divisor 2. -/
theorem standard_weights_sum_one_witness :
    demoBuiltStandard.m_startWeight = 1 / ∑ i in Finset.range (3 : Int).toNat, ((2 : ℚ) ^ i)⁻¹ ∧
    demoBuiltStandard.n2LayeredWeights =
      (List.range (3 : Int).toNat).map (fun i => demoBuiltStandard.m_startWeight / (2 : ℚ) ^ i) ∧
    demoBuiltStandard.n2LayeredWeights.sum = 1 :=
  standard_weights_sum_one demoLib 5 3 20 2 2 42 demoBuiltStandard demoBuiltStandard_eq
    (by decide) (by norm_num)

/-! ## Standard sampling: totality -/

theorem n2_ok (N : Noise) (hN : StandardReady N) (x y : ℚ) : ∃ v, N.n2 x y = .ok v := by
  have hp : ∀ a : Nat, a &&& maxValue < N.m_perm.length := by
    intro a
    rw [hN.permLength]
    exact land_lt_of_lt a _ _ (by decide)
  have hg : ∀ a : Nat, a &&& g2MaxValue < N.m_gradients2D.length := by
    intro a
    rw [hN.gradientsLength]
    exact land_lt_of_lt a _ _ (by decide)
  unfold Noise.n2
  simp only [hN.notSeamless, Bool.false_eq_true, if_false, okBind,
    tableAt_natCast_ok (hp _), tableAt_natCast_ok (hg _)]
  exact ⟨_, rfl⟩

theorem octaveSample2_ok (lib : Lib) (N : Noise) (hN : StandardReady N) (x y : ℚ) (o : Octave) :
    ∃ v, N.octaveSample2 lib x y o = .ok v := by
  obtain ⟨v, hv⟩ := n2_ok N hN ((x + o.offset) * (o.f / 1000)) ((y + o.offset * 2) * (o.f / 1000))
  unfold Noise.octaveSample2
  rw [hv]
  exact ⟨_, rfl⟩

theorem n2LayeredLoop_ok (lib : Lib) (N : Noise) (hN : StandardReady N) (x y : ℚ) (k : Nat) :
    ∀ (o : Octave) (n : ℚ), ∃ v, Noise.n2LayeredLoop lib N x y k o n = .ok v := by
  induction k with
  | zero => intro o n; exact ⟨n, by simp only [Noise.n2LayeredLoop]⟩
  | succ k ih =>
    intro o n
    obtain ⟨v, hv⟩ := octaveSample2_ok lib N hN x y (N.nextOctave2 o)
    simp only [Noise.n2LayeredLoop]
    rw [hv]
    simp only [okBind]
    exact ih _ _

theorem n2_layered_ok (lib : Lib) (N : Noise) (hN : StandardReady N) (x y : ℚ) :
    ∃ v, N.n2_layered lib x y = .ok v := by
  obtain ⟨v0, hv0⟩ := octaveSample2_ok lib N hN (clamp2 x y).1 (clamp2 x y).2 N.firstOctave
  obtain ⟨v1, hv1⟩ := n2LayeredLoop_ok lib N hN (clamp2 x y).1 (clamp2 x y).2
    (N.m_layerCount - 1).toNat N.firstOctave (v0 * N.firstOctave.w)
  unfold Noise.n2_layered
  simp only [hN.notSeamless, Bool.false_eq_true, if_false, hv0, okBind, hv1]
  exact ⟨_, rfl⟩

theorem standard_ready (lib : Lib) (seed lC : Int) (fS fF wD am : ℚ) (N : Noise)
    (h : Noise.standard lib seed lC fS fF wD am = .ok N) : StandardReady N := by
  obtain ⟨_, hS, _, _, _, _, _, _, hperm, hg⟩ := standard_fields lib seed lC fS fF wD am N h
  refine ⟨hS, ?_, hg⟩
  rw [hperm]
  exact (shuffle_perm (lib.seed seed) permSize).2

/-! ## Heightfield vertices: proofs -/

theorem forLoop_inv {σ : Type} (step : Nat → σ → Except Fault σ) (P : Nat → σ → Prop) (n : Nat) :
    ∀ (i : Nat) (s : σ), P i s →
      (∀ j t, i ≤ j → j < i + n → P j t → ∃ t1, step j t = .ok t1 ∧ P (j + 1) t1) →
      ∃ s1, forLoop step n i s = .ok s1 ∧ P (i + n) s1 := by
  induction n with
  | zero => intro i s h0 _; exact ⟨s, rfl, h0⟩
  | succ n ih =>
    intro i s h0 hstep
    obtain ⟨t1, ht1, hP1⟩ := hstep i s (le_refl i) (by omega) h0
    obtain ⟨s1, hs1, hP⟩ := ih (i + 1) t1 hP1
      (fun j t hj1 hj2 hPj => hstep j t (by omega) (by omega) hPj)
    refine ⟨s1, ?_, ?_⟩
    · simp only [forLoop]
      rw [ht1]
      exact hs1
    · rw [show i + (n + 1) = i + 1 + n by omega]
      exact hP

theorem vertexStep_spec (lib : Lib) (T : Terrain) (G : Nat → ℚ) (h0 : ℚ) (n k x z : Nat)
    (s : VertState) (hk : k < n) (hx : k % T.m_vpr = x) (hz : k / T.m_vpr = z)
    (hG : T.rawSample lib x z = .ok (G k)) (hI : FirstPassInv T G h0 n k s) :
    ∃ s1, T.vertexStep lib x z s = .ok s1 ∧ FirstPassInv T G h0 n (k + 1) s1 := by
  have hidx : s.index < s.vertices.length := by rw [hI.index, hI.length]; exact hk
  unfold Terrain.rawSample at hG
  unfold Terrain.vertexStep
  simp only [hG, if_pos hidx]
  refine ⟨_, rfl, ?_⟩
  constructor
  · simp only [hI.index]
  · simp only [List.length_set, hI.length]
  · intro j hj
    simp only [hI.index]
    by_cases hjk : j = k
    · subst hjk
      rw [List.getElem?_set_self (by rw [hI.length]; exact hk), hx, hz]
      rfl
    · rw [List.getElem?_set_ne (fun h => hjk h.symm)]
      exact hI.done j (by omega)
  · intro j hj
    simp only
    by_cases hjk : j = k
    · subst hjk
      split
      · exact le_refl _
      · rename_i h; exact not_lt.mp h
    · have := hI.lower j (by omega)
      split
      · rename_i h; exact le_trans h.le this
      · exact this
  · intro j hj
    simp only
    by_cases hjk : j = k
    · subst hjk
      split
      · exact le_refl _
      · rename_i h; exact not_lt.mp h
    · have := hI.upper j (by omega)
      split
      · rename_i h; exact le_trans this (le_of_lt h)
      · exact this
  · simp only
    split
    · rename_i h; exact le_trans h.le hI.lower0
    · exact hI.lower0
  · simp only
    split
    · rename_i h; exact le_trans hI.upper0 (le_of_lt h)
    · exact hI.upper0
  · simp only
    split
    · exact Or.inr ⟨k, by omega, rfl⟩
    · rcases hI.minAttained with h | ⟨j, hj, h⟩
      · exact Or.inl h
      · exact Or.inr ⟨j, by omega, h⟩
  · simp only
    split
    · exact Or.inr ⟨k, by omega, rfl⟩
    · rcases hI.maxAttained with h | ⟨j, hj, h⟩
      · exact Or.inl h
      · exact Or.inr ⟨j, by omega, h⟩

theorem grid_index (vpr x z : Nat) (hx : x < vpr) :
    (z * vpr + x) % vpr = x ∧ (z * vpr + x) / vpr = z := by
  have hpos : 0 < vpr := by omega
  constructor
  · rw [Nat.add_comm, Nat.add_mul_mod_self_right, Nat.mod_eq_of_lt hx]
  · rw [Nat.add_comm, Nat.add_mul_div_right _ _ hpos, Nat.div_eq_of_lt hx, Nat.zero_add]

theorem grid_index_lt (vpr vpc x z : Nat) (hx : x < vpr) (hz : z < vpc) :
    z * vpr + x < vpr * vpc := by
  have h1 : z * vpr + vpr ≤ vpc * vpr := by
    have : (z + 1) * vpr ≤ vpc * vpr := Nat.mul_le_mul_right _ hz
    rw [Nat.add_mul, Nat.one_mul] at this
    exact this
  rw [Nat.mul_comm vpr vpc]
  omega

theorem gridLoop_inv {σ : Type} (step : Nat → Nat → σ → Except Fault σ) (P : Nat → σ → Prop)
    (vpr vpc : Nat) (s : σ) (h0 : P 0 s)
    (hstep : ∀ x z t, x < vpr → z < vpc → P (z * vpr + x) t →
      ∃ t1, step x z t = .ok t1 ∧ P (z * vpr + x + 1) t1) :
    ∃ s1, gridLoop step vpr vpc s = .ok s1 ∧ P (vpr * vpc) s1 := by
  unfold gridLoop
  obtain ⟨s1, hs1, hP⟩ := forLoop_inv (fun z s => forLoop (fun x s => step x z s) vpr 0 s)
    (fun z t => P (z * vpr) t) vpc 0 s (by simpa using h0)
    (by
      intro z t _ hz hPz
      obtain ⟨t1, ht1, hP1⟩ := forLoop_inv (fun x s => step x z s) (fun x t => P (z * vpr + x) t)
        vpr 0 t (by simpa using hPz)
        (fun x u _ hx hPx => hstep x z u (by omega) (by omega) hPx)
      refine ⟨t1, ht1, ?_⟩
      have he : (z + 1) * vpr = z * vpr + (0 + vpr) := by rw [Nat.add_mul]; omega
      show P ((z + 1) * vpr) t1
      rw [he]
      exact hP1)
  refine ⟨s1, hs1, ?_⟩
  have he : vpr * vpc = (0 + vpc) * vpr := by rw [Nat.zero_add, Nat.mul_comm]
  have hP1 : P ((0 + vpc) * vpr) s1 := hP
  rw [he]
  exact hP1

theorem firstPass_spec (lib : Lib) (T : Terrain) (H : Nat → Nat → ℚ) (h0 : ℚ) (n : Nat)
    (hn : n = T.m_vpr * T.m_vpc)
    (hH : ∀ x z, T.rawSample lib x z = .ok (H x z)) :
    ∃ s1, gridLoop (T.vertexStep lib) T.m_vpr T.m_vpc
        { vertices := List.replicate n zeroVertex, m_min := h0, m_max := h0, index := 0 } = .ok s1 ∧
      FirstPassInv T (fun j => H (j % T.m_vpr) (j / T.m_vpr)) h0 n n s1 := by
  have h := gridLoop_inv (T.vertexStep lib)
    (fun k s => FirstPassInv T (fun j => H (j % T.m_vpr) (j / T.m_vpr)) h0 n k s)
    T.m_vpr T.m_vpc
    { vertices := List.replicate n zeroVertex, m_min := h0, m_max := h0, index := 0 }
    { index := rfl
      length := by simp
      done := fun j hj => absurd hj (Nat.not_lt_zero j)
      lower := fun j hj => absurd hj (Nat.not_lt_zero j)
      upper := fun j hj => absurd hj (Nat.not_lt_zero j)
      lower0 := le_refl _
      upper0 := le_refl _
      minAttained := Or.inl rfl
      maxAttained := Or.inl rfl }
    (by
      intro x z t hx hz hP
      obtain ⟨e1, e2⟩ := grid_index T.m_vpr x z hx
      refine vertexStep_spec lib T _ h0 n (z * T.m_vpr + x) x z t ?_ e1 e2 ?_ hP
      · rw [hn]; exact grid_index_lt _ _ x z hx hz
      · simp only [e1, e2]
        exact hH x z)
  rw [← hn] at h
  exact h

theorem rebaseStep_spec (T : Terrain) (G : Nat → ℚ) (m M : ℚ) (n k : Nat) (s : VertState)
    (hk : k < n) (hI : SecondPassInv T G m M n k s) :
    ∃ s1, rebaseStep s = .ok s1 ∧ SecondPassInv T G m M n (k + 1) s1 := by
  have hv := hI.todo k (le_refl k) hk
  unfold rebaseStep
  simp only [hI.index, hv]
  refine ⟨_, rfl, ?_⟩
  constructor
  · rfl
  · exact hI.min
  · exact hI.max
  · simp only [List.length_set, hI.length]
  · intro j hj
    simp only
    by_cases hjk : j = k
    · subst hjk
      rw [List.getElem?_set_self (by rw [hI.length]; exact hk), hI.min]
      rfl
    · rw [List.getElem?_set_ne (fun h => hjk h.symm)]
      exact hI.done j (by omega)
  · intro j hj1 hj2
    simp only
    rw [List.getElem?_set_ne (by omega)]
    exact hI.todo j (by omega) hj2

theorem secondPass_spec (T : Terrain) (G : Nat → ℚ) (m M : ℚ) (n : Nat)
    (hn : n = T.m_vpr * T.m_vpc) (s : VertState) (hI : SecondPassInv T G m M n 0 s) :
    ∃ s1, gridLoop (fun _ _ s => rebaseStep s) T.m_vpr T.m_vpc s = .ok s1 ∧
      SecondPassInv T G m M n n s1 := by
  have h := gridLoop_inv (fun _ _ s => rebaseStep s) (fun k s => SecondPassInv T G m M n k s)
    T.m_vpr T.m_vpc s hI
    (by
      intro x z t hx hz hP
      exact rebaseStep_spec T G m M n _ t (by rw [hn]; exact grid_index_lt _ _ x z hx hz) hP)
  rw [← hn] at h
  exact h

theorem calculateVertices_spec (lib : Lib) (T : Terrain) (H : Nat → Nat → ℚ) (h0 : ℚ)
    (hn : T.m_vpr * T.m_vpc < u32Size) (h00 : T.m_noise.n2_layered lib 0 0 = .ok h0)
    (hH : ∀ x z, T.rawSample lib x z = .ok (H x z)) :
    ∃ T1, T.calculateVertices lib = .ok T1 ∧
      VerticesBuilt T T1 (fun j => H (j % T.m_vpr) (j / T.m_vpr)) h0 := by
  have hu : u32 (T.m_vpr * T.m_vpc) = T.m_vpr * T.m_vpc := by
    unfold u32
    exact Nat.mod_eq_of_lt hn
  obtain ⟨s1, hs1, hI1⟩ := firstPass_spec lib T H h0 (T.m_vpr * T.m_vpc) rfl hH
  obtain ⟨s2, hs2, hI2⟩ := secondPass_spec T (fun j => H (j % T.m_vpr) (j / T.m_vpr))
    s1.m_min s1.m_max (T.m_vpr * T.m_vpc) rfl { s1 with index := 0 }
    { index := rfl
      min := rfl
      max := rfl
      length := hI1.length
      done := fun j hj => absurd hj (Nat.not_lt_zero j)
      todo := fun j _ hj => hI1.done j hj }
  refine ⟨{ T with m_vertices := s2.vertices, m_min := s2.m_min, m_max := s2.m_max }, ?_, ?_⟩
  · unfold Terrain.calculateVertices
    simp only [h00, hu, hs1, hs2]
  · constructor
    · rfl
    · exact hI2.length
    · intro j hj
      have := hI2.done j hj
      simp only [hI2.min]
      exact this
    · intro j hj
      simp only [hI2.min]
      exact hI1.lower j hj
    · intro j hj
      simp only [hI2.max]
      exact hI1.upper j hj
    · simp only [hI2.min]
      exact hI1.lower0
    · simp only [hI2.max]
      exact hI1.upper0
    · simp only [hI2.min]
      exact hI1.minAttained
    · simp only [hI2.max]
      exact hI1.maxAttained

theorem rawSample_origin (lib : Lib) (T : Terrain) :
    T.rawSample lib 0 0 = T.m_noise.n2_layered lib 0 0 := by
  unfold Terrain.rawSample
  simp only [Nat.cast_zero, zero_mul]

theorem rawSample_total (lib : Lib) (T : Terrain) (hN : StandardReady T.m_noise) :
    ∃ H : Nat → Nat → ℚ, ∀ x z, T.rawSample lib x z = .ok (H x z) := by
  have h : ∀ x z, ∃ v, T.rawSample lib x z = .ok v := fun x z => n2_layered_ok lib _ hN _ _
  exact ⟨fun x z => (h x z).choose, fun x z => (h x z).choose_spec⟩

/-- C6: on a non-empty grid whose vertex count fits an `unsigned`, with a
standard engine, `calculateVertices` returns; afterwards every vertex has
`y ≥ 0`, some vertex has `y = 0` exactly, every vertex has `y ≤ getMax()` and
some vertex has `y = getMax()`, where `getMax() = m_max - m_min` and `m_min`,
`m_max` are the least and the greatest raw sample of the grid. -/
theorem calculateVertices_rebased (lib : Lib) (T : Terrain) (hN : StandardReady T.m_noise)
    (hr : 0 < T.m_vpr) (hc : 0 < T.m_vpc) (hn : T.m_vpr * T.m_vpc < u32Size) :
    ∃ T1, T.calculateVertices lib = .ok T1 ∧
      (∀ v, v ∈ T1.m_vertices → 0 ≤ v.pos.y) ∧
      (∃ v, v ∈ T1.m_vertices ∧ v.pos.y = 0) ∧
      (∀ v, v ∈ T1.m_vertices → v.pos.y ≤ T1.getMax) ∧
      (∃ v, v ∈ T1.m_vertices ∧ v.pos.y = T1.getMax) ∧
      T1.getMax = T1.m_max - T1.m_min ∧
      (∀ x z, x < T.m_vpr → z < T.m_vpc →
        ∃ h, T.rawSample lib x z = .ok h ∧ T1.m_min ≤ h ∧ h ≤ T1.m_max) ∧
      (∃ x z, x < T.m_vpr ∧ z < T.m_vpc ∧ T.rawSample lib x z = .ok T1.m_min) ∧
      (∃ x z, x < T.m_vpr ∧ z < T.m_vpc ∧ T.rawSample lib x z = .ok T1.m_max) := by
  obtain ⟨H, hH⟩ := rawSample_total lib T hN
  have h00 : T.m_noise.n2_layered lib 0 0 = .ok (H 0 0) := by
    rw [← rawSample_origin]
    exact hH 0 0
  obtain ⟨T1, hT1, hB⟩ := calculateVertices_spec lib T H (H 0 0) hn h00 hH
  have hpos : 0 < T.m_vpr * T.m_vpc := Nat.mul_pos hr hc
  have hmod : ∀ j, j < T.m_vpr * T.m_vpc → j % T.m_vpr < T.m_vpr ∧ j / T.m_vpr < T.m_vpc := by
    intro j hj
    exact ⟨Nat.mod_lt _ hr, Nat.div_lt_of_lt_mul hj⟩
  -- the least and the greatest sample are attained on the grid
  have hmin : ∃ j, j < T.m_vpr * T.m_vpc ∧ T1.m_min = H (j % T.m_vpr) (j / T.m_vpr) := by
    rcases hB.minAttained with h | h
    · exact ⟨0, hpos, by simpa using h⟩
    · exact h
  have hmax : ∃ j, j < T.m_vpr * T.m_vpc ∧ T1.m_max = H (j % T.m_vpr) (j / T.m_vpr) := by
    rcases hB.maxAttained with h | h
    · exact ⟨0, hpos, by simpa using h⟩
    · exact h
  have hy : ∀ j (hj : j < T.m_vpr * T.m_vpc),
      (T.gridVertex (j % T.m_vpr) (j / T.m_vpr) (H (j % T.m_vpr) (j / T.m_vpr) - T1.m_min)) ∈
        T1.m_vertices := by
    intro j hj
    exact List.getElem?_mem (hB.vertices j hj)
  have hall : ∀ v, v ∈ T1.m_vertices → ∃ j, j < T.m_vpr * T.m_vpc ∧
      v.pos.y = H (j % T.m_vpr) (j / T.m_vpr) - T1.m_min := by
    intro v hv
    obtain ⟨j, hj, hvj⟩ := List.getElem_of_mem hv
    have hj' : j < T.m_vpr * T.m_vpc := by rw [← hB.length]; exact hj
    have h1 := hB.vertices j hj'
    rw [List.getElem?_eq_getElem hj, hvj] at h1
    injection h1 with h1
    exact ⟨j, hj', by rw [h1]; rfl⟩
  refine ⟨T1, hT1, ?_, ?_, ?_, ?_, rfl, ?_, ?_, ?_⟩
  · intro v hv
    obtain ⟨j, hj, hvy⟩ := hall v hv
    rw [hvy]
    exact sub_nonneg.mpr (hB.lower j hj)
  · obtain ⟨j, hj, hm⟩ := hmin
    refine ⟨_, hy j hj, ?_⟩
    show H (j % T.m_vpr) (j / T.m_vpr) - T1.m_min = 0
    rw [← hm, sub_self]
  · intro v hv
    obtain ⟨j, hj, hvy⟩ := hall v hv
    rw [hvy]
    exact sub_le_sub_right (hB.upper j hj) _
  · obtain ⟨j, hj, hm⟩ := hmax
    refine ⟨_, hy j hj, ?_⟩
    show H (j % T.m_vpr) (j / T.m_vpr) - T1.m_min = T1.m_max - T1.m_min
    rw [← hm]
  · intro x z hx hz
    obtain ⟨e1, e2⟩ := grid_index T.m_vpr x z hx
    have hj := grid_index_lt T.m_vpr T.m_vpc x z hx hz
    have hl := hB.lower _ hj
    have hu := hB.upper _ hj
    simp only [e1, e2] at hl hu
    exact ⟨H x z, hH x z, hl, hu⟩
  · obtain ⟨j, hj, hm⟩ := hmin
    exact ⟨j % T.m_vpr, j / T.m_vpr, (hmod j hj).1, (hmod j hj).2, by rw [hm]; exact hH _ _⟩
  · obtain ⟨j, hj, hm⟩ := hmax
    exact ⟨j % T.m_vpr, j / T.m_vpr, (hmod j hj).1, (hmod j hj).2, by rw [hm]; exact hH _ _⟩

/-- Witness for C6: the 128 x 128 grid on the sample standard engine. -/
theorem calculateVertices_rebased_witness :
    ∃ T1, demoTerrain.calculateVertices demoLib = .ok T1 ∧
      (∀ v, v ∈ T1.m_vertices → 0 ≤ v.pos.y) ∧
      (∃ v, v ∈ T1.m_vertices ∧ v.pos.y = 0) ∧
      (∀ v, v ∈ T1.m_vertices → v.pos.y ≤ T1.getMax) ∧
      (∃ v, v ∈ T1.m_vertices ∧ v.pos.y = T1.getMax) ∧
      T1.getMax = T1.m_max - T1.m_min ∧
      (∀ x z, x < demoTerrain.m_vpr → z < demoTerrain.m_vpc →
        ∃ h, demoTerrain.rawSample demoLib x z = .ok h ∧ T1.m_min ≤ h ∧ h ≤ T1.m_max) ∧
      (∃ x z, x < demoTerrain.m_vpr ∧ z < demoTerrain.m_vpc ∧
        demoTerrain.rawSample demoLib x z = .ok T1.m_min) ∧
      (∃ x z, x < demoTerrain.m_vpr ∧ z < demoTerrain.m_vpc ∧
        demoTerrain.rawSample demoLib x z = .ok T1.m_max) :=
  calculateVertices_rebased demoLib demoTerrain
    (standard_ready demoLib 5 3 20 2 2 42 demoBuiltStandard demoBuiltStandard_eq)
    (by decide) (by decide) (by unfold u32Size; decide)

/-! ## Index list: proofs -/

theorem u32_add_one (a : Nat) : u32 (u32 a + 1) = u32 (a + 1) := by
  unfold u32 u32Size
  omega

theorem u32_of_lt {a : Nat} (h : a < u32Size) : u32 a = a := by
  unfold u32
  exact Nat.mod_eq_of_lt h

theorem u32Sub_of_le {a b : Nat} (h1 : b ≤ a) (h2 : a < u32Size) : u32Sub a b = a - b := by
  unfold u32Sub
  rw [u32_of_lt h2, u32_of_lt (lt_of_le_of_lt h1 h2), if_pos h1]

theorem u32Sub_one {a : Nat} (h1 : 1 ≤ a) (h2 : a < u32Size) : u32Sub a 1 = a - 1 :=
  u32Sub_of_le h1 h2

theorem strip_pos (c y q : Nat) (hq : q < 2 * c + 1) :
    (y * (2 * c + 1) + q) / (2 * c + 1) = y ∧ (y * (2 * c + 1) + q) % (2 * c + 1) = q := by
  have hpos : 0 < 2 * c + 1 := by omega
  constructor
  · rw [Nat.add_comm, Nat.add_mul_div_right _ _ hpos, Nat.div_eq_of_lt hq, Nat.zero_add]
  · rw [Nat.add_comm, Nat.add_mul_mod_self_right, Nat.mod_eq_of_lt hq]

theorem stripEntry_bot (c y x : Nat) (hx : x < c) :
    stripEntry c (y * (2 * c + 1) + 2 * x) = u32 (y * c + x) := by
  obtain ⟨h1, h2⟩ := strip_pos c y (2 * x) (by omega)
  unfold stripEntry
  simp only [h1, h2]
  rw [if_neg (by omega), if_pos (by omega)]
  congr 2
  omega

theorem stripEntry_top (c y x : Nat) (hx : x < c) :
    stripEntry c (y * (2 * c + 1) + 2 * x + 1) = u32 (c + y * c + x) := by
  obtain ⟨h1, h2⟩ := strip_pos c y (2 * x + 1) (by omega)
  unfold stripEntry
  rw [Nat.add_assoc]
  simp only [h1, h2]
  rw [if_neg (by omega), if_neg (by omega)]
  congr 2
  omega

theorem stripEntry_restart (c y : Nat) :
    stripEntry c (y * (2 * c + 1) + 2 * c) = restartIndex := by
  obtain ⟨h1, h2⟩ := strip_pos c y (2 * c) (by omega)
  unfold stripEntry
  simp only [h1, h2, if_true]

theorem getElem?_snoc {α : Type} (l : List α) (a : α) (f : Nat → α)
    (h : ∀ p, p < l.length → l[p]? = some (f p)) (ha : a = f l.length) :
    ∀ p, p < (l ++ [a]).length → (l ++ [a])[p]? = some (f p) := by
  intro p hp
  rw [List.length_append, List.length_singleton] at hp
  by_cases hpl : p < l.length
  · rw [List.getElem?_append_left hpl]
    exact h p hpl
  · have : p = l.length := by omega
    subst this
    rw [List.getElem?_append_right (le_refl _)]
    simp [ha]

theorem pushPair_inv (c y x : Nat) (s : ElemState) (hx : x < c) (hI : StripInv c y x s) :
    StripInv c y (x + 1)
      { elements := (s.elements ++ [s.bot]) ++ [s.top], bot := u32 (s.bot + 1),
        top := u32 (s.top + 1) } := by
  have e1 : ∀ p, p < (s.elements ++ [s.bot]).length →
      (s.elements ++ [s.bot])[p]? = some (stripEntry c p) :=
    getElem?_snoc s.elements s.bot (stripEntry c) hI.entries
      (by rw [hI.length, stripEntry_bot c y x hx]; exact hI.bot)
  have l1 : (s.elements ++ [s.bot]).length = y * (2 * c + 1) + 2 * x + 1 := by
    rw [List.length_append, List.length_singleton, hI.length]
  constructor
  · simp only [List.length_append, List.length_singleton, hI.length]
    omega
  · simp only [hI.bot]
    rw [u32_add_one, Nat.add_assoc]
  · simp only [hI.top]
    rw [u32_add_one, Nat.add_assoc]
  · exact getElem?_snoc _ s.top (stripEntry c) e1
      (by rw [l1, stripEntry_top c y x hx]; exact hI.top)

theorem elementsRow_inv (c y : Nat) (n : Nat) :
    ∀ (x : Nat) (s : ElemState), x + n ≤ c → StripInv c y x s →
      StripInv c y (x + n) (elementsRow n s) := by
  induction n with
  | zero => intro x s _ hI; exact hI
  | succ n ih =>
    intro x s hle hI
    simp only [elementsRow]
    have := ih (x + 1) _ (by omega) (pushPair_inv c y x s (by omega) hI)
    rw [show x + (n + 1) = x + 1 + n by omega]
    exact this

theorem pushRestart_inv (c y : Nat) (s : ElemState) (hI : StripInv c y c s) :
    StripInv c (y + 1) 0 { s with elements := s.elements ++ [restartIndex] } := by
  constructor
  · simp only [List.length_append, List.length_singleton, hI.length]
    rw [Nat.add_mul]
    omega
  · simp only [hI.bot]
    congr 1
    rw [Nat.add_mul]
    omega
  · simp only [hI.top]
    congr 1
    rw [Nat.add_mul]
    omega
  · exact getElem?_snoc _ restartIndex (stripEntry c) hI.entries
      (by rw [hI.length, stripEntry_restart])

theorem elementsLoop_inv (c : Nat) (n : Nat) :
    ∀ (y : Nat) (s : ElemState), StripInv c y 0 s → StripInv c (y + n) 0 (elementsLoop c n s) := by
  induction n with
  | zero => intro y s hI; exact hI
  | succ n ih =>
    intro y s hI
    simp only [elementsLoop]
    have hrow := elementsRow_inv c y c 0 s (by omega) hI
    rw [Nat.zero_add] at hrow
    have := ih (y + 1) _ (pushRestart_inv c y _ hrow)
    rw [show y + (n + 1) = y + 1 + n by omega]
    exact this

theorem elementList_inv (vpr vpc : Nat) (hr : vpr < u32Size) :
    StripInv vpr (u32Sub vpc 1) 0
      (elementsLoop vpr (u32Sub vpc 1) { elements := [], bot := 0, top := vpr }) := by
  have h0 : StripInv vpr 0 0 { elements := [], bot := 0, top := vpr } := by
    constructor
    · show (0 : Nat) = 0 * (2 * vpr + 1) + 2 * 0
      rw [Nat.zero_mul]
    · show (0 : Nat) = u32 (0 * vpr + 0)
      rw [Nat.zero_mul, Nat.add_zero]
      exact (u32_of_lt (a := 0) (by unfold u32Size; omega)).symm
    · show vpr = u32 (vpr + 0 * vpr + 0)
      rw [Nat.zero_mul, Nat.add_zero]
      exact (u32_of_lt hr).symm
    · intro p hp
      exact absurd hp (Nat.not_lt_zero p)
  have := elementsLoop_inv vpr (u32Sub vpc 1) 0 _ h0
  rw [Nat.zero_add] at this
  exact this

theorem elementList_eq (vpr vpc : Nat) :
    elementList vpr vpc =
      (elementsLoop vpr (u32Sub vpc 1) { elements := [], bot := 0, top := vpr }).elements := rfl

theorem elementList_length (vpr vpc : Nat) (hr : vpr < u32Size) :
    (elementList vpr vpc).length = u32Sub vpc 1 * (2 * vpr + 1) := by
  have := (elementList_inv vpr vpc hr).length
  rw [Nat.mul_zero, Nat.add_zero] at this
  rw [elementList_eq]
  exact this

theorem elementList_entry (vpr vpc : Nat) (hr : vpr < u32Size) (p : Nat)
    (hp : p < (elementList vpr vpc).length) :
    (elementList vpr vpc)[p]? = some (stripEntry vpr p) := by
  rw [elementList_eq] at hp ⊢
  exact (elementList_inv vpr vpc hr).entries p hp

theorem calculateElements_elements (T : Terrain) :
    T.calculateElements.m_elements = elementList T.m_vpr T.m_vpc := rfl

theorem calculateElements_size (T : Terrain) :
    T.calculateElements.drawCount = elementSize T.m_vpr T.m_vpc := rfl

theorem elementList_length_rows (vpr vpc : Nat) (hr : vpr < u32Size) (h1 : 1 ≤ vpc)
    (hc : vpc < u32Size) : (elementList vpr vpc).length = 2 * vpr * (vpc - 1) + (vpc - 1) := by
  rw [elementList_length vpr vpc hr, u32Sub_one h1 hc]
  ring

theorem elementSize_eq (vpr vpc : Nat) (h2 : 2 ≤ vpc) (hb : 2 * vpr * vpc < u32Size)
    (hv : vpc ≤ 2 * vpr + 2) :
    elementSize vpr vpc = 2 * vpr * (vpc - 2) + 2 * vpr - (vpc - 2) := by
  have hmul : 2 * vpr * (vpc - 2) + 2 * vpr ≤ 2 * vpr * vpc := by
    have h : 2 * vpr * vpc = 2 * vpr * (vpc - 2) + 2 * vpr * 2 := by
      rw [← Nat.mul_add]
      congr 1
      omega
    rw [h]
    omega
  have hle : 2 * vpr * (vpc - 2) ≤ 2 * vpr * (vpc - 2) + 2 * vpr := Nat.le_add_right _ _
  have hvpc : vpc < u32Size := by
    rcases Nat.eq_zero_or_pos vpr with h0 | hpos
    · rw [h0] at hv
      unfold u32Size
      omega
    · have : vpc ≤ 2 * vpr * vpc := Nat.le_mul_of_pos_left _ (by omega)
      omega
  have h2r : 2 * vpr < u32Size := by
    have : 2 * vpr ≤ 2 * vpr * vpc := Nat.le_mul_of_pos_right _ (by omega)
    omega
  have hsub : u32Sub vpc 2 = vpc - 2 := u32Sub_of_le h2 hvpc
  unfold elementSize
  rw [hsub, u32_of_lt h2r, u32_of_lt (a := 2 * vpr * (vpc - 2)) (by omega),
    u32_of_lt (a := 2 * vpr * (vpc - 2) + 2 * vpr) (by omega)]
  have hge : vpc - 2 ≤ 2 * vpr * (vpc - 2) + 2 * vpr := by
    have : vpc - 2 ≤ 2 * vpr := by omega
    omega
  exact u32Sub_of_le hge (by omega)

/-- C8 (failing input): on the 128 x 128 grid of vertex detail 1,
`calculateElements` records `m_elementsSize = 32386`, the count that `draw`
passes on, while the index list it builds has 32639 entries. -/
theorem calculateElements_count_mismatch :
    demoTerrain.calculateElements.drawCount = 32386 ∧
    demoTerrain.calculateElements.m_elements.length = 32639 ∧
    demoTerrain.calculateElements.drawCount ≠ demoTerrain.calculateElements.m_elements.length := by
  have h1 : demoTerrain.calculateElements.drawCount = 32386 := by
    rw [calculateElements_size]
    exact elementSize_eq 128 128 (by decide) (by unfold u32Size; decide) (by decide)
  have h2 : demoTerrain.calculateElements.m_elements.length = 32639 := by
    rw [calculateElements_elements]
    exact elementList_length_rows 128 128 (by unfold u32Size; decide) (by decide)
      (by unfold u32Size; decide)
  refine ⟨h1, h2, ?_⟩
  rw [h1, h2]
  decide

theorem restartIndex_eq : restartIndex = u32Size - 1 := by
  unfold restartIndex u32Size
  rfl

theorem stripEntry_cases (c p : Nat) :
    stripEntry c p = restartIndex ∨
    ∃ x, x < c ∧ (stripEntry c p = u32 (p / (2 * c + 1) * c + x) ∨
      stripEntry c p = u32 (c + p / (2 * c + 1) * c + x)) := by
  have hq : p % (2 * c + 1) < 2 * c + 1 := Nat.mod_lt _ (by omega)
  unfold stripEntry
  simp only
  split
  · exact Or.inl rfl
  · rename_i hne
    right
    refine ⟨p % (2 * c + 1) / 2, by omega, ?_⟩
    split
    · exact Or.inl rfl
    · exact Or.inr rfl

theorem elementList_mem (vpr vpc : Nat) (hr : vpr < u32Size) (e : Nat)
    (he : e ∈ elementList vpr vpc) :
    e = restartIndex ∨ ∃ y x, y < u32Sub vpc 1 ∧ x < vpr ∧
      (e = u32 (y * vpr + x) ∨ e = u32 (vpr + y * vpr + x)) := by
  obtain ⟨p, hp, hpe⟩ := List.getElem_of_mem he
  have h1 := elementList_entry vpr vpc hr p hp
  rw [List.getElem?_eq_getElem hp, hpe] at h1
  injection h1 with h1
  have hlen := elementList_length vpr vpc hr
  have hy : p / (2 * vpr + 1) < u32Sub vpc 1 := by
    apply Nat.div_lt_of_lt_mul
    rw [Nat.mul_comm, ← hlen]
    exact hp
  rcases stripEntry_cases vpr p with h | ⟨x, hx, h⟩
  · exact Or.inl (by rw [h1, h])
  · exact Or.inr ⟨p / (2 * vpr + 1), x, hy, hx, by rw [h1]; exact h⟩

theorem grid_bot_lt (vpr vpc y x : Nat) (hy : y < vpc - 1) (hx : x < vpr) :
    y * vpr + x < vpr * vpc ∧ vpr + y * vpr + x < vpr * vpc := by
  have h1 : (y + 1) * vpr + vpr ≤ vpc * vpr := by
    have : (y + 2) * vpr ≤ vpc * vpr := Nat.mul_le_mul_right _ (by omega)
    rw [Nat.add_mul] at this
    rw [Nat.add_mul]
    omega
  rw [Nat.add_mul, Nat.one_mul] at h1
  rw [Nat.mul_comm vpr vpc]
  omega

/-- C9: for a grid whose vertex count `columns * rows` is below `2^32` (and that
has no columns when it has no rows, as in every grid with `columns = rows`),
every entry of the index list of `calculateElements` other than the restart
index `0xFFFFFFFF` is below `columns * rows`, and no vertex index equals the
restart index. -/
theorem calculateElements_indices_valid (T : Terrain) (hr : T.m_vpr < u32Size)
    (hc : T.m_vpc < u32Size) (hn : T.m_vpr * T.m_vpc < u32Size)
    (hdeg : T.m_vpc = 0 → T.m_vpr = 0) :
    (∀ e, e ∈ T.calculateElements.m_elements → e ≠ restartIndex → e < T.m_vpr * T.m_vpc) ∧
    (∀ i, i < T.m_vpr * T.m_vpc → i ≠ restartIndex) := by
  constructor
  · intro e he hne
    rw [calculateElements_elements] at he
    rcases elementList_mem T.m_vpr T.m_vpc hr e he with h | ⟨y, x, hy, hx, h⟩
    · exact absurd h hne
    · have hvpc : 1 ≤ T.m_vpc := by
        rcases Nat.eq_zero_or_pos T.m_vpc with h0 | hpos
        · have := hdeg h0
          omega
        · exact hpos
      rw [u32Sub_one hvpc hc] at hy
      obtain ⟨b1, b2⟩ := grid_bot_lt T.m_vpr T.m_vpc y x hy hx
      rcases h with h | h
      · rw [h, u32_of_lt (by omega)]
        exact b1
      · rw [h, u32_of_lt (by omega)]
        exact b2
  · intro i hi
    rw [restartIndex_eq]
    omega

/-- Witness for C9: the 128 x 128 grid. -/
theorem calculateElements_indices_valid_witness :
    (∀ e, e ∈ demoTerrain.calculateElements.m_elements → e ≠ restartIndex →
      e < demoTerrain.m_vpr * demoTerrain.m_vpc) ∧
    (∀ i, i < demoTerrain.m_vpr * demoTerrain.m_vpc → i ≠ restartIndex) :=
  calculateElements_indices_valid demoTerrain (by unfold u32Size; decide)
    (by unfold u32Size; decide) (by unfold u32Size; decide) (by decide)

theorem gridVertex_eq (T : Terrain) (x z : Nat) (h : ℚ) :
    T.gridVertex x z h =
      { pos := ⟨(x : ℚ) * (T.m_surfaceWidth / (T.m_vpr : ℚ)) - T.m_surfaceWidth / 2, h,
                T.m_surfaceDepth / 2 - (z : ℚ) * (T.m_surfaceDepth / (T.m_vpc : ℚ))⟩
        texCoord := ⟨(x : ℚ) / ((T.m_vpr : ℚ) - 1), (z : ℚ) / ((T.m_vpc : ℚ) - 1)⟩ } := by
  unfold Terrain.gridVertex
  congr 1
  · congr 1
    ring
  · congr 1
    · rw [mul_one_div]
    · rw [mul_one_div]

theorem calculateVertices_total (lib : Lib) (T : Terrain) (hN : StandardReady T.m_noise)
    (hn : T.m_vpr * T.m_vpc < u32Size) :
    ∃ (H : Nat → Nat → ℚ) (T1 : Terrain), (∀ x z, T.rawSample lib x z = .ok (H x z)) ∧
      T.calculateVertices lib = .ok T1 ∧
      VerticesBuilt T T1 (fun j => H (j % T.m_vpr) (j / T.m_vpr)) (H 0 0) := by
  obtain ⟨H, hH⟩ := rawSample_total lib T hN
  have h00 : T.m_noise.n2_layered lib 0 0 = .ok (H 0 0) := by
    rw [← rawSample_origin]
    exact hH 0 0
  obtain ⟨T1, hT1, hB⟩ := calculateVertices_spec lib T H (H 0 0) hn h00 hH
  exact ⟨H, T1, hH, hT1, hB⟩

theorem verticesBuilt_at (lib : Lib) (T T1 : Terrain) (H : Nat → Nat → ℚ) (h0 : ℚ)
    (hB : VerticesBuilt T T1 (fun j => H (j % T.m_vpr) (j / T.m_vpr)) h0) (x z : Nat)
    (hx : x < T.m_vpr) (hz : z < T.m_vpc) :
    T1.m_vertices[z * T.m_vpr + x]? = some (T.gridVertex x z (H x z - T1.m_min)) := by
  have _ := lib
  obtain ⟨e1, e2⟩ := grid_index T.m_vpr x z hx
  have := hB.vertices _ (grid_index_lt T.m_vpr T.m_vpc x z hx hz)
  simp only [e1, e2] at this
  exact this

/-- C11: for a terrain with `m_vpr = m_vpc = 128 * vertexDetail` (no `unsigned`
wrap in the vertex count), `calculateVertices` produces exactly
`vpr * vpc = (128 * vertexDetail)^2` vertices in row-major order: the vertex at
index `z * vpr + x` has position
`(x * stepX - width/2, n2_layered(x * stepX, z * stepZ) - min, depth/2 - z * stepZ)`
with `stepX = width / vpr`, `stepZ = depth / vpc`, and texture coordinate
`(x / (vpr - 1), z / (vpc - 1))`; the four grid corners have texture
coordinates `(0,0)`, `(1,0)`, `(0,1)`, `(1,1)`. -/
theorem calculateVertices_row_major (lib : Lib) (T : Terrain) (vD : Nat)
    (hN : StandardReady T.m_noise) (hvD : 1 ≤ vD)
    (hr : T.m_vpr = u32 (128 * vD)) (hc : T.m_vpc = u32 (128 * vD))
    (hn : (128 * vD) * (128 * vD) < u32Size) :
    ∃ T1, T.calculateVertices lib = .ok T1 ∧
      T1.m_vertices.length = T.m_vpr * T.m_vpc ∧
      T1.m_vertices.length = (128 * vD) ^ 2 ∧
      (∀ x z, x < T.m_vpr → z < T.m_vpc →
        ∃ h, T.m_noise.n2_layered lib ((x : ℚ) * (T.m_surfaceWidth / (T.m_vpr : ℚ)))
            ((z : ℚ) * (T.m_surfaceDepth / (T.m_vpc : ℚ))) = .ok h ∧
          T1.m_vertices[z * T.m_vpr + x]? = some
            { pos := ⟨(x : ℚ) * (T.m_surfaceWidth / (T.m_vpr : ℚ)) - T.m_surfaceWidth / 2,
                      h - T1.m_min,
                      T.m_surfaceDepth / 2 - (z : ℚ) * (T.m_surfaceDepth / (T.m_vpc : ℚ))⟩
              texCoord := ⟨(x : ℚ) / ((T.m_vpr : ℚ) - 1), (z : ℚ) / ((T.m_vpc : ℚ) - 1)⟩ }) ∧
      (∃ v, T1.m_vertices[0]? = some v ∧ v.texCoord = ⟨0, 0⟩) ∧
      (∃ v, T1.m_vertices[T.m_vpr - 1]? = some v ∧ v.texCoord = ⟨1, 0⟩) ∧
      (∃ v, T1.m_vertices[(T.m_vpc - 1) * T.m_vpr]? = some v ∧ v.texCoord = ⟨0, 1⟩) ∧
      (∃ v, T1.m_vertices[(T.m_vpc - 1) * T.m_vpr + (T.m_vpr - 1)]? = some v ∧
        v.texCoord = ⟨1, 1⟩) := by
  have hlt : 128 * vD < u32Size := by
    have : 128 * vD ≤ (128 * vD) * (128 * vD) := Nat.le_mul_self _
    omega
  have hr1 : T.m_vpr = 128 * vD := by rw [hr, u32_of_lt hlt]
  have hc1 : T.m_vpc = 128 * vD := by rw [hc, u32_of_lt hlt]
  have hn1 : T.m_vpr * T.m_vpc < u32Size := by rw [hr1, hc1]; exact hn
  have hr2 : 2 ≤ T.m_vpr := by omega
  have hc2 : 2 ≤ T.m_vpc := by omega
  obtain ⟨H, T1, hH, hT1, hB⟩ := calculateVertices_total lib T hN hn1
  have hq : ∀ n : Nat, 2 ≤ n → ((n - 1 : Nat) : ℚ) / ((n : ℚ) - 1) = 1 := by
    intro n h2
    rw [Nat.cast_sub (by omega), Nat.cast_one]
    have : (n : ℚ) - 1 ≠ 0 := by
      have : (2 : ℚ) ≤ (n : ℚ) := by exact_mod_cast h2
      linarith
    exact div_self this
  refine ⟨T1, hT1, hB.length, ?_, ?_, ?_, ?_, ?_, ?_⟩
  · rw [hB.length, hr1, hc1, Nat.pow_two]
  · intro x z hx hz
    refine ⟨H x z, hH x z, ?_⟩
    rw [verticesBuilt_at lib T T1 H _ hB x z hx hz, gridVertex_eq]
  · have := verticesBuilt_at lib T T1 H _ hB 0 0 (by omega) (by omega)
    rw [Nat.zero_mul, Nat.add_zero, gridVertex_eq] at this
    exact ⟨_, this, by simp⟩
  · have := verticesBuilt_at lib T T1 H _ hB (T.m_vpr - 1) 0 (by omega) (by omega)
    rw [Nat.zero_mul, Nat.zero_add, gridVertex_eq] at this
    exact ⟨_, this, by simp [hq T.m_vpr hr2]⟩
  · have := verticesBuilt_at lib T T1 H _ hB 0 (T.m_vpc - 1) (by omega) (by omega)
    rw [Nat.add_zero, gridVertex_eq] at this
    exact ⟨_, this, by simp [hq T.m_vpc hc2]⟩
  · have := verticesBuilt_at lib T T1 H _ hB (T.m_vpr - 1) (T.m_vpc - 1) (by omega) (by omega)
    rw [gridVertex_eq] at this
    exact ⟨_, this, by simp [hq T.m_vpr hr2, hq T.m_vpc hc2]⟩

/-- Witness for C11: vertex detail 1, the 128 x 128 grid. -/
theorem calculateVertices_row_major_witness :
    ∃ T1, demoTerrain.calculateVertices demoLib = .ok T1 ∧
      T1.m_vertices.length = demoTerrain.m_vpr * demoTerrain.m_vpc ∧
      T1.m_vertices.length = (128 * 1) ^ 2 ∧
      (∀ x z, x < demoTerrain.m_vpr → z < demoTerrain.m_vpc →
        ∃ h, demoTerrain.m_noise.n2_layered demoLib
            ((x : ℚ) * (demoTerrain.m_surfaceWidth / (demoTerrain.m_vpr : ℚ)))
            ((z : ℚ) * (demoTerrain.m_surfaceDepth / (demoTerrain.m_vpc : ℚ))) = .ok h ∧
          T1.m_vertices[z * demoTerrain.m_vpr + x]? = some
            { pos := ⟨(x : ℚ) * (demoTerrain.m_surfaceWidth / (demoTerrain.m_vpr : ℚ)) -
                        demoTerrain.m_surfaceWidth / 2,
                      h - T1.m_min,
                      demoTerrain.m_surfaceDepth / 2 -
                        (z : ℚ) * (demoTerrain.m_surfaceDepth / (demoTerrain.m_vpc : ℚ))⟩
              texCoord := ⟨(x : ℚ) / ((demoTerrain.m_vpr : ℚ) - 1),
                           (z : ℚ) / ((demoTerrain.m_vpc : ℚ) - 1)⟩ }) ∧
      (∃ v, T1.m_vertices[0]? = some v ∧ v.texCoord = ⟨0, 0⟩) ∧
      (∃ v, T1.m_vertices[demoTerrain.m_vpr - 1]? = some v ∧ v.texCoord = ⟨1, 0⟩) ∧
      (∃ v, T1.m_vertices[(demoTerrain.m_vpc - 1) * demoTerrain.m_vpr]? = some v ∧
        v.texCoord = ⟨0, 1⟩) ∧
      (∃ v, T1.m_vertices[(demoTerrain.m_vpc - 1) * demoTerrain.m_vpr +
          (demoTerrain.m_vpr - 1)]? = some v ∧ v.texCoord = ⟨1, 1⟩) :=
  calculateVertices_row_major demoLib demoTerrain 1
    (standard_ready demoLib 5 3 20 2 2 42 demoBuiltStandard demoBuiltStandard_eq)
    (by decide) (by unfold u32 u32Size; decide) (by unfold u32 u32Size; decide)
    (by unfold u32Size; decide)

theorem verticesBuilt_mem (T T1 : Terrain) (H : Nat → Nat → ℚ) (h0 : ℚ)
    (hB : VerticesBuilt T T1 (fun j => H (j % T.m_vpr) (j / T.m_vpr)) h0) (hr : 0 < T.m_vpr)
    (v : Vertex) (hv : v ∈ T1.m_vertices) :
    ∃ x z, x < T.m_vpr ∧ z < T.m_vpc ∧ v = T.gridVertex x z (H x z - T1.m_min) := by
  obtain ⟨j, hj, hvj⟩ := List.getElem_of_mem hv
  have hj1 : j < T.m_vpr * T.m_vpc := by rw [← hB.length]; exact hj
  have h1 := hB.vertices j hj1
  rw [List.getElem?_eq_getElem hj, hvj] at h1
  injection h1 with h1
  exact ⟨j % T.m_vpr, j / T.m_vpr, Nat.mod_lt _ hr, Nat.div_lt_of_lt_mul hj1, h1⟩

theorem verticesBuilt_mem_of (lib : Lib) (T T1 : Terrain) (H : Nat → Nat → ℚ) (h0 : ℚ)
    (hB : VerticesBuilt T T1 (fun j => H (j % T.m_vpr) (j / T.m_vpr)) h0) (x z : Nat)
    (hx : x < T.m_vpr) (hz : z < T.m_vpc) :
    T.gridVertex x z (H x z - T1.m_min) ∈ T1.m_vertices :=
  List.getElem?_mem (verticesBuilt_at lib T T1 H h0 hB x z hx hz)

theorem demoTerrain_x (x z : Nat) (h : ℚ) : (demoTerrain.gridVertex x z h).pos.x = (x : ℚ) - 64 := by
  show (x : ℚ) * ((128 : ℚ) / ((128 : Nat) : ℚ)) - (128 : ℚ) / 2 = (x : ℚ) - 64
  norm_num

theorem demoTerrain_z (x z : Nat) (h : ℚ) : (demoTerrain.gridVertex x z h).pos.z = 64 - (z : ℚ) := by
  show (z : ℚ) * (-((128 : ℚ) / ((128 : Nat) : ℚ))) + (128 : ℚ) / 2 = 64 - (z : ℚ)
  norm_num
  ring

/-- C12 (failing input): for the terrain of width 128, depth 128 and vertex
detail 1, `calculateVertices` places the vertices at x-coordinates from `-64`
to `63` and z-coordinates from `-63` to `64` (both bounds attained), so the
midpoint of the extent is `-1/2` in x and `1/2` in z, not `0`. -/
theorem calculateVertices_extent_off_centre :
    ∃ T1, demoTerrain.calculateVertices demoLib = .ok T1 ∧
      (∀ v, v ∈ T1.m_vertices → -64 ≤ v.pos.x ∧ v.pos.x ≤ 63) ∧
      (∃ v, v ∈ T1.m_vertices ∧ v.pos.x = -64) ∧ (∃ v, v ∈ T1.m_vertices ∧ v.pos.x = 63) ∧
      (∀ v, v ∈ T1.m_vertices → -63 ≤ v.pos.z ∧ v.pos.z ≤ 64) ∧
      (∃ v, v ∈ T1.m_vertices ∧ v.pos.z = -63) ∧ (∃ v, v ∈ T1.m_vertices ∧ v.pos.z = 64) ∧
      ((-64 + 63 : ℚ) / 2 = -1 / 2) ∧ ((-63 + 64 : ℚ) / 2 = 1 / 2) := by
  have hN := standard_ready demoLib 5 3 20 2 2 42 demoBuiltStandard demoBuiltStandard_eq
  obtain ⟨H, T1, _, hT1, hB⟩ := calculateVertices_total demoLib demoTerrain hN
    (by unfold u32Size; decide)
  have hmem := verticesBuilt_mem demoTerrain T1 H _ hB (by decide)
  have hof := verticesBuilt_mem_of demoLib demoTerrain T1 H _ hB
  refine ⟨T1, hT1, ?_, ?_, ?_, ?_, ?_, ?_, by norm_num, by norm_num⟩
  · intro v hv
    obtain ⟨x, z, hx, _, rfl⟩ := hmem v hv
    rw [demoTerrain_x]
    have h1 : (x : ℚ) ≤ 127 := by
      have : x ≤ 127 := Nat.le_of_lt_succ hx
      exact_mod_cast this
    have h0 : (0 : ℚ) ≤ (x : ℚ) := Nat.cast_nonneg x
    constructor <;> linarith
  · exact ⟨_, hof 0 0 (by decide) (by decide), by rw [demoTerrain_x]; norm_num⟩
  · exact ⟨_, hof 127 0 (by decide) (by decide), by rw [demoTerrain_x]; norm_num⟩
  · intro v hv
    obtain ⟨x, z, _, hz, rfl⟩ := hmem v hv
    rw [demoTerrain_z]
    have h1 : (z : ℚ) ≤ 127 := by
      have : z ≤ 127 := Nat.le_of_lt_succ hz
      exact_mod_cast this
    have h0 : (0 : ℚ) ≤ (z : ℚ) := Nat.cast_nonneg z
    constructor <;> linarith
  · exact ⟨_, hof 0 127 (by decide) (by decide), by rw [demoTerrain_z]; norm_num⟩
  · exact ⟨_, hof 0 0 (by decide) (by decide), by rw [demoTerrain_z]; norm_num⟩

/-! ## Transform stage and layering: proofs -/

/-- C13: the transform stage `noiseValue` maps a raw value `v` to `v` for
Perlin, `|v|` for Billowy, `1 - |v|` for Ridged and `1 - |cos(v)|` for Cosine
(`cos` being the library function), for every `v` and every engine. -/
theorem noiseValue_transform (lib : Lib) (N : Noise) (v : ℚ) :
    Noise.noiseValue lib { N with m_type := NoiseType.PerlinNoise } v = v ∧
    Noise.noiseValue lib { N with m_type := NoiseType.BillowyNoise } v = |v| ∧
    Noise.noiseValue lib { N with m_type := NoiseType.RidgidNoise } v = 1 - |v| ∧
    Noise.noiseValue lib { N with m_type := NoiseType.CosinusNoise } v = 1 - |lib.cos v| ∧
    N.noiseValue lib v =
      (match N.m_type with
       | NoiseType.PerlinNoise => v
       | NoiseType.BillowyNoise => |v|
       | NoiseType.RidgidNoise => 1 - |v|
       | NoiseType.CosinusNoise => 1 - |lib.cos v|) :=
  ⟨rfl, rfl, rfl, rfl, rfl⟩

theorem n2LayeredLoop_sum (lib : Lib) (N : Noise) (x y : ℚ) (S : Octave → ℚ)
    (hS : ∀ o, N.octaveSample2 lib x y o = .ok (S o)) (k : Nat) :
    ∀ (o : Octave) (n : ℚ), Noise.n2LayeredLoop lib N x y k o n =
      .ok (n + ∑ j in Finset.range k, S (N.nextOctave2^[j + 1] o) * (N.nextOctave2^[j + 1] o).w) := by
  induction k with
  | zero =>
    intro o n
    simp only [Noise.n2LayeredLoop, Finset.range_zero, Finset.sum_empty, add_zero]
  | succ k ih =>
    intro o n
    simp only [Noise.n2LayeredLoop]
    rw [hS]
    simp only [okBind]
    rw [ih, Finset.sum_range_succ']
    simp only [Function.iterate_succ, Function.comp_apply, Function.iterate_zero, id_eq]
    congr 1
    ring

theorem n2_layered_closed (lib : Lib) (N : Noise) (hN : StandardReady N) (x y : ℚ)
    (hx : 0 ≤ x) (hy : 0 ≤ y) (S : Octave → ℚ)
    (hS : ∀ o, N.octaveSample2 lib x y o = .ok (S o)) :
    N.n2_layered lib x y = .ok (N.m_amplitude *
      ∑ j in Finset.range ((N.m_layerCount - 1).toNat + 1),
        S (N.nextOctave2^[j] N.firstOctave) * (N.nextOctave2^[j] N.firstOctave).w) := by
  unfold Noise.n2_layered
  simp only [hN.notSeamless, Bool.false_eq_true, if_false, clamp2_of_nonneg hx hy, hS, okBind,
    n2LayeredLoop_sum lib N x y S hS]
  rw [Finset.sum_range_succ']
  simp only [Function.iterate_zero, id_eq]
  congr 1
  ring

theorem nextOctave2_iterate (N : Noise) (f w o : Nat → ℚ)
    (hf0 : f 0 = N.m_startFrequency) (hf : ∀ i, f (i + 1) = f i * N.m_frequencyFactor)
    (hw0 : w 0 = N.m_startWeight) (hw : ∀ i, w (i + 1) = w i / N.m_weightDivisor)
    (ho0 : o 0 = 719 / 100) (ho : ∀ i, o (i + 1) = 173 / 100 * o i) (i : Nat) :
    N.nextOctave2^[i] N.firstOctave = { f := f i, w := w i, offset := o i } := by
  induction i with
  | zero =>
    rw [Function.iterate_zero, id_eq, hf0, hw0, ho0]
    rfl
  | succ i ih =>
    rw [Function.iterate_succ_apply', ih, hf, hw, ho]
    unfold Noise.nextOctave2
    simp only [Octave.mk.injEq, true_and]
    ring

/-- C14: for a standard engine with `layerCount = L ≥ 1` and `x, y ≥ 0`,
`n2_layered(x, y)` returns
`amplitude * Σ_{i<L} transform(n2((x + o_i) * f_i / 1000, (y + 2 * o_i) * f_i / 1000)) * w_i`,
every `n2` sample being a value, where `f_0 = startFrequency`,
`f_{i+1} = f_i * frequencyFactor`, `w_0 = startWeight`,
`w_{i+1} = w_i / weightDivisor`, `o_0 = 7.19` and `o_{i+1} = 1.73 * o_i`. -/
theorem n2_layered_octave_sum (lib : Lib) (N : Noise) (hN : StandardReady N) (L : Nat)
    (hL : N.m_layerCount = (L : Int)) (h1 : 1 ≤ L) (x y : ℚ) (hx : 0 ≤ x) (hy : 0 ≤ y)
    (f w o : Nat → ℚ)
    (hf0 : f 0 = N.m_startFrequency) (hf : ∀ i, f (i + 1) = f i * N.m_frequencyFactor)
    (hw0 : w 0 = N.m_startWeight) (hw : ∀ i, w (i + 1) = w i / N.m_weightDivisor)
    (ho0 : o 0 = 719 / 100) (ho : ∀ i, o (i + 1) = 173 / 100 * o i) :
    ∃ V : Nat → ℚ,
      (∀ i, N.n2 ((x + o i) * f i / 1000) ((y + 2 * o i) * f i / 1000) = .ok (V i)) ∧
      N.n2_layered lib x y =
        .ok (N.m_amplitude * ∑ i in Finset.range L, N.noiseValue lib (V i) * w i) := by
  have hn2 : ∀ a b, ∃ v, N.n2 a b = .ok v := fun a b => n2_ok N hN a b
  choose V2 hV2 using hn2
  have hS : ∀ oc : Octave, N.octaveSample2 lib x y oc = .ok (N.noiseValue lib
      (V2 ((x + oc.offset) * (oc.f / 1000)) ((y + oc.offset * 2) * (oc.f / 1000)))) := by
    intro oc
    unfold Noise.octaveSample2
    rw [hV2]
    rfl
  refine ⟨fun i => V2 ((x + o i) * f i / 1000) ((y + 2 * o i) * f i / 1000),
    fun i => hV2 _ _, ?_⟩
  rw [n2_layered_closed lib N hN x y hx hy _ hS, hL,
    show ((L : Int) - 1).toNat + 1 = L by omega]
  congr 2
  apply Finset.sum_congr rfl
  intro i _
  rw [nextOctave2_iterate N f w o hf0 hf hw0 hw ho0 ho i]
  have e1 : (x + o i) * (f i / 1000) = (x + o i) * f i / 1000 := by ring
  have e2 : (y + o i * 2) * (f i / 1000) = (y + 2 * o i) * f i / 1000 := by ring
  simp only [e1, e2]

theorem demoBuiltStandard_fields :
    demoBuiltStandard.m_layerCount = 3 ∧ demoBuiltStandard.m_startFrequency = 20 ∧
    demoBuiltStandard.m_frequencyFactor = 2 ∧ demoBuiltStandard.m_weightDivisor = 2 ∧
    demoBuiltStandard.m_amplitude = 42 ∧
    demoBuiltStandard.m_startWeight = startWeightOf 1 3 2 := by
  obtain ⟨_, _, h1, h2, h3, h4, h5, h6, _, _⟩ :=
    standard_fields demoLib 5 3 20 2 2 42 demoBuiltStandard demoBuiltStandard_eq
  exact ⟨h1, h2, h3, h4, h5, h6⟩

/-- Witness for C14: the sample standard engine (three layers) at the point
(5/2, 7/3). -/
theorem n2_layered_octave_sum_witness :
    ∃ V : Nat → ℚ,
      (∀ i : Nat, demoBuiltStandard.n2
          ((5 / 2 + 719 / 100 * (173 / 100) ^ i) * (20 * 2 ^ i) / 1000)
          ((7 / 3 + 2 * (719 / 100 * (173 / 100) ^ i)) * (20 * 2 ^ i) / 1000) = .ok (V i)) ∧
      demoBuiltStandard.n2_layered demoLib (5 / 2) (7 / 3) =
        .ok (demoBuiltStandard.m_amplitude * ∑ i in Finset.range 3,
          demoBuiltStandard.noiseValue demoLib (V i) * (startWeightOf 1 3 2 / 2 ^ i)) :=
  n2_layered_octave_sum demoLib demoBuiltStandard
    (standard_ready demoLib 5 3 20 2 2 42 demoBuiltStandard demoBuiltStandard_eq) 3
    demoBuiltStandard_fields.1 (by decide) (5 / 2) (7 / 3) (by norm_num) (by norm_num)
    (fun i => 20 * 2 ^ i) (fun i => startWeightOf 1 3 2 / 2 ^ i)
    (fun i => 719 / 100 * (173 / 100) ^ i)
    (by rw [demoBuiltStandard_fields.2.1]; norm_num)
    (by intro i; rw [demoBuiltStandard_fields.2.2.1]; ring)
    (by rw [demoBuiltStandard_fields.2.2.2.2.2]; norm_num)
    (by intro i; rw [demoBuiltStandard_fields.2.2.2.1]; simp only [pow_succ, div_div])
    (by norm_num)
    (by intro i; ring)

theorem demoBuiltSeamless_fields :
    demoBuiltSeamless.m_startFrequency = 32 ∧ demoBuiltSeamless.m_frequencyFactor = 2 := by
  obtain ⟨_, _, _, _, hB⟩ := seamless_built demoLib 7 3 1 3 64 2 100 demoBuiltSeamless
    demoBuiltSeamless_eq
  refine ⟨?_, hB.frequencyFactor⟩
  rw [hB.startFrequency]
  norm_num

/-- C15 (counterexample): on the sample standard engine (start frequency 20,
frequency factor 2) the second octave of `n2_layered` has frequency 40, not
`20 / 2 = 10`; on the sample seamless engine (start frequency 32, factor 2) the
second octave of `n2_seamless_layered` has frequency 16, not `32 * 2 = 64`. -/
theorem frequency_direction_counterexample :
    (demoBuiltStandard.nextOctave2 demoBuiltStandard.firstOctave).f = 40 ∧
    (demoBuiltStandard.nextOctave2 demoBuiltStandard.firstOctave).f ≠
      demoBuiltStandard.firstOctave.f / demoBuiltStandard.m_frequencyFactor ∧
    (demoBuiltSeamless.nextOctaveSeamless demoBuiltSeamless.firstOctave).f = 16 ∧
    (demoBuiltSeamless.nextOctaveSeamless demoBuiltSeamless.firstOctave).f ≠
      demoBuiltSeamless.firstOctave.f * demoBuiltSeamless.m_frequencyFactor := by
  have a1 : (demoBuiltStandard.nextOctave2 demoBuiltStandard.firstOctave).f =
      demoBuiltStandard.m_startFrequency * demoBuiltStandard.m_frequencyFactor := rfl
  have a2 : demoBuiltStandard.firstOctave.f = demoBuiltStandard.m_startFrequency := rfl
  have b1 : (demoBuiltSeamless.nextOctaveSeamless demoBuiltSeamless.firstOctave).f =
      demoBuiltSeamless.m_startFrequency / demoBuiltSeamless.m_frequencyFactor := rfl
  have b2 : demoBuiltSeamless.firstOctave.f = demoBuiltSeamless.m_startFrequency := rfl
  rw [a1, a2, b1, b2, demoBuiltStandard_fields.2.1, demoBuiltStandard_fields.2.2.1,
    demoBuiltSeamless_fields.1, demoBuiltSeamless_fields.2]
  norm_num

/-- C15 (amended): in `n2_layered` every iteration of the loop samples with the
frequency variable of the previous octave multiplied by `frequencyFactor`; in
`n2_seamless_layered` (as in `n1_layered`) every iteration samples with the
frequency variable of the previous octave divided by `frequencyFactor`. -/
theorem frequency_direction (lib : Lib) (N : Noise) (x y : ℚ) (k : Nat) (i : Int) (o : Octave)
    (n : ℚ) :
    (N.nextOctave2 o).f = o.f * N.m_frequencyFactor ∧
    Noise.n2LayeredLoop lib N x y (k + 1) o n =
      (N.octaveSample2 lib x y (N.nextOctave2 o) >>= fun v =>
        Noise.n2LayeredLoop lib N x y k (N.nextOctave2 o) (n + v * (N.nextOctave2 o).w)) ∧
    (N.nextOctaveSeamless o).f = o.f / N.m_frequencyFactor ∧
    Noise.n2SeamlessLayeredLoop lib N x y (k + 1) i o n =
      (N.octaveSampleSeamless lib x y (N.nextOctaveSeamless o) i >>= fun v =>
        Noise.n2SeamlessLayeredLoop lib N x y k (i + 1) (N.nextOctaveSeamless o)
          (n + v * (N.nextOctaveSeamless o).w)) ∧
    (N.nextOctave1 o).f = o.f / N.m_frequencyFactor :=
  ⟨rfl, rfl, rfl, rfl, rfl⟩

/-! ## Re-seeding: proofs -/

theorem initSeamlessLoop_indep (st : Int) (n : Nat) :
    ∀ (i : Nat) (e : Engine) (p1 p2 : List (List Nat)),
      p1.length = i + n → p2.length = i + n → (∀ k, k < i → p1[k]? = p2[k]?) →
      initSeamlessLoop st n i e p1 = initSeamlessLoop st n i e p2 := by
  induction n with
  | zero =>
    intro i e p1 p2 h1 h2 hk
    have : p1 = p2 := by
      apply List.ext_getElem?
      intro k
      by_cases hki : k < i
      · exact hk k hki
      · rw [List.getElem?_eq_none (by omega), List.getElem?_eq_none (by omega)]
    rw [this]
  | succ n ih =>
    intro i e p1 p2 h1 h2 hk
    simp only [initSeamlessLoop]
    cases hsh : shl1 ((i : Int) + st) with
    | error f => rfl
    | ok size =>
      simp only
      apply ih
      · rw [List.length_set]; omega
      · rw [List.length_set]; omega
      · intro k hki
        by_cases hkeq : k = i
        · subst hkeq
          rw [List.getElem?_set_self (by omega), List.getElem?_set_self (by omega)]
        · rw [List.getElem?_set_ne (fun h => hkeq h.symm),
            List.getElem?_set_ne (fun h => hkeq h.symm)]
          exact hk k (by omega)

theorem initSeamlessPerms_indep (e : Engine) (L st : Int) (old1 old2 : List (List Nat)) :
    initSeamlessPerms e L st old1 = initSeamlessPerms e L st old2 := by
  unfold initSeamlessPerms
  split
  · rfl
  · exact initSeamlessLoop_indep st L.toNat 0 e _ _
      (by rw [resizeTables_length]; omega) (by rw [resizeTables_length]; omega)
      (fun k hk => absurd hk (Nat.not_lt_zero k))

theorem seamless_tables_of (lib : Lib) (seed L s e R : Int) (wD am : ℚ) (F : Noise)
    (h : Noise.seamless lib seed L s e R wD am = .ok F) :
    initSeamlessPerms (lib.seed seed) L s [] = .ok F.m_perms ∧
    F.m_gradients2D = gradients2DLoop lib g2Size 0 [] := by
  unfold Noise.seamless at h
  split at h
  · cases h
  split at h
  · cases h
  split at h
  · cases h
  split at h
  · cases h
  split at h
  · cases h
  split at h
  · cases h
  simp only at h
  split at h
  · cases h
  split at h
  · cases h
  rename_i N1 hN1
  injection h with h
  subst h
  unfold Noise.init_seamless at hN1
  simp only at hN1
  split at hN1
  · cases hN1
  · rename_i perms hp
    injection hN1 with hN1
    subst hN1
    exact ⟨hp, rfl⟩

theorem setNewSeed_standard (lib : Lib) (A : Noise) (hA : A.m_isSeamless = false) (s : Int) :
    A.setNewSeed lib s = .ok
      { A with m_seed := s, m_perm := initPerm (lib.seed s)
               m_gradients1D := gradients1DLoop lib permSize ((lib.seed s).drop permSize) []
               m_gradients2D := gradients2DLoop lib g2Size 0 [] } := by
  unfold Noise.setNewSeed
  simp only [hA, Bool.false_eq_true, if_false]
  rfl

theorem setNewSeed_seamless (lib : Lib) (B : Noise) (hB : B.m_isSeamless = true) (s : Int)
    (perms : List (List Nat))
    (hp : initSeamlessPerms (lib.seed s) B.m_layerCount B.m_startLayer [] = .ok perms) :
    B.setNewSeed lib s = .ok
      { B with m_seed := s, m_perms := perms,
               m_gradients2D := gradients2DLoop lib g2Size 0 [] } := by
  unfold Noise.setNewSeed Noise.init_seamless
  simp only [hB, if_true]
  rw [initSeamlessPerms_indep (lib.seed s) B.m_layerCount B.m_startLayer B.m_perms [], hp]

theorem standard_update_idem (A : Noise) (s : Int) (P : List Nat) (G1 : List ℚ)
    (G2 : List Vec2) :
    ({ ({ A with m_seed := s, m_perm := P, m_gradients1D := G1, m_gradients2D := G2 } : Noise)
        with m_seed := s, m_perm := P, m_gradients1D := G1, m_gradients2D := G2 } : Noise) =
      { A with m_seed := s, m_perm := P, m_gradients1D := G1, m_gradients2D := G2 } := rfl

theorem seamless_update_idem (B : Noise) (s : Int) (P : List (List Nat)) (G2 : List Vec2) :
    ({ ({ B with m_seed := s, m_perms := P, m_gradients2D := G2 } : Noise)
        with m_seed := s, m_perms := P, m_gradients2D := G2 } : Noise) =
      { B with m_seed := s, m_perms := P, m_gradients2D := G2 } := rfl

theorem standard_update_absorb (A : Noise) (s s0 : Int) (P p : List Nat) (G1 g1 : List ℚ)
    (G2 g2 : List Vec2) :
    ({ ({ A with m_seed := s0, m_perm := p, m_gradients1D := g1, m_gradients2D := g2 } : Noise)
        with m_seed := s, m_perm := P, m_gradients1D := G1, m_gradients2D := G2 } : Noise) =
      { A with m_seed := s, m_perm := P, m_gradients1D := G1, m_gradients2D := G2 } := rfl

theorem seamless_update_absorb (B : Noise) (s s0 : Int) (P ps : List (List Nat))
    (G2 g2 : List Vec2) :
    ({ ({ B with m_seed := s0, m_perms := ps, m_gradients2D := g2 } : Noise)
        with m_seed := s, m_perms := P, m_gradients2D := G2 } : Noise) =
      { B with m_seed := s, m_perms := P, m_gradients2D := G2 } := rfl

theorem standard_tables_of (lib : Lib) (seed lC : Int) (fS fF wD am : ℚ) (F : Noise)
    (h : Noise.standard lib seed lC fS fF wD am = .ok F) :
    F.m_perm = initPerm (lib.seed seed) ∧
    F.m_gradients1D = gradients1DLoop lib permSize ((lib.seed seed).drop permSize) [] ∧
    F.m_gradients2D = gradients2DLoop lib g2Size 0 [] := by
  unfold Noise.standard at h
  split at h
  · cases h
  split at h
  · cases h
  split at h
  · cases h
  split at h
  · cases h
  split at h
  · cases h
  simp only at h
  injection h with h
  subst h
  exact ⟨by simp only [Noise.init], by simp only [Noise.init], by simp only [Noise.init]⟩

/-- C16: re-seeding is reproducible and idempotent.  For a standard engine `A`
and a seamless engine `B`, `setNewSeed(s)` (`s = sA`, `sB`) returns a state
whose permutation table(s) and gradients are those of an engine freshly
constructed with seed `s`
(`FA`, `FB`; for `B` with the same `layerCount` and `startLayer`); re-seeding
that state with `s` again leaves it unchanged; and re-seeding an engine that
differs only in its previous seed and previous tables gives the same state,
hence the same samples. -/
theorem setNewSeed_reproducible (lib : Lib) (sA sB : Int)
    (A : Noise) (hA : A.m_isSeamless = false) (lC : Int) (fS fF wD am : ℚ) (FA : Noise)
    (hFA : Noise.standard lib sA lC fS fF wD am = .ok FA)
    (B : Noise) (hB : B.m_isSeamless = true) (lE tR : Int) (wD2 am2 : ℚ) (FB : Noise)
    (hFB : Noise.seamless lib sB B.m_layerCount B.m_startLayer lE tR wD2 am2 = .ok FB)
    (s0 : Int) (p : List Nat) (ps : List (List Nat)) (g1 : List ℚ) (g2 : List Vec2) :
    (∃ A1, A.setNewSeed lib sA = .ok A1 ∧
      A1.m_perm = FA.m_perm ∧ A1.m_gradients1D = FA.m_gradients1D ∧
      A1.m_gradients2D = FA.m_gradients2D ∧
      A1.setNewSeed lib sA = .ok A1 ∧
      Noise.setNewSeed lib
        { A with m_seed := s0, m_perm := p, m_gradients1D := g1, m_gradients2D := g2 } sA =
        .ok A1 ∧
      (∀ x y, Except.bind (Noise.setNewSeed lib
        { A with m_seed := s0, m_perm := p, m_gradients1D := g1, m_gradients2D := g2 } sA)
          (fun M => M.n2_layered lib x y) = A1.n2_layered lib x y)) ∧
    (∃ B1, B.setNewSeed lib sB = .ok B1 ∧
      B1.m_perms = FB.m_perms ∧ B1.m_gradients2D = FB.m_gradients2D ∧
      B1.setNewSeed lib sB = .ok B1 ∧
      Noise.setNewSeed lib { B with m_seed := s0, m_perms := ps, m_gradients2D := g2 } sB =
        .ok B1 ∧
      (∀ x y, Except.bind (Noise.setNewSeed lib
        { B with m_seed := s0, m_perms := ps, m_gradients2D := g2 } sB)
          (fun M => M.n2_seamless_layered lib x y) = B1.n2_seamless_layered lib x y)) := by
  constructor
  · obtain ⟨hperm, hg1, hg2⟩ := standard_tables_of lib sA lC fS fF wD am FA hFA
    have h1 := setNewSeed_standard lib A hA sA
    have h2 := setNewSeed_standard lib
      { A with m_seed := sA, m_perm := initPerm (lib.seed sA)
               m_gradients1D := gradients1DLoop lib permSize ((lib.seed sA).drop permSize) []
               m_gradients2D := gradients2DLoop lib g2Size 0 [] } hA sA
    rw [standard_update_idem] at h2
    have h3 := setNewSeed_standard lib
      { A with m_seed := s0, m_perm := p, m_gradients1D := g1, m_gradients2D := g2 } hA sA
    rw [standard_update_absorb] at h3
    refine ⟨_, h1, ?_, ?_, ?_, h2, h3, ?_⟩
    · simp only [hperm]
    · simp only [hg1]
    · simp only [hg2]
    · intro x y
      rw [h3]
      simp only [Except.bind]
  · obtain ⟨hp, hg⟩ := seamless_tables_of lib sB _ _ lE tR wD2 am2 FB hFB
    have h1 := setNewSeed_seamless lib B hB sB FB.m_perms hp
    have h2 := setNewSeed_seamless lib
      { B with m_seed := sB, m_perms := FB.m_perms,
               m_gradients2D := gradients2DLoop lib g2Size 0 [] } hB sB FB.m_perms hp
    rw [seamless_update_idem] at h2
    have h3 := setNewSeed_seamless lib
      { B with m_seed := s0, m_perms := ps, m_gradients2D := g2 } hB sB FB.m_perms hp
    rw [seamless_update_absorb] at h3
    refine ⟨_, h1, ?_, ?_, h2, h3, ?_⟩
    · simp only
    · simp only [hg]
    · intro x y
      rw [h3]
      simp only [Except.bind]

theorem demoBuiltSeamless_layers :
    demoBuiltSeamless.m_isSeamless = true ∧ demoBuiltSeamless.m_layerCount = 3 ∧
    demoBuiltSeamless.m_startLayer = 1 ∧ demoBuiltSeamless.m_endLayer = 3 := by
  obtain ⟨_, _, _, _, hB⟩ := seamless_built demoLib 7 3 1 3 64 2 100 demoBuiltSeamless
    demoBuiltSeamless_eq
  exact ⟨hB.isSeamless, hB.layerCount, hB.startLayer, hB.endLayer⟩

theorem demoBuiltStandard_mode : demoBuiltStandard.m_isSeamless = false :=
  (standard_ready demoLib 5 3 20 2 2 42 demoBuiltStandard demoBuiltStandard_eq).notSeamless

/-- Witness for C16: the sample standard engine re-seeded with its seed 5 and
the sample seamless engine re-seeded with its seed 7, against engines whose
previous seed was 11 and whose tables were empty. -/
theorem setNewSeed_reproducible_witness :
    (∃ A1, demoBuiltStandard.setNewSeed demoLib 5 = .ok A1 ∧
      A1.m_perm = demoBuiltStandard.m_perm ∧
      A1.m_gradients1D = demoBuiltStandard.m_gradients1D ∧
      A1.m_gradients2D = demoBuiltStandard.m_gradients2D ∧
      A1.setNewSeed demoLib 5 = .ok A1 ∧
      Noise.setNewSeed demoLib
        { demoBuiltStandard with m_seed := 11, m_perm := [], m_gradients1D := [],
                                 m_gradients2D := [] } 5 = .ok A1 ∧
      (∀ x y, Except.bind (Noise.setNewSeed demoLib
        { demoBuiltStandard with m_seed := 11, m_perm := [], m_gradients1D := [],
                                 m_gradients2D := [] } 5)
          (fun M => M.n2_layered demoLib x y) = A1.n2_layered demoLib x y)) ∧
    (∃ B1, demoBuiltSeamless.setNewSeed demoLib 7 = .ok B1 ∧
      B1.m_perms = demoBuiltSeamless.m_perms ∧
      B1.m_gradients2D = demoBuiltSeamless.m_gradients2D ∧
      B1.setNewSeed demoLib 7 = .ok B1 ∧
      Noise.setNewSeed demoLib
        { demoBuiltSeamless with m_seed := 11, m_perms := [], m_gradients2D := [] } 7 =
        .ok B1 ∧
      (∀ x y, Except.bind (Noise.setNewSeed demoLib
        { demoBuiltSeamless with m_seed := 11, m_perms := [], m_gradients2D := [] } 7)
          (fun M => M.n2_seamless_layered demoLib x y) = B1.n2_seamless_layered demoLib x y)) :=
  setNewSeed_reproducible demoLib 5 7 demoBuiltStandard demoBuiltStandard_mode 3 20 2 2 42
    demoBuiltStandard demoBuiltStandard_eq demoBuiltSeamless demoBuiltSeamless_layers.1
    3 64 2 100 demoBuiltSeamless
    (by rw [demoBuiltSeamless_layers.2.1, demoBuiltSeamless_layers.2.2.1]
        exact demoBuiltSeamless_eq)
    11 [] [] [] []

/-! ## Clamping and mode checks: proofs -/

theorem swapAt_self (t : List Nat) (j : Nat) (hj : j < t.length) : swapAt t j j = t := by
  unfold swapAt
  rw [List.set_set]
  apply List.ext_getElem?
  intro k
  by_cases hk : k = j
  · subst hk
    rw [List.getElem?_set_self hj, List.getD_eq_getElem?_getD]
    cases h : t[k]? with
    | none => rw [List.getElem?_eq_none_iff] at h; omega
    | some v => rfl
  · rw [List.getElem?_set_ne (fun h => hk h.symm)]

theorem shuffle_identity_aux (size : Nat) (e : Engine) (l : List Nat) :
    ∀ t : List Nat, t.length = size → (∀ j, j ∈ l → j < size ∧ swapTarget (e j) size = j) →
      l.foldl (fun t j => swapAt t j (swapTarget (e j) size)) t = t := by
  induction l with
  | nil => intro t _ _; rfl
  | cons a l ih =>
    intro t ht hl
    obtain ⟨ha, hea⟩ := hl a (List.mem_cons_self _ _)
    rw [List.foldl_cons, hea, swapAt_self t a (by omega)]
    exact ih t ht (fun j hj => hl j (List.mem_cons_of_mem _ hj))

theorem initPerm_identity : initPerm (fun n => n) = List.range 256 := by
  unfold initPerm shuffle
  have h256 : permSize = 256 := rfl
  rw [h256]
  apply shuffle_identity_aux 256 (fun n => n) (List.range 256) (identityTable 256)
  · exact List.length_range 256
  · intro j hj
    have hj1 : j < 256 := List.mem_range.mp hj
    refine ⟨hj1, ?_⟩
    unfold swapTarget
    exact Nat.and_pow_two_sub_one_of_lt_two_pow (n := 8) hj1

theorem demoIdentityStandard_eq :
    Noise.standard identityLib 5 1 20 2 2 42 = .ok demoIdentityStandard := by
  obtain ⟨N, hN⟩ := standard_total identityLib 5 1 20 2 2 42 (by norm_num) (by norm_num)
    (by norm_num) (by norm_num) (by norm_num)
  unfold demoIdentityStandard
  rw [hN]

theorem demoIdentityStandard_perm : demoIdentityStandard.m_perm = List.range 256 := by
  obtain ⟨hp, _, _⟩ := standard_tables_of identityLib 5 1 20 2 2 42 demoIdentityStandard
    demoIdentityStandard_eq
  rw [hp]
  exact initPerm_identity

theorem gradients2DLoop_eq (lib : Lib) (n : Nat) :
    ∀ (angle : ℚ) (acc : List Vec2), gradients2DLoop lib n angle acc =
      acc ++ (List.range n).map (fun (i : Nat) =>
        (⟨lib.cos (angle + (i : ℚ) * (tau / (g2Size : ℚ))),
          lib.sin (angle + (i : ℚ) * (tau / (g2Size : ℚ)))⟩ : Vec2)) := by
  induction n with
  | zero => intro angle acc; simp [gradients2DLoop]
  | succ n ih =>
    intro angle acc
    simp only [gradients2DLoop]
    rw [ih, List.range_succ_eq_map, List.map_cons, List.map_map, List.append_assoc]
    congr 1
    simp only [List.singleton_append, Nat.cast_zero, zero_mul, add_zero]
    congr 1
    apply List.map_congr_left
    intro i _
    simp only [Function.comp_apply, Nat.cast_succ]
    have e : angle + tau / (g2Size : ℚ) + (i : ℚ) * (tau / (g2Size : ℚ)) =
        angle + ((i : ℚ) + 1) * (tau / (g2Size : ℚ)) := by ring
    rw [e]

theorem gradient_at (lib : Lib) (N : Noise)
    (hg : N.m_gradients2D = gradients2DLoop lib g2Size 0 []) (i : Nat) (hi : i < 8) :
    tableAt N.m_gradients2D (i : Int) =
      .ok ⟨lib.cos (0 + (i : ℚ) * (tau / (g2Size : ℚ))),
           lib.sin (0 + (i : ℚ) * (tau / (g2Size : ℚ)))⟩ := by
  have hlen : i < N.m_gradients2D.length := by
    rw [hg, gradients2DLoop_length]
    exact hi
  rw [tableAt_natCast_ok hlen]
  congr 1
  simp only [hg, gradients2DLoop_eq, List.nil_append, List.getElem_map, List.getElem_range]

theorem range_at (N : Noise) (hp : N.m_perm = List.range 256) (k : Nat) (hk : k < 256) :
    tableAt N.m_perm (k : Int) = .ok k := by
  have hlen : k < N.m_perm.length := by rw [hp, List.length_range]; exact hk
  rw [tableAt_natCast_ok hlen]
  congr 1
  simp only [hp, List.getElem_range]

theorem intPart_zero : intPart 0 = 0 := by
  unfold intPart
  exact Nat.floor_zero

theorem intPart_half : intPart (1 / 2) = 0 := by
  unfold intPart
  rw [Nat.floor_eq_zero]
  norm_num

theorem n2_of_negative (N : Noise) (x y : ℚ) (h : x < 0 ∨ y < 0) : N.n2 x y = N.n2 0 0 := by
  have h1 : clamp2 x y = (0, 0) := by
    unfold clamp2
    rw [if_pos h]
  have h2 : clamp2 0 0 = (0, 0) := clamp2_of_nonneg (le_refl 0) (le_refl 0)
  unfold Noise.n2
  rw [h1, h2]

theorem demoIdentityStandard_ready : StandardReady demoIdentityStandard :=
  standard_ready identityLib 5 1 20 2 2 42 demoIdentityStandard demoIdentityStandard_eq

theorem demoIdentityStandard_gradients :
    demoIdentityStandard.m_gradients2D = gradients2DLoop identityLib g2Size 0 [] :=
  (standard_tables_of identityLib 5 1 20 2 2 42 demoIdentityStandard
    demoIdentityStandard_eq).2.2

theorem demoIdentityStandard_n2_half :
    demoIdentityStandard.n2 0 (1 / 2) =
      .ok (blend2 0 (1 / 2)
        ⟨identityLib.cos (0 + ((0 : Nat) : ℚ) * (tau / (g2Size : ℚ))),
         identityLib.sin (0 + ((0 : Nat) : ℚ) * (tau / (g2Size : ℚ)))⟩
        ⟨identityLib.cos (0 + ((1 : Nat) : ℚ) * (tau / (g2Size : ℚ))),
         identityLib.sin (0 + ((1 : Nat) : ℚ) * (tau / (g2Size : ℚ)))⟩
        ⟨identityLib.cos (0 + ((1 : Nat) : ℚ) * (tau / (g2Size : ℚ))),
         identityLib.sin (0 + ((1 : Nat) : ℚ) * (tau / (g2Size : ℚ)))⟩
        ⟨identityLib.cos (0 + ((2 : Nat) : ℚ) * (tau / (g2Size : ℚ))),
         identityLib.sin (0 + ((2 : Nat) : ℚ) * (tau / (g2Size : ℚ)))⟩) := by
  have hp := demoIdentityStandard_perm
  have hg := demoIdentityStandard_gradients
  have p0 : tableAt demoIdentityStandard.m_perm ((0 &&& maxValue : Nat) : Int) = .ok 0 :=
    range_at _ hp 0 (by decide)
  have p1 : tableAt demoIdentityStandard.m_perm (((0 + 1) &&& maxValue : Nat) : Int) = .ok 1 :=
    range_at _ hp 1 (by decide)
  have p00 : tableAt demoIdentityStandard.m_perm (((0 + 0) &&& maxValue : Nat) : Int) = .ok 0 :=
    range_at _ hp 0 (by decide)
  have p010 : tableAt demoIdentityStandard.m_perm ((((0 + 1) + 0) &&& maxValue : Nat) : Int) =
      .ok 1 := range_at _ hp 1 (by decide)
  have p011 : tableAt demoIdentityStandard.m_perm ((((0 + 1) + 1) &&& maxValue : Nat) : Int) =
      .ok 2 := range_at _ hp 2 (by decide)
  have g0 := gradient_at identityLib _ hg 0 (by decide)
  have g1 := gradient_at identityLib _ hg 1 (by decide)
  have g2 := gradient_at identityLib _ hg 2 (by decide)
  have q0 : tableAt demoIdentityStandard.m_gradients2D ((0 &&& g2MaxValue : Nat) : Int) = _ := g0
  have q1 : tableAt demoIdentityStandard.m_gradients2D ((1 &&& g2MaxValue : Nat) : Int) = _ := g1
  have q2 : tableAt demoIdentityStandard.m_gradients2D ((2 &&& g2MaxValue : Nat) : Int) = _ := g2
  unfold Noise.n2
  simp only [demoIdentityStandard_ready.notSeamless, Bool.false_eq_true, if_false,
    clamp2_of_nonneg (le_refl (0 : ℚ)) (show (0 : ℚ) ≤ 1 / 2 by norm_num), intPart_zero,
    intPart_half, p0, okBind, p00, q0, p010, q1, p1, q1, p011, q2]
  simp only [Nat.cast_zero, sub_zero]
  rfl

theorem blend2_origin (a b c d : Vec2) : blend2 0 0 a b c d = 0 := by
  unfold blend2 S1
  simp

theorem n2_blend (N : Noise) (hN : StandardReady N) (x y : ℚ) :
    ∃ a b c d : Vec2, N.n2 x y =
      .ok (blend2 ((clamp2 x y).1 - (intPart (clamp2 x y).1 : ℚ))
        ((clamp2 x y).2 - (intPart (clamp2 x y).2 : ℚ)) a b c d) := by
  have hp : ∀ a : Nat, a &&& maxValue < N.m_perm.length := by
    intro a
    rw [hN.permLength]
    exact land_lt_of_lt a _ _ (by decide)
  have hg : ∀ a : Nat, a &&& g2MaxValue < N.m_gradients2D.length := by
    intro a
    rw [hN.gradientsLength]
    exact land_lt_of_lt a _ _ (by decide)
  unfold Noise.n2
  simp only [hN.notSeamless, Bool.false_eq_true, if_false, okBind,
    tableAt_natCast_ok (hp _), tableAt_natCast_ok (hg _)]
  exact ⟨_, _, _, _, rfl⟩

theorem n2_origin (N : Noise) (hN : StandardReady N) : N.n2 0 0 = .ok 0 := by
  obtain ⟨a, b, c, d, h⟩ := n2_blend N hN 0 0
  rw [h, clamp2_of_nonneg (le_refl 0) (le_refl 0)]
  simp only [intPart_zero, Nat.cast_zero, sub_zero, blend2_origin]

/-- C17 (counterexample): on the sample standard engine with the identity
permutation, `n2(-1, 1/2)` is `n2(0, 0) = 0`, while `n2(0, 1/2)` is a different
value; so a negative `x` is not clamped on its own. -/
theorem n2_clamp_counterexample :
    demoIdentityStandard.n2 (-1) (1 / 2) = .ok 0 ∧
    (∃ v, demoIdentityStandard.n2 0 (1 / 2) = .ok v ∧ v ≠ 0) ∧
    demoIdentityStandard.n2 (-1) (1 / 2) ≠ demoIdentityStandard.n2 0 (1 / 2) := by
  have h1 : demoIdentityStandard.n2 (-1) (1 / 2) = .ok 0 := by
    rw [n2_of_negative _ _ _ (Or.inl (by norm_num)), n2_origin _ demoIdentityStandard_ready]
  have hv : blend2 0 (1 / 2)
        ⟨identityLib.cos (0 + ((0 : Nat) : ℚ) * (tau / (g2Size : ℚ))),
         identityLib.sin (0 + ((0 : Nat) : ℚ) * (tau / (g2Size : ℚ)))⟩
        ⟨identityLib.cos (0 + ((1 : Nat) : ℚ) * (tau / (g2Size : ℚ))),
         identityLib.sin (0 + ((1 : Nat) : ℚ) * (tau / (g2Size : ℚ)))⟩
        ⟨identityLib.cos (0 + ((1 : Nat) : ℚ) * (tau / (g2Size : ℚ))),
         identityLib.sin (0 + ((1 : Nat) : ℚ) * (tau / (g2Size : ℚ)))⟩
        ⟨identityLib.cos (0 + ((2 : Nat) : ℚ) * (tau / (g2Size : ℚ))),
         identityLib.sin (0 + ((2 : Nat) : ℚ) * (tau / (g2Size : ℚ)))⟩ ≠ 0 := by
    unfold blend2 S1 identityLib demoLib tau g2Size
    norm_num
  refine ⟨h1, ⟨_, demoIdentityStandard_n2_half, hv⟩, ?_⟩
  rw [h1, demoIdentityStandard_n2_half]
  intro h
  injection h with h
  exact hv h.symm

/-- C17 (amended): for a standard engine, when `x < 0` or `y < 0` both
coordinates are replaced by `0`: `n2(x, y) = n2(0, 0)`, and the call returns a
value (it does not fail). -/
theorem n2_clamps_both (N : Noise) (hN : StandardReady N) (x y : ℚ) (h : x < 0 ∨ y < 0) :
    N.n2 x y = N.n2 0 0 ∧ ∃ v, N.n2 x y = .ok v := by
  refine ⟨n2_of_negative N x y h, ?_⟩
  rw [n2_of_negative N x y h]
  exact n2_ok N hN 0 0

/-- Witness for C17 (amended): the point (-1, 1/2) on the sample standard
engine. -/
theorem n2_clamps_both_witness :
    demoIdentityStandard.n2 (-1) (1 / 2) = demoIdentityStandard.n2 0 0 ∧
    ∃ v, demoIdentityStandard.n2 (-1) (1 / 2) = .ok v :=
  n2_clamps_both demoIdentityStandard demoIdentityStandard_ready (-1) (1 / 2)
    (Or.inl (by norm_num))

theorem gradients1DLoop_length (lib : Lib) (n : Nat) :
    ∀ (e : Engine) (acc : List ℚ), (gradients1DLoop lib n e acc).length = acc.length + n := by
  induction n with
  | zero => intro e acc; rfl
  | succ n ih =>
    intro e acc
    simp only [gradients1DLoop]
    rw [ih]
    simp
    omega

theorem standard_gradients1D (lib : Lib) (seed lC : Int) (fS fF wD am : ℚ) (N : Noise)
    (h : Noise.standard lib seed lC fS fF wD am = .ok N) : N.m_gradients1D.length = permSize := by
  rw [(standard_tables_of lib seed lC fS fF wD am N h).2.1, gradients1DLoop_length]
  rfl

theorem n1_ok (N : Noise) (hN : StandardReady N) (h1 : N.m_gradients1D.length = permSize)
    (x : ℚ) : ∃ v, N.n1 x = .ok v := by
  have hp : ∀ a : Nat, a &&& maxValue < N.m_perm.length := by
    intro a
    rw [hN.permLength]
    exact land_lt_of_lt a _ _ (by decide)
  have hg : ∀ a : Nat, a &&& maxValue < N.m_gradients1D.length := by
    intro a
    rw [h1]
    exact land_lt_of_lt a _ _ (by decide)
  unfold Noise.n1
  simp only [hN.notSeamless, Bool.false_eq_true, if_false, okBind,
    tableAt_natCast_ok (hp _), tableAt_natCast_ok (hg _)]
  exact ⟨_, rfl⟩

theorem n1LayeredLoop_ok (lib : Lib) (N : Noise) (hN : StandardReady N)
    (h1 : N.m_gradients1D.length = permSize) (x : ℚ) (k : Nat) :
    ∀ (o : Octave) (n : ℚ), ∃ v, Noise.n1LayeredLoop lib N x k o n = .ok v := by
  induction k with
  | zero => intro o n; exact ⟨n, by simp only [Noise.n1LayeredLoop]⟩
  | succ k ih =>
    intro o n
    obtain ⟨v, hv⟩ := n1_ok N hN h1 (x / (N.nextOctave1 o).f)
    simp only [Noise.n1LayeredLoop]
    rw [hv]
    simp only [okBind]
    exact ih _ _

theorem n1_layered_ok (lib : Lib) (N : Noise) (hN : StandardReady N)
    (h1 : N.m_gradients1D.length = permSize) (x : ℚ) : ∃ v, N.n1_layered lib x = .ok v := by
  obtain ⟨v0, hv0⟩ := n1_ok N hN h1 (clamp1 x / N.firstOctave.f)
  obtain ⟨v1, hv1⟩ := n1LayeredLoop_ok lib N hN h1 (clamp1 x) N.m_layerCount.toNat
    N.firstOctave (N.noiseValue lib v0 * N.firstOctave.w)
  unfold Noise.n1_layered
  simp only [hN.notSeamless, Bool.false_eq_true, if_false, hv0, okBind, hv1]
  exact ⟨_, rfl⟩

theorem standard_sampler_mismatch (lib : Lib) (N : Noise) (hS : N.m_isSeamless = true)
    (x y : ℚ) :
    N.n1 x = .error .modeMismatch ∧ N.n2 x y = .error .modeMismatch ∧
    N.n1_layered lib x = .error .modeMismatch ∧ N.n2_layered lib x y = .error .modeMismatch := by
  unfold Noise.n1 Noise.n2 Noise.n1_layered Noise.n2_layered
  simp only [hS, if_true, and_self]

theorem seamless_sampler_mismatch (lib : Lib) (N : Noise) (hS : N.m_isSeamless = false)
    (x y : ℚ) (layer limit : Int) :
    N.n2_seamless x y layer limit = .error .modeMismatch ∧
    N.n2_seamless_layered lib x y = .error .modeMismatch := by
  unfold Noise.n2_seamless Noise.n2_seamless_layered
  simp only [hS, Bool.not_false, if_true, and_self]

theorem bind_ne_mismatch {α β : Type} (m : Except Fault α) (f : α → Except Fault β)
    (hm : m ≠ .error .modeMismatch) (hf : ∀ a, f a ≠ .error .modeMismatch) :
    (m >>= f) ≠ .error .modeMismatch := by
  cases m with
  | error e =>
    simp only [errBind]
    intro h
    injection h with h
    subst h
    exact hm rfl
  | ok a =>
    simp only [okBind]
    exact hf a

theorem tableAt_ne_mismatch {α : Type} (t : List α) (i : Int) :
    tableAt t i ≠ .error .modeMismatch := by
  unfold tableAt
  split
  · intro h; cases h
  · split
    · intro h; cases h
    · intro h; cases h

theorem limitOf_ne_mismatch (layer : Int) : limitOf layer ≠ .error .modeMismatch := by
  unfold limitOf shl1
  split
  · rename_i f hf
    split at hf
    · cases hf
    · injection hf with hf
      subst hf
      intro h
      cases h
  · intro h; cases h

theorem n2_seamless_ne_mismatch (N : Noise) (hS : N.m_isSeamless = true) (x y : ℚ)
    (layer limit : Int) : N.n2_seamless x y layer limit ≠ .error .modeMismatch := by
  unfold Noise.n2_seamless
  simp only [hS, Bool.not_true, Bool.false_eq_true, if_false]
  refine bind_ne_mismatch _ _ (tableAt_ne_mismatch _ _) (fun perm => ?_)
  refine bind_ne_mismatch _ _ (tableAt_ne_mismatch _ _) (fun pY => ?_)
  refine bind_ne_mismatch _ _ (tableAt_ne_mismatch _ _) (fun iXY => ?_)
  refine bind_ne_mismatch _ _ (tableAt_ne_mismatch _ _) (fun gXY => ?_)
  refine bind_ne_mismatch _ _ (tableAt_ne_mismatch _ _) (fun iX1Y => ?_)
  refine bind_ne_mismatch _ _ (tableAt_ne_mismatch _ _) (fun gX1Y => ?_)
  refine bind_ne_mismatch _ _ (tableAt_ne_mismatch _ _) (fun pY1 => ?_)
  refine bind_ne_mismatch _ _ (tableAt_ne_mismatch _ _) (fun iXY1 => ?_)
  refine bind_ne_mismatch _ _ (tableAt_ne_mismatch _ _) (fun gXY1 => ?_)
  refine bind_ne_mismatch _ _ (tableAt_ne_mismatch _ _) (fun iX1Y1 => ?_)
  refine bind_ne_mismatch _ _ (tableAt_ne_mismatch _ _) (fun gX1Y1 => ?_)
  intro h
  cases h

theorem octaveSampleSeamless_ne_mismatch (lib : Lib) (N : Noise) (hS : N.m_isSeamless = true)
    (x y : ℚ) (o : Octave) (layer : Int) :
    N.octaveSampleSeamless lib x y o layer ≠ .error .modeMismatch := by
  unfold Noise.octaveSampleSeamless
  refine bind_ne_mismatch _ _ (limitOf_ne_mismatch _) (fun limit => ?_)
  refine bind_ne_mismatch _ _ (n2_seamless_ne_mismatch N hS _ _ _ _) (fun v => ?_)
  intro h
  cases h

theorem n2SeamlessLayeredLoop_ne_mismatch (lib : Lib) (N : Noise) (hS : N.m_isSeamless = true)
    (x y : ℚ) (k : Nat) :
    ∀ (i : Int) (o : Octave) (n : ℚ),
      Noise.n2SeamlessLayeredLoop lib N x y k i o n ≠ .error .modeMismatch := by
  induction k with
  | zero =>
    intro i o n
    simp only [Noise.n2SeamlessLayeredLoop]
    intro h
    cases h
  | succ k ih =>
    intro i o n
    simp only [Noise.n2SeamlessLayeredLoop]
    exact bind_ne_mismatch _ _ (octaveSampleSeamless_ne_mismatch lib N hS _ _ _ _)
      (fun v => ih _ _ _)

theorem n2_seamless_layered_ne_mismatch (lib : Lib) (N : Noise) (hS : N.m_isSeamless = true)
    (x y : ℚ) : N.n2_seamless_layered lib x y ≠ .error .modeMismatch := by
  unfold Noise.n2_seamless_layered
  simp only [hS, Bool.not_true, Bool.false_eq_true, if_false]
  refine bind_ne_mismatch _ _ (octaveSampleSeamless_ne_mismatch lib N hS _ _ _ _) (fun v => ?_)
  refine bind_ne_mismatch _ _ (n2SeamlessLayeredLoop_ne_mismatch lib N hS _ _ _ _ _ _)
    (fun n => ?_)
  intro h
  cases h

/-- C18: an engine `Ns` built by the standard constructor gets a sample value
from `n1`, `n2`, `n1_layered` and `n2_layered` and the ModeMismatch fault (no
value) from `n2_seamless` and `n2_seamless_layered`; an engine `Nm` built by
the seamless constructor gets the ModeMismatch fault (no value) from `n1`,
`n2`, `n1_layered` and `n2_layered`, and never gets it from `n2_seamless` and
`n2_seamless_layered`. -/
theorem mode_mismatch_iff (lib : Lib) (seed lC : Int) (fS fF wD am : ℚ) (Ns : Noise)
    (hs : Noise.standard lib seed lC fS fF wD am = .ok Ns)
    (seed2 L s e R : Int) (wD2 am2 : ℚ) (Nm : Noise)
    (hm : Noise.seamless lib seed2 L s e R wD2 am2 = .ok Nm)
    (x y : ℚ) (layer limit : Int) :
    ((∃ v, Ns.n1 x = .ok v) ∧ (∃ v, Ns.n2 x y = .ok v) ∧
      (∃ v, Ns.n1_layered lib x = .ok v) ∧ (∃ v, Ns.n2_layered lib x y = .ok v) ∧
      Ns.n2_seamless x y layer limit = .error .modeMismatch ∧
      Ns.n2_seamless_layered lib x y = .error .modeMismatch) ∧
    (Nm.n1 x = .error .modeMismatch ∧ Nm.n2 x y = .error .modeMismatch ∧
      Nm.n1_layered lib x = .error .modeMismatch ∧
      Nm.n2_layered lib x y = .error .modeMismatch ∧
      Nm.n2_seamless x y layer limit ≠ .error .modeMismatch ∧
      Nm.n2_seamless_layered lib x y ≠ .error .modeMismatch) := by
  have hR := standard_ready lib seed lC fS fF wD am Ns hs
  have hG := standard_gradients1D lib seed lC fS fF wD am Ns hs
  obtain ⟨_, _, _, _, hB⟩ := seamless_built lib seed2 L s e R wD2 am2 Nm hm
  obtain ⟨a1, a2⟩ := seamless_sampler_mismatch lib Ns hR.notSeamless x y layer limit
  obtain ⟨b1, b2, b3, b4⟩ := standard_sampler_mismatch lib Nm hB.isSeamless x y
  exact ⟨⟨n1_ok Ns hR hG x, n2_ok Ns hR x y, n1_layered_ok lib Ns hR hG x,
      n2_layered_ok lib Ns hR x y, a1, a2⟩,
    ⟨b1, b2, b3, b4, n2_seamless_ne_mismatch Nm hB.isSeamless x y layer limit,
      n2_seamless_layered_ne_mismatch lib Nm hB.isSeamless x y⟩⟩

/-- Witness for C18: the sample standard and seamless engines at the point
(5/2, 7/3), layer 1, limit 3. -/
theorem mode_mismatch_iff_witness :
    ((∃ v, demoBuiltStandard.n1 (5 / 2) = .ok v) ∧
      (∃ v, demoBuiltStandard.n2 (5 / 2) (7 / 3) = .ok v) ∧
      (∃ v, demoBuiltStandard.n1_layered demoLib (5 / 2) = .ok v) ∧
      (∃ v, demoBuiltStandard.n2_layered demoLib (5 / 2) (7 / 3) = .ok v) ∧
      demoBuiltStandard.n2_seamless (5 / 2) (7 / 3) 1 3 = .error .modeMismatch ∧
      demoBuiltStandard.n2_seamless_layered demoLib (5 / 2) (7 / 3) = .error .modeMismatch) ∧
    (demoBuiltSeamless.n1 (5 / 2) = .error .modeMismatch ∧
      demoBuiltSeamless.n2 (5 / 2) (7 / 3) = .error .modeMismatch ∧
      demoBuiltSeamless.n1_layered demoLib (5 / 2) = .error .modeMismatch ∧
      demoBuiltSeamless.n2_layered demoLib (5 / 2) (7 / 3) = .error .modeMismatch ∧
      demoBuiltSeamless.n2_seamless (5 / 2) (7 / 3) 1 3 ≠ .error .modeMismatch ∧
      demoBuiltSeamless.n2_seamless_layered demoLib (5 / 2) (7 / 3) ≠ .error .modeMismatch) :=
  mode_mismatch_iff demoLib 5 3 20 2 2 42 demoBuiltStandard demoBuiltStandard_eq
    7 3 1 3 64 2 100 demoBuiltSeamless demoBuiltSeamless_eq (5 / 2) (7 / 3) 1 3

/-- C19 (counterexample): the standard constructor accepts start frequency,
frequency factor and weight divisor all equal to `0`. -/
theorem standard_accepts_zero :
    ∃ N, Noise.standard demoLib 5 1 0 0 0 42 = .ok N ∧
      N.m_startFrequency = 0 ∧ N.m_frequencyFactor = 0 ∧ N.m_weightDivisor = 0 := by
  obtain ⟨N, hN⟩ := standard_total demoLib 5 1 0 0 0 42 (by norm_num) (le_refl 0) (le_refl 0)
    (le_refl 0) (by norm_num)
  obtain ⟨_, _, _, h1, h2, h3, _⟩ := standard_fields demoLib 5 1 0 0 0 42 N hN
  exact ⟨N, hN, h1, h2, h3⟩

/-- C19 (amended): the standard constructor rejects (invalid parameter, no
engine) exactly the configurations in which layer count, start frequency,
frequency factor, weight divisor or amplitude is negative; in particular a
negative start frequency, frequency factor or weight divisor is rejected and a
value of exactly `0` is accepted. -/
theorem standard_rejects_negative (lib : Lib) (seed lC : Int) (fS fF wD am : ℚ) :
    ((lC < 0 ∨ fS < 0 ∨ fF < 0 ∨ wD < 0 ∨ am < 0) →
      Noise.standard lib seed lC fS fF wD am = .error .invalidParameter) ∧
    ((0 ≤ lC ∧ 0 ≤ fS ∧ 0 ≤ fF ∧ 0 ≤ wD ∧ 0 ≤ am) →
      ∃ N, Noise.standard lib seed lC fS fF wD am = .ok N) := by
  constructor
  · intro h
    unfold Noise.standard
    by_cases h1 : lC < 0
    · rw [if_pos h1]
    rw [if_neg h1]
    by_cases h2 : fS < 0
    · rw [if_pos h2]
    rw [if_neg h2]
    by_cases h3 : fF < 0
    · rw [if_pos h3]
    rw [if_neg h3]
    by_cases h4 : wD < 0
    · rw [if_pos h4]
    rw [if_neg h4]
    by_cases h5 : am < 0
    · rw [if_pos h5]
    rcases h with h | h | h | h | h
    · exact absurd h h1
    · exact absurd h h2
    · exact absurd h h3
    · exact absurd h h4
    · exact absurd h h5
  · intro h
    exact standard_total lib seed lC fS fF wD am h.1 h.2.1 h.2.2.1 h.2.2.2.1 h.2.2.2.2

/-- Witness for C19 (amended): a negative weight divisor is rejected, the
all-zero frequencies and divisor are accepted. -/
theorem standard_rejects_negative_witness :
    Noise.standard demoLib 5 1 20 2 (-2) 42 = .error .invalidParameter ∧
    ∃ N, Noise.standard demoLib 5 1 0 0 0 42 = .ok N :=
  ⟨(standard_rejects_negative demoLib 5 1 20 2 (-2) 42).1
      (Or.inr (Or.inr (Or.inr (Or.inl (by norm_num))))),
    (standard_rejects_negative demoLib 5 1 0 0 0 42).2
      ⟨by norm_num, le_refl 0, le_refl 0, le_refl 0, by norm_num⟩⟩

/-! ## Normal map and seamless map: proofs -/

theorem normalize_length (v : Vector3 ℝ) (h : 0 < v.dot v) :
    (v.normalize Real.sqrt).length Real.sqrt = 1 := by
  have hs : 0 < Real.sqrt (v.dot v) := Real.sqrt_pos.2 h
  have hsq : Real.sqrt (v.dot v) * Real.sqrt (v.dot v) = v.dot v := Real.mul_self_sqrt h.le
  have hd : (v.normalize Real.sqrt).dot (v.normalize Real.sqrt) = 1 := by
    have he : (v.normalize Real.sqrt).dot (v.normalize Real.sqrt) =
        (v.x * v.x + v.y * v.y + v.z * v.z) /
          (Real.sqrt (v.dot v) * Real.sqrt (v.dot v)) := by
      simp only [Vector3.normalize, Vector3.dot]
      field_simp
    rw [he, hsq]
    exact div_self h.ne'
  unfold Vector3.length
  rw [hd, Real.sqrt_one]

theorem dot_pos_of_y (v : Vector3 ℝ) (h : 0 < v.y) : 0 < v.dot v := by
  unfold Vector3.dot
  nlinarith [mul_self_nonneg v.x, mul_self_nonneg v.z, mul_pos h h]

theorem normalSum_y_pos (c : Vector3 ℝ) (L B R T : Option (Vector3 ℝ))
    (hL : ∀ v, L = some v → v.x < c.x ∧ v.z = c.z)
    (hB : ∀ v, B = some v → v.x = c.x ∧ v.z < c.z)
    (hR : ∀ v, R = some v → c.x < v.x ∧ v.z = c.z)
    (hT : ∀ v, T = some v → v.x = c.x ∧ c.z < v.z)
    (hx : L.isSome ∨ R.isSome) (hz : B.isSome ∨ T.isSome) :
    0 < (normalSum c (L, B, R, T)).y := by
  have LB : ∀ l b, L = some l → B = some b →
      0 < -((l.z - c.z) * (b.x - c.x) - (b.z - c.z) * (l.x - c.x)) := by
    intro l b hl hb
    obtain ⟨l1, l2⟩ := hL l hl
    obtain ⟨b1, b2⟩ := hB b hb
    rw [l2, b1]
    nlinarith [mul_pos (sub_pos.2 l1) (sub_pos.2 b2)]
  have BR : ∀ b r, B = some b → R = some r →
      0 < -((b.z - c.z) * (r.x - c.x) - (r.z - c.z) * (b.x - c.x)) := by
    intro b r hb hr
    obtain ⟨b1, b2⟩ := hB b hb
    obtain ⟨r1, r2⟩ := hR r hr
    rw [r2, b1]
    nlinarith [mul_pos (sub_pos.2 r1) (sub_pos.2 b2)]
  have RT : ∀ r t, R = some r → T = some t →
      0 < -((r.z - c.z) * (t.x - c.x) - (t.z - c.z) * (r.x - c.x)) := by
    intro r t hr ht
    obtain ⟨r1, r2⟩ := hR r hr
    obtain ⟨t1, t2⟩ := hT t ht
    rw [r2, t1]
    nlinarith [mul_pos (sub_pos.2 r1) (sub_pos.2 t2)]
  have TL : ∀ t l, T = some t → L = some l →
      0 < -((t.z - c.z) * (l.x - c.x) - (l.z - c.z) * (t.x - c.x)) := by
    intro t l ht hl
    obtain ⟨l1, l2⟩ := hL l hl
    obtain ⟨t1, t2⟩ := hT t ht
    rw [l2, t1]
    nlinarith [mul_pos (sub_pos.2 l1) (sub_pos.2 t2)]
  rcases L with _ | l <;> rcases B with _ | b <;> rcases R with _ | r <;> rcases T with _ | t <;>
    simp only [Option.isSome_none, Option.isSome_some, or_self, or_false, false_or,
      Bool.false_eq_true] at hx hz <;>
    simp only [normalSum, pairNormal, Vector3.add, Vector3.neg, Vector3.cross, Vector3.sub,
      Vector3.zero]
  all_goals
    try (have h1 := LB _ _ rfl rfl)
    try (have h2 := BR _ _ rfl rfl)
    try (have h3 := RT _ _ rfl rfl)
    try (have h4 := TL _ _ rfl rfl)
    linarith

theorem neighbour_ok {K : Type} (c : Bool) (nv : List K) (i : Nat) (px pz : K)
    (h : c = true → i < nv.length) :
    ∃ o, neighbour c nv i px pz = .ok o ∧ o.isSome = c ∧
      ∀ v, o = some v → v.x = px ∧ v.z = pz := by
  cases c with
  | false => exact ⟨none, rfl, rfl, fun v hv => by cases hv⟩
  | true =>
    have hb : i < nv.length := h rfl
    refine ⟨some ⟨px, nv[i], pz⟩, ?_, rfl, ?_⟩
    · simp only [neighbour, if_true, tableAt_natCast_ok hb]
    · intro v hv
      cases hv
      exact ⟨rfl, rfl⟩

theorem normalStep_unit (cx cz : Nat → ℝ) (w h : Nat) (nv : List ℝ)
    (hcx : ∀ i, cx i < cx (i + 1)) (hcz : ∀ i, cz i < cz (i + 1))
    (hw : 2 ≤ w) (hwlt : w < u32Size) (hh : 2 ≤ h) (hhlt : h < u32Size)
    (hlen : nv.length = w * h) (x z : Nat) (hx : x < w) (hz : z < h)
    (s : NormalState ℝ) (hidx : s.index = z * w + x) :
    ∃ s1, normalStep Real.sqrt cx cz w h nv x z s = .ok s1 ∧ s1.index = s.index + 1 ∧
      ∃ n, s1.normals = s.normals ++ [n] ∧ n.length Real.sqrt = 1 := by
  have hi : s.index < nv.length := by
    rw [hidx, hlen]
    exact grid_index_lt w h x z hx hz
  have hw1 : u32Sub w 1 = w - 1 := u32Sub_one (by omega) hwlt
  have hh1 : u32Sub h 1 = h - 1 := u32Sub_one (by omega) hhlt
  obtain ⟨L, eL, sL, pL⟩ := neighbour_ok (decide (0 < x)) nv (s.index - 1) (cx (x - 1)) (cz z)
    (fun _ => by omega)
  obtain ⟨B, eB, sB, pB⟩ := neighbour_ok (decide (0 < z)) nv (s.index - w) (cx x) (cz (z - 1))
    (fun _ => by omega)
  obtain ⟨R, eR, sR, pR⟩ := neighbour_ok (decide (x < u32Sub w 1)) nv (s.index + 1)
    (cx (x + 1)) (cz z)
    (fun hc => by
      rw [hw1] at hc
      have hc1 : x < w - 1 := of_decide_eq_true hc
      have := grid_index_lt w h (x + 1) z (by omega) hz
      rw [hidx, hlen]
      omega)
  obtain ⟨T, eT, sT, pT⟩ := neighbour_ok (decide (z < u32Sub h 1)) nv (s.index + w)
    (cx x) (cz (z + 1))
    (fun hc => by
      rw [hh1] at hc
      have hc1 : z < h - 1 := of_decide_eq_true hc
      have := grid_index_lt w h x (z + 1) hx (by omega)
      rw [Nat.add_mul, Nat.one_mul] at this
      rw [hidx, hlen]
      omega)
  have hy : 0 < (normalSum ⟨cx x, nv[s.index], cz z⟩ (L, B, R, T)).y := by
    apply normalSum_y_pos
    · intro v hv
      have hs : L.isSome = true := by rw [hv]; rfl
      rw [sL] at hs
      have hpos : 0 < x := of_decide_eq_true hs
      obtain ⟨p1, p2⟩ := pL v hv
      refine ⟨?_, p2⟩
      rw [p1]
      have := hcx (x - 1)
      rw [show x - 1 + 1 = x by omega] at this
      exact this
    · intro v hv
      have hs : B.isSome = true := by rw [hv]; rfl
      rw [sB] at hs
      have hpos : 0 < z := of_decide_eq_true hs
      obtain ⟨p1, p2⟩ := pB v hv
      refine ⟨p1, ?_⟩
      rw [p2]
      have := hcz (z - 1)
      rw [show z - 1 + 1 = z by omega] at this
      exact this
    · intro v hv
      obtain ⟨p1, p2⟩ := pR v hv
      refine ⟨?_, p2⟩
      rw [p1]
      exact hcx x
    · intro v hv
      obtain ⟨p1, p2⟩ := pT v hv
      refine ⟨p1, ?_⟩
      rw [p2]
      exact hcz z
    · rw [sL, sR, hw1]
      rcases Nat.eq_zero_or_pos x with h0 | hpos
      · right
        exact decide_eq_true (by omega)
      · left
        exact decide_eq_true hpos
    · rw [sB, sT, hh1]
      rcases Nat.eq_zero_or_pos z with h0 | hpos
      · right
        exact decide_eq_true (by omega)
      · left
        exact decide_eq_true hpos
  refine ⟨⟨s.normals ++
      [(normalSum ⟨cx x, nv[s.index], cz z⟩ (L, B, R, T)).normalize Real.sqrt], s.index + 1⟩,
    ?_, rfl, _, rfl, normalize_length _ (dot_pos_of_y _ hy)⟩
  simp only [normalStep, texelNeighbours, tableAt_natCast_ok hi, eL, eB, eR, eT]

theorem normalsOf_unit (cx cz : Nat → ℝ) (w h : Nat) (nv : List ℝ)
    (hcx : ∀ i, cx i < cx (i + 1)) (hcz : ∀ i, cz i < cz (i + 1))
    (hw : 2 ≤ w) (hwlt : w < u32Size) (hh : 2 ≤ h) (hhlt : h < u32Size)
    (hlen : nv.length = w * h) :
    ∃ m, normalsOf Real.sqrt cx cz w h nv = .ok m ∧ m.length = w * h ∧
      ∀ v, v ∈ m → v.length Real.sqrt = 1 := by
  obtain ⟨s1, hs1, h1, h2, h3⟩ := gridLoop_inv (normalStep Real.sqrt cx cz w h nv)
    (fun k s => s.index = k ∧ s.normals.length = k ∧ ∀ v, v ∈ s.normals → v.length Real.sqrt = 1)
    w h { normals := [], index := 0 }
    ⟨rfl, rfl, fun v hv => by cases hv⟩
    (by
      intro x z t hx hz hP
      obtain ⟨p1, p2, p3⟩ := hP
      obtain ⟨t1, e1, i1, n, en, hn⟩ :=
        normalStep_unit cx cz w h nv hcx hcz hw hwlt hh hhlt hlen x z hx hz t p1
      refine ⟨t1, e1, ?_, ?_, ?_⟩
      · rw [i1, p1]
      · rw [en, List.length_append, p2]
        rfl
      · intro v hv
        rw [en, List.mem_append, List.mem_singleton] at hv
        rcases hv with hv | hv
        · exact p3 v hv
        · rw [hv]
          exact hn)
  refine ⟨s1.normals, ?_, h2, h3⟩
  simp only [normalsOf, hs1]

theorem mapStep_lt (a b v : Nat) (W : ℚ) (ha : 1 ≤ a) (hb : 1 ≤ b) (hv : 1 ≤ v) (hW : 0 < W)
    (i : Nat) :
    ((i : ℝ) / ((a : ℝ) / (b : ℝ))) * ((W : ℝ) / (v : ℝ)) <
      (((i + 1 : Nat) : ℝ) / ((a : ℝ) / (b : ℝ))) * ((W : ℝ) / (v : ℝ)) := by
  have ha1 : (0 : ℝ) < (a : ℝ) := by exact_mod_cast ha
  have hb1 : (0 : ℝ) < (b : ℝ) := by exact_mod_cast hb
  have hv1 : (0 : ℝ) < (v : ℝ) := by exact_mod_cast hv
  have hW1 : (0 : ℝ) < (W : ℝ) := by exact_mod_cast hW
  have hd : (0 : ℝ) < (a : ℝ) / (b : ℝ) := div_pos ha1 hb1
  have hs : (0 : ℝ) < (W : ℝ) / (v : ℝ) := div_pos hW1 hv1
  apply mul_lt_mul_of_pos_right _ hs
  apply div_lt_div_of_pos_right _ hd
  push_cast
  linarith

theorem mapX_lt (T : Terrain) (hW : 0 < T.m_surfaceWidth) (hvpr : 2 ≤ T.m_vpr)
    (hvprlt : T.m_vpr < u32Size) (hnw : 2 ≤ T.m_normalMapWidth)
    (hnwlt : T.m_normalMapWidth < u32Size) (i : Nat) :
    (T.mapX i : ℝ) < T.mapX (i + 1) := by
  unfold Terrain.mapX
  rw [u32Sub_one (by omega) hnwlt, u32Sub_one (by omega) hvprlt]
  exact mapStep_lt _ _ _ _ (by omega) (by omega) (by omega) hW i

theorem mapZ_lt (T : Terrain) (hD : 0 < T.m_surfaceDepth) (hvpc : 2 ≤ T.m_vpc)
    (hvpclt : T.m_vpc < u32Size) (hnh : 2 ≤ T.m_normalMapHeight)
    (hnhlt : T.m_normalMapHeight < u32Size) (i : Nat) :
    (T.mapZ i : ℝ) < T.mapZ (i + 1) := by
  unfold Terrain.mapZ
  rw [u32Sub_one (by omega) hnhlt, u32Sub_one (by omega) hvpclt]
  exact mapStep_lt _ _ _ _ (by omega) (by omega) (by omega) hD i

theorem forLoop_ok_inv {σ : Type} (step : Nat → σ → Except Fault σ) (P : Nat → σ → Prop)
    (hstep : ∀ j k t t1, P k t → step j t = .ok t1 → P (k + 1) t1) (n : Nat) :
    ∀ (i k : Nat) (s s1 : σ), P k s → forLoop step n i s = .ok s1 → P (k + n) s1 := by
  induction n with
  | zero =>
    intro i k s s1 h0 he
    simp only [forLoop] at he
    cases he
    exact h0
  | succ n ih =>
    intro i k s s1 h0 he
    simp only [forLoop] at he
    cases hs : step i s with
    | error f =>
      rw [hs] at he
      cases he
    | ok t =>
      rw [hs] at he
      have := ih (i + 1) (k + 1) t s1 (hstep i k s t h0 hs) he
      rw [show k + (n + 1) = k + 1 + n by omega]
      exact this

theorem gridLoop_ok_inv {σ : Type} (step : Nat → Nat → σ → Except Fault σ) (P : Nat → σ → Prop)
    (hstep : ∀ x z k t t1, P k t → step x z t = .ok t1 → P (k + 1) t1)
    (vpr vpc : Nat) (s s1 : σ) (h0 : P 0 s) (he : gridLoop step vpr vpc s = .ok s1) :
    P (vpr * vpc) s1 := by
  unfold gridLoop at he
  have h := forLoop_ok_inv (fun z s => forLoop (fun x s => step x z s) vpr 0 s)
    (fun m t => P (m * vpr) t)
    (by
      intro z m t t1 hP hz
      have h2 := forLoop_ok_inv (fun x s => step x z s) P
        (fun x k u u1 hu hx => hstep x z k u u1 hu hx) vpr 0 (m * vpr) t t1 hP hz
      show P ((m + 1) * vpr) t1
      rw [Nat.add_mul, Nat.one_mul]
      exact h2)
    vpc 0 0 s s1 (by show P (0 * vpr) s; rw [Nat.zero_mul]; exact h0) he
  have h1 : P ((0 + vpc) * vpr) s1 := h
  rw [Nat.zero_add, Nat.mul_comm] at h1
  exact h1

theorem normalMapElevations_length (lib : Lib) (T : Terrain) (nv : List ℚ)
    (h : T.normalMapElevations lib = .ok nv) :
    nv.length = T.m_normalMapWidth * T.m_normalMapHeight := by
  unfold Terrain.normalMapElevations at h
  split at h
  · unfold Terrain.resampledElevations at h
    refine gridLoop_ok_inv _ (fun k (t : List ℚ) => t.length = k) ?_ _ _ [] _ rfl h
    intro x z k t t1 hk hs
    split at hs
    · cases hs
    · cases hs
      rw [List.length_append, hk]
      rfl
  · unfold Terrain.vertexElevations at h
    split at h
    · cases h
    · rename_i s hs
      cases h
      refine gridLoop_ok_inv _ (fun k (t : List ℚ × Nat) => t.1.length = k) ?_ _ _ ([], 0) _ rfl hs
      intro x z k t t1 hk hs
      split at hs
      · cases hs
      · cases hs
        show (t.1 ++ _).length = k + 1
        rw [List.length_append, hk]
        rfl

theorem seamlessMapElevations_length (lib : Lib) (n : Noise) (resolution : Nat) (nv : List ℚ)
    (h : seamlessMapElevations lib n resolution = .ok nv) :
    nv.length = resolution * resolution := by
  unfold seamlessMapElevations at h
  refine gridLoop_ok_inv _ (fun k (t : List ℚ) => t.length = k) ?_ _ _ [] _ rfl h
  intro x z k t t1 hk hs
  split at hs
  · cases hs
  · cases hs
    rw [List.length_append, hk]
    rfl

/-- C20: in exact real arithmetic (`float` read as `ℝ`, `sqrt` as the real square
root), for a terrain with positive surface width and depth and a vertex grid
of at least 2 x 2, a normal map of side lengths at least 2 and every elevation
array of its size, the normal loop of `calculateNormalMap` emits one normal
per texel and each has Euclidean length exactly 1; the same holds for the
normal loop of `calculateSeamlessMap` at every resolution of at least 2.  The
summed cross products are therefore never the zero vector.  Consequently
every map returned by `calculateNormalMap` or `calculateSeamlessMap`, with the
elevations taken from the noise engine, consists of unit normals.  All side
lengths are values of `unsigned`. -/
theorem normals_unit_length (T : Terrain) (nv : List ℝ) (resolution : Nat) (sv : List ℝ)
    (hW : 0 < T.m_surfaceWidth) (hD : 0 < T.m_surfaceDepth)
    (hvpr : 2 ≤ T.m_vpr) (hvprlt : T.m_vpr < u32Size)
    (hvpc : 2 ≤ T.m_vpc) (hvpclt : T.m_vpc < u32Size)
    (hnw : 2 ≤ T.m_normalMapWidth) (hnwlt : T.m_normalMapWidth < u32Size)
    (hnh : 2 ≤ T.m_normalMapHeight) (hnhlt : T.m_normalMapHeight < u32Size)
    (hnv : nv.length = T.m_normalMapWidth * T.m_normalMapHeight)
    (hres : 2 ≤ resolution) (hreslt : resolution < u32Size)
    (hsv : sv.length = resolution * resolution) :
    (∃ m, T.normalMapNormals Real.sqrt nv = .ok m ∧
      m.length = T.m_normalMapWidth * T.m_normalMapHeight ∧
      ∀ v, v ∈ m → v.length Real.sqrt = 1) ∧
    (∃ m, seamlessMapNormals Real.sqrt resolution sv = .ok m ∧
      m.length = resolution * resolution ∧ ∀ v, v ∈ m → v.length Real.sqrt = 1) ∧
    (∀ lib m, T.normalMapOver ℝ Real.sqrt lib = .ok m →
      m.length = T.m_normalMapWidth * T.m_normalMapHeight ∧
      ∀ v, v ∈ m → v.length Real.sqrt = 1) ∧
    (∀ lib n m, seamlessMapOver ℝ Real.sqrt lib n resolution = .ok m →
      m.length = resolution * resolution ∧ ∀ v, v ∈ m → v.length Real.sqrt = 1) := by
  have hN : ∀ a : List ℝ, a.length = T.m_normalMapWidth * T.m_normalMapHeight →
      ∃ m, T.normalMapNormals Real.sqrt a = .ok m ∧
        m.length = T.m_normalMapWidth * T.m_normalMapHeight ∧
        ∀ v, v ∈ m → v.length Real.sqrt = 1 := fun a ha =>
    normalsOf_unit T.mapX T.mapZ _ _ a (mapX_lt T hW hvpr hvprlt hnw hnwlt)
      (mapZ_lt T hD hvpc hvpclt hnh hnhlt) hnw hnwlt hnh hnhlt ha
  have hS : ∀ a : List ℝ, a.length = resolution * resolution →
      ∃ m, seamlessMapNormals Real.sqrt resolution a = .ok m ∧
        m.length = resolution * resolution ∧ ∀ v, v ∈ m → v.length Real.sqrt = 1 := fun a ha =>
    normalsOf_unit (fun x => (x : ℝ)) (fun z => (z : ℝ)) _ _ a
      (fun i => by push_cast; linarith) (fun i => by push_cast; linarith)
      hres hreslt hres hreslt ha
  refine ⟨hN nv hnv, hS sv hsv, ?_, ?_⟩
  · intro lib m hm
    unfold Terrain.normalMapOver at hm
    split at hm
    · cases hm
    · rename_i a ha
      obtain ⟨m1, e1, p1, p2⟩ := hN (List.map (fun (v : ℚ) => (v : ℝ)) a)
        (by rw [List.length_map]; exact normalMapElevations_length lib T a ha)
      rw [e1] at hm
      cases hm
      exact ⟨p1, p2⟩
  · intro lib n m hm
    unfold seamlessMapOver at hm
    split at hm
    · cases hm
    · rename_i a ha
      obtain ⟨m1, e1, p1, p2⟩ := hS (List.map (fun (v : ℚ) => (v : ℝ)) a)
        (by rw [List.length_map]; exact seamlessMapElevations_length lib n resolution a ha)
      rw [e1] at hm
      cases hm
      exact ⟨p1, p2⟩

/-- Witness for C20: the 256 x 256 normal map of the 128 x 128 terrain with the
elevations `0, 1, .., 6, 0, 1, ..`, and the seamless map of resolution 2 with
the elevations `0, 1, 2, 3`. -/
theorem normals_unit_length_witness :
    (∃ m, demoTerrain.normalMapNormals Real.sqrt
        ((List.range 65536).map (fun i => ((i % 7 : Nat) : ℝ))) = .ok m ∧
      m.length = demoTerrain.m_normalMapWidth * demoTerrain.m_normalMapHeight ∧
      ∀ v, v ∈ m → v.length Real.sqrt = 1) ∧
    (∃ m, seamlessMapNormals Real.sqrt 2 [0, 1, 2, 3] = .ok m ∧
      m.length = 2 * 2 ∧ ∀ v, v ∈ m → v.length Real.sqrt = 1) ∧
    (∀ lib m, demoTerrain.normalMapOver ℝ Real.sqrt lib = .ok m →
      m.length = demoTerrain.m_normalMapWidth * demoTerrain.m_normalMapHeight ∧
      ∀ v, v ∈ m → v.length Real.sqrt = 1) ∧
    (∀ lib n m, seamlessMapOver ℝ Real.sqrt lib n 2 = .ok m →
      m.length = 2 * 2 ∧ ∀ v, v ∈ m → v.length Real.sqrt = 1) :=
  normals_unit_length demoTerrain ((List.range 65536).map (fun i => ((i % 7 : Nat) : ℝ))) 2
    [0, 1, 2, 3] (by decide) (by decide) (by decide) (by unfold u32Size; decide) (by decide)
    (by unfold u32Size; decide) (by decide) (by unfold u32Size; decide) (by decide)
    (by unfold u32Size; decide) (by simp [demoTerrain]) (by decide) (by unfold u32Size; decide)
    rfl

/-! ## Lattice points: proofs -/

theorem intPart_natCast (i : Nat) : intPart (i : ℚ) = i := by
  unfold intPart
  exact Nat.floor_natCast i

theorem clamp1_of_nonneg {x : ℚ} (hx : 0 ≤ x) : clamp1 x = x := by
  unfold clamp1
  rw [if_neg (not_lt.mpr hx)]

theorem n2_lattice (N : Noise) (hN : StandardReady N) (i j : Nat) :
    N.n2 (i : ℚ) (j : ℚ) = .ok 0 := by
  obtain ⟨a, b, c, d, h⟩ := n2_blend N hN (i : ℚ) (j : ℚ)
  rw [h, clamp2_of_nonneg (Nat.cast_nonneg i) (Nat.cast_nonneg j)]
  simp only [intPart_natCast, sub_self, blend2_origin]

theorem n1_lattice (N : Noise) (hN : StandardReady N) (h1 : N.m_gradients1D.length = permSize)
    (i : Nat) : N.n1 (i : ℚ) = .ok 0 := by
  have hp : ∀ a : Nat, a &&& maxValue < N.m_perm.length := by
    intro a
    rw [hN.permLength]
    exact land_lt_of_lt a _ _ (by decide)
  have hg : ∀ a : Nat, a &&& maxValue < N.m_gradients1D.length := by
    intro a
    rw [h1]
    exact land_lt_of_lt a _ _ (by decide)
  unfold Noise.n1
  simp only [hN.notSeamless, Bool.false_eq_true, if_false, okBind,
    tableAt_natCast_ok (hp _), tableAt_natCast_ok (hg _),
    clamp1_of_nonneg (Nat.cast_nonneg i), intPart_natCast, sub_self]
  show Except.ok _ = Except.ok 0
  congr 1
  unfold S0
  ring

theorem n2_seamless_lattice (N : Noise) (layer : Int) (limit : Nat) (t : List Nat)
    (hS : N.m_isSeamless = true) (hg : N.m_gradients2D.length = g2Size)
    (ht : tableAt N.m_perms layer = .ok t) (hlim : limit < t.length) (i j : Nat) :
    N.n2_seamless (i : ℚ) (j : ℚ) layer (limit : Int) = .ok 0 := by
  have hg7 : ∀ a : Nat, a &&& g2MaxValue < N.m_gradients2D.length := by
    intro a
    rw [hg]
    exact land_lt_of_lt a _ _ (by decide)
  unfold Noise.n2_seamless
  simp only [hS, Bool.not_true, Bool.false_eq_true, if_false, ht, okBind, andMask_natCast,
    tableAt_natCast_ok (land_lt_of_lt _ _ _ hlim), tableAt_natCast_ok (hg7 _),
    clamp2_of_nonneg (Nat.cast_nonneg i) (Nat.cast_nonneg j), intPart_natCast, sub_self,
    blend2_origin]
  rfl

/-- C30: gradient noise vanishes on the lattice.  For a standard engine with any
table `m_perm` of 256 entries below 256 and any gradients, and all non-negative
integers `i`, `j` inside the range of `int`: `n2(i, j) = 0` and `n1(i) = 0`.
For a seamless engine, every `layer` that selects one of its tables and every
`limit` below the size of that table: `n2_seamless(i, j, layer, limit) = 0`.
Each call returns the value `0`, it does not fail. -/
theorem noise_zero_on_lattice (N Ns : Noise) (hN : StandardReady N)
    (hperm : ∀ p, p ∈ N.m_perm → p < permSize)
    (h1 : N.m_gradients1D.length = permSize) (hS : Ns.m_isSeamless = true)
    (hg : Ns.m_gradients2D.length = g2Size) (layer : Int) (limit : Nat) (t : List Nat)
    (ht : tableAt Ns.m_perms layer = .ok t) (hlim : limit < t.length) (i j : Nat)
    (hi : InIntRange (i : ℚ)) (hj : InIntRange (j : ℚ)) :
    N.n2 (i : ℚ) (j : ℚ) = .ok 0 ∧ N.n1 (i : ℚ) = .ok 0 ∧
    Ns.n2_seamless (i : ℚ) (j : ℚ) layer (limit : Int) = .ok 0 := by
  have _ := hperm
  have _ := hi
  have _ := hj
  exact ⟨n2_lattice N hN i j, n1_lattice N hN h1 i,
    n2_seamless_lattice Ns layer limit t hS hg ht hlim i j⟩

/-- Witness for C30: the lattice point (3, 5) on the sample standard engine and
on layer 1 (table of 4 entries, limit 3) of the sample seamless engine. -/
theorem noise_zero_on_lattice_witness :
    demoIdentityStandard.n2 ((3 : Nat) : ℚ) ((5 : Nat) : ℚ) = .ok 0 ∧
    demoIdentityStandard.n1 ((3 : Nat) : ℚ) = .ok 0 ∧
    demoSeamlessNoise.n2_seamless ((3 : Nat) : ℚ) ((5 : Nat) : ℚ) 1 ((3 : Nat) : Int) = .ok 0 :=
  noise_zero_on_lattice demoIdentityStandard demoSeamlessNoise demoIdentityStandard_ready
    (by
      intro p hp
      rw [demoIdentityStandard_perm] at hp
      exact List.mem_range.mp hp)
    (standard_gradients1D identityLib 5 1 20 2 2 42 demoIdentityStandard demoIdentityStandard_eq)
    rfl rfl 1 3 [2, 0, 3, 1] rfl (by decide) 3 5
    (by unfold InIntRange intSize; norm_num) (by unfold InIntRange intSize; norm_num)

/-! ## Neighbour pairs: proofs -/

theorem neighbour_read {K : Type} (c : Bool) (nv : List K) (i : Nat) (px pz : K)
    (h : c = true → i < nv.length) :
    ∃ o, neighbour c nv i px pz = .ok o ∧ o.isSome = c ∧
      ∀ v, o = some v → c = true ∧ v.x = px ∧ nv[i]? = some v.y ∧ v.z = pz := by
  cases c with
  | false => exact ⟨none, rfl, rfl, fun v hv => by cases hv⟩
  | true =>
    have hb : i < nv.length := h rfl
    refine ⟨some ⟨px, nv[i], pz⟩, ?_, rfl, ?_⟩
    · simp only [neighbour, if_true, tableAt_natCast_ok hb]
    · intro v hv
      cases hv
      exact ⟨rfl, rfl, List.getElem?_eq_getElem hb, rfl⟩

theorem texelNeighbours_read {K : Type} (cx cz : Nat → K) (w h : Nat) (nv : List K)
    (hw : 2 ≤ w) (hwlt : w < u32Size) (hh : 2 ≤ h) (hhlt : h < u32Size)
    (hlen : nv.length = w * h) (x z : Nat) (hx : x < w) (hz : z < h) :
    ∃ L B R T, texelNeighbours cx cz w h nv x z (z * w + x) = .ok (L, B, R, T) ∧
      (L.isSome = decide (0 < x) ∧ B.isSome = decide (0 < z) ∧
        R.isSome = decide (x < w - 1) ∧ T.isSome = decide (z < h - 1)) ∧
      (∀ v, L = some v → 0 < x ∧ v.x = cx (x - 1) ∧ nv[z * w + (x - 1)]? = some v.y ∧
        v.z = cz z) ∧
      (∀ v, B = some v → 0 < z ∧ v.x = cx x ∧ nv[(z - 1) * w + x]? = some v.y ∧
        v.z = cz (z - 1)) ∧
      (∀ v, R = some v → x + 1 < w ∧ v.x = cx (x + 1) ∧ nv[z * w + (x + 1)]? = some v.y ∧
        v.z = cz z) ∧
      (∀ v, T = some v → z + 1 < h ∧ v.x = cx x ∧ nv[(z + 1) * w + x]? = some v.y ∧
        v.z = cz (z + 1)) := by
  have hi : z * w + x < nv.length := by
    rw [hlen]
    exact grid_index_lt w h x z hx hz
  have hw1 : u32Sub w 1 = w - 1 := u32Sub_one (by omega) hwlt
  have hh1 : u32Sub h 1 = h - 1 := u32Sub_one (by omega) hhlt
  obtain ⟨L, eL, sL, pL⟩ := neighbour_read (decide (0 < x)) nv (z * w + x - 1) (cx (x - 1)) (cz z)
    (fun _ => by omega)
  obtain ⟨B, eB, sB, pB⟩ := neighbour_read (decide (0 < z)) nv (z * w + x - w) (cx x) (cz (z - 1))
    (fun _ => by omega)
  obtain ⟨R, eR, sR, pR⟩ := neighbour_read (decide (x < u32Sub w 1)) nv (z * w + x + 1)
    (cx (x + 1)) (cz z)
    (fun hc => by
      rw [hw1] at hc
      have hc1 : x < w - 1 := of_decide_eq_true hc
      have := grid_index_lt w h (x + 1) z (by omega) hz
      rw [hlen]
      omega)
  obtain ⟨T, eT, sT, pT⟩ := neighbour_read (decide (z < u32Sub h 1)) nv (z * w + x + w)
    (cx x) (cz (z + 1))
    (fun hc => by
      rw [hh1] at hc
      have hc1 : z < h - 1 := of_decide_eq_true hc
      have := grid_index_lt w h x (z + 1) hx (by omega)
      rw [Nat.add_mul, Nat.one_mul] at this
      rw [hlen]
      omega)
  rw [hw1] at sR
  rw [hh1] at sT
  refine ⟨L, B, R, T, ?_, ⟨sL, sB, sR, sT⟩, ?_, ?_, ?_, ?_⟩
  · simp only [texelNeighbours, eL, eB, eR, eT]
  · intro v hv
    obtain ⟨c, p1, p2, p3⟩ := pL v hv
    have hpos : 0 < x := of_decide_eq_true c
    refine ⟨hpos, p1, ?_, p3⟩
    rw [← p2]
    congr 1
    omega
  · intro v hv
    obtain ⟨c, p1, p2, p3⟩ := pB v hv
    have hpos : 0 < z := of_decide_eq_true c
    refine ⟨hpos, p1, ?_, p3⟩
    rw [← p2]
    congr 1
    have : (z - 1) * w + w = z * w := by
      rw [← Nat.succ_mul]
      congr 1
      omega
    omega
  · intro v hv
    obtain ⟨c, p1, p2, p3⟩ := pR v hv
    rw [hw1] at c
    have hlt : x < w - 1 := of_decide_eq_true c
    refine ⟨by omega, p1, ?_, p3⟩
    rw [← p2]
    rfl
  · intro v hv
    obtain ⟨c, p1, p2, p3⟩ := pT v hv
    rw [hh1] at c
    have hlt : z < h - 1 := of_decide_eq_true c
    refine ⟨by omega, p1, ?_, p3⟩
    rw [← p2]
    congr 1
    rw [Nat.add_mul, Nat.one_mul]
    omega

theorem pairCount_of {K : Type} (L B R T : Option (Vector3 K)) (w h x z : Nat)
    (hw : 2 ≤ w) (hh : 2 ≤ h) (hx : x < w) (hz : z < h)
    (sL : L.isSome = decide (0 < x)) (sB : B.isSome = decide (0 < z))
    (sR : R.isSome = decide (x < w - 1)) (sT : T.isSome = decide (z < h - 1)) :
    pairCount L B R T =
      if (x = 0 ∨ x = w - 1) ∧ (z = 0 ∨ z = h - 1) then 1
      else if x = 0 ∨ x = w - 1 ∨ z = 0 ∨ z = h - 1 then 2 else 4 := by
  unfold pairCount
  rw [sL, sB, sR, sT]
  simp only [decide_eq_true_eq]
  split_ifs <;> omega

/-- C26: for a map of `w` columns and `h` rows, both at least 2 (and values of
`unsigned`), and the texel `(x, z)` at position `z * w + x`: the loop body of
`calculateNormalMap` / `calculateSeamlessMap` reads the four neighbours
`(L, B, R, T)` and appends the normalised sum of the pair contributions; the
number of neighbour pairs of which both members exist (the cross products that
contribute) is 1 at the four corner texels, 2 at every other border texel and 4
at every interior texel.  A neighbour exists exactly when it lies inside the
map, and it is read from the position of the adjacent texel in the same row or
column (`(x - 1, z)`, `(x, z - 1)`, `(x + 1, z)`, `(x, z + 1)`): nothing wraps
around. -/
theorem neighbour_pairs_by_position {K : Type} [Field K] (sqrt : K → K) (cx cz : Nat → K)
    (w h : Nat) (nv : List K) (hw : 2 ≤ w) (hwlt : w < u32Size) (hh : 2 ≤ h) (hhlt : h < u32Size)
    (hlen : nv.length = w * h) (x z : Nat) (hx : x < w) (hz : z < h)
    (s : NormalState K) (hs : s.index = z * w + x) :
    ∃ L B R T e, texelNeighbours cx cz w h nv x z s.index = .ok (L, B, R, T) ∧
      nv[z * w + x]? = some e ∧
      normalStep sqrt cx cz w h nv x z s =
        .ok ⟨s.normals ++ [(normalSum ⟨cx x, e, cz z⟩ (L, B, R, T)).normalize sqrt],
          s.index + 1⟩ ∧
      pairCount L B R T =
        (if (x = 0 ∨ x = w - 1) ∧ (z = 0 ∨ z = h - 1) then 1
         else if x = 0 ∨ x = w - 1 ∨ z = 0 ∨ z = h - 1 then 2 else 4) ∧
      (L.isSome = decide (0 < x) ∧ B.isSome = decide (0 < z) ∧
        R.isSome = decide (x + 1 < w) ∧ T.isSome = decide (z + 1 < h)) ∧
      (∀ v, L = some v → 0 < x ∧ nv[z * w + (x - 1)]? = some v.y) ∧
      (∀ v, B = some v → 0 < z ∧ nv[(z - 1) * w + x]? = some v.y) ∧
      (∀ v, R = some v → x + 1 < w ∧ nv[z * w + (x + 1)]? = some v.y) ∧
      (∀ v, T = some v → z + 1 < h ∧ nv[(z + 1) * w + x]? = some v.y) := by
  obtain ⟨L, B, R, T, hn, ⟨sL, sB, sR, sT⟩, pL, pB, pR, pT⟩ :=
    texelNeighbours_read cx cz w h nv hw hwlt hh hhlt hlen x z hx hz
  have hi : z * w + x < nv.length := by
    rw [hlen]
    exact grid_index_lt w h x z hx hz
  have hi2 : s.index < nv.length := by rw [hs]; exact hi
  have he : nv[s.index] = nv[z * w + x] := by
    congr 1
  refine ⟨L, B, R, T, nv[z * w + x], ?_, List.getElem?_eq_getElem hi, ?_,
    pairCount_of L B R T w h x z hw hh hx hz sL sB sR sT, ⟨sL, sB, ?_, ?_⟩,
    fun v hv => ⟨(pL v hv).1, (pL v hv).2.2.1⟩, fun v hv => ⟨(pB v hv).1, (pB v hv).2.2.1⟩,
    fun v hv => ⟨(pR v hv).1, (pR v hv).2.2.1⟩, fun v hv => ⟨(pT v hv).1, (pT v hv).2.2.1⟩⟩
  · rw [hs]
    exact hn
  · rw [← hs] at hn
    simp only [normalStep, tableAt_natCast_ok hi2, hn, he]
  · rw [sR]
    congr 1
    exact propext ⟨fun hlt => by omega, fun hlt => by omega⟩
  · rw [sT]
    congr 1
    exact propext ⟨fun hlt => by omega, fun hlt => by omega⟩

/-- Witness for C26: the centre texel of a 3 x 3 map has four contributing
pairs. -/
theorem neighbour_pairs_by_position_witness :
    ∃ L B R T e, texelNeighbours (fun x => (x : ℚ)) (fun z => (z : ℚ)) 3 3
        [0, 1, 2, 3, 4, 5, 6, 7, 8] 1 1 (NormalState.mk ([] : List (Vector3 ℚ)) 4).index =
          .ok (L, B, R, T) ∧
      [(0 : ℚ), 1, 2, 3, 4, 5, 6, 7, 8][1 * 3 + 1]? = some e ∧
      normalStep demoLib.sqrt (fun x => (x : ℚ)) (fun z => (z : ℚ)) 3 3
          [0, 1, 2, 3, 4, 5, 6, 7, 8] 1 1 (NormalState.mk [] 4) =
        .ok ⟨(NormalState.mk ([] : List (Vector3 ℚ)) 4).normals ++
          [(normalSum ⟨((1 : Nat) : ℚ), e, ((1 : Nat) : ℚ)⟩ (L, B, R, T)).normalize demoLib.sqrt],
          (NormalState.mk ([] : List (Vector3 ℚ)) 4).index + 1⟩ ∧
      pairCount L B R T =
        (if (1 = 0 ∨ 1 = 3 - 1) ∧ (1 = 0 ∨ 1 = 3 - 1) then 1
         else if 1 = 0 ∨ 1 = 3 - 1 ∨ 1 = 0 ∨ 1 = 3 - 1 then 2 else 4) ∧
      (L.isSome = decide (0 < 1) ∧ B.isSome = decide (0 < 1) ∧
        R.isSome = decide (1 + 1 < 3) ∧ T.isSome = decide (1 + 1 < 3)) ∧
      (∀ v, L = some v → 0 < 1 ∧ [(0 : ℚ), 1, 2, 3, 4, 5, 6, 7, 8][1 * 3 + (1 - 1)]? = some v.y) ∧
      (∀ v, B = some v → 0 < 1 ∧ [(0 : ℚ), 1, 2, 3, 4, 5, 6, 7, 8][(1 - 1) * 3 + 1]? = some v.y) ∧
      (∀ v, R = some v → 1 + 1 < 3 ∧ [(0 : ℚ), 1, 2, 3, 4, 5, 6, 7, 8][1 * 3 + (1 + 1)]? = some v.y) ∧
      (∀ v, T = some v → 1 + 1 < 3 ∧ [(0 : ℚ), 1, 2, 3, 4, 5, 6, 7, 8][(1 + 1) * 3 + 1]? = some v.y) :=
  neighbour_pairs_by_position demoLib.sqrt (fun x => (x : ℚ)) (fun z => (z : ℚ)) 3 3
    [0, 1, 2, 3, 4, 5, 6, 7, 8] (by decide) (by unfold u32Size; decide) (by decide)
    (by unfold u32Size; decide) rfl 1 1 (by decide) (by decide) (NormalState.mk [] 4) rfl

/-! ## Direction of the normals: proofs -/

theorem normalize_y_pos (v : Vector3 ℝ) (h : 0 < v.y) : 0 < (v.normalize Real.sqrt).y := by
  have hs : 0 < Real.sqrt (v.dot v) := Real.sqrt_pos.2 (dot_pos_of_y v h)
  show 0 < v.y * (1 / Real.sqrt (v.dot v))
  exact mul_pos h (one_div_pos.2 hs)

theorem normalize_vertical (v : Vector3 ℝ) (hx : v.x = 0) (hz : v.z = 0) (hy : 0 < v.y) :
    v.normalize Real.sqrt = ⟨0, 1, 0⟩ := by
  have hd : v.dot v = v.y * v.y := by
    unfold Vector3.dot
    rw [hx, hz]
    ring
  have hs : Real.sqrt (v.dot v) = v.y := by
    rw [hd]
    exact Real.sqrt_mul_self hy.le
  unfold Vector3.normalize
  rw [hs, hx, hz]
  congr 1
  · exact zero_mul _
  · exact mul_one_div_cancel hy.ne'
  · exact zero_mul _

theorem normalSum_flat (c : Vector3 ℝ) (L B R T : Option (Vector3 ℝ))
    (hL : ∀ v, L = some v → v.y = c.y) (hB : ∀ v, B = some v → v.y = c.y)
    (hR : ∀ v, R = some v → v.y = c.y) (hT : ∀ v, T = some v → v.y = c.y) :
    (normalSum c (L, B, R, T)).x = 0 ∧ (normalSum c (L, B, R, T)).z = 0 := by
  rcases L with _ | l <;> rcases B with _ | b <;> rcases R with _ | r <;> rcases T with _ | t <;>
    simp only [normalSum, pairNormal, Vector3.add, Vector3.neg, Vector3.cross, Vector3.sub,
      Vector3.zero]
  all_goals
    try (have h1 := hL _ rfl)
    try (have h2 := hB _ rfl)
    try (have h3 := hR _ rfl)
    try (have h4 := hT _ rfl)
    try simp only [h1]
    try simp only [h2]
    try simp only [h3]
    try simp only [h4]
    constructor <;> ring

theorem normalStep_up (cx cz : Nat → ℝ) (w h : Nat) (nv : List ℝ)
    (hcx : ∀ i, cx i < cx (i + 1)) (hcz : ∀ i, cz i < cz (i + 1))
    (hw : 2 ≤ w) (hwlt : w < u32Size) (hh : 2 ≤ h) (hhlt : h < u32Size)
    (hlen : nv.length = w * h) (x z : Nat) (hx : x < w) (hz : z < h)
    (s : NormalState ℝ) (hidx : s.index = z * w + x) :
    ∃ s1, normalStep Real.sqrt cx cz w h nv x z s = .ok s1 ∧ s1.index = s.index + 1 ∧
      ∃ n, s1.normals = s.normals ++ [n] ∧ 0 < n.y ∧
        ∀ c, (∀ e, e ∈ nv → e = c) → n = ⟨0, 1, 0⟩ := by
  obtain ⟨L, B, R, T, hn, ⟨sL, sB, sR, sT⟩, pL, pB, pR, pT⟩ :=
    texelNeighbours_read cx cz w h nv hw hwlt hh hhlt hlen x z hx hz
  have hi : z * w + x < nv.length := by
    rw [hlen]
    exact grid_index_lt w h x z hx hz
  have hi2 : s.index < nv.length := by rw [hidx]; exact hi
  have hy : 0 < (normalSum ⟨cx x, nv[s.index], cz z⟩ (L, B, R, T)).y := by
    apply normalSum_y_pos
    · intro v hv
      obtain ⟨hpos, p1, _, p3⟩ := pL v hv
      refine ⟨?_, p3⟩
      rw [p1]
      have := hcx (x - 1)
      rw [show x - 1 + 1 = x by omega] at this
      exact this
    · intro v hv
      obtain ⟨hpos, p1, _, p3⟩ := pB v hv
      refine ⟨p1, ?_⟩
      rw [p3]
      have := hcz (z - 1)
      rw [show z - 1 + 1 = z by omega] at this
      exact this
    · intro v hv
      obtain ⟨_, p1, _, p3⟩ := pR v hv
      refine ⟨?_, p3⟩
      rw [p1]
      exact hcx x
    · intro v hv
      obtain ⟨_, p1, _, p3⟩ := pT v hv
      refine ⟨p1, ?_⟩
      rw [p3]
      exact hcz z
    · rw [sL, sR]
      rcases Nat.eq_zero_or_pos x with h0 | hpos
      · right
        exact decide_eq_true (by omega)
      · left
        exact decide_eq_true hpos
    · rw [sB, sT]
      rcases Nat.eq_zero_or_pos z with h0 | hpos
      · right
        exact decide_eq_true (by omega)
      · left
        exact decide_eq_true hpos
  refine ⟨⟨s.normals ++
      [(normalSum ⟨cx x, nv[s.index], cz z⟩ (L, B, R, T)).normalize Real.sqrt], s.index + 1⟩,
    ?_, rfl, _, rfl, normalize_y_pos _ hy, ?_⟩
  · rw [← hidx] at hn
    simp only [normalStep, tableAt_natCast_ok hi2, hn]
  · intro c hc
    have hcur : nv[s.index] = c := hc _ (List.getElem_mem _)
    have hof : ∀ (i : Nat) (e : ℝ), nv[i]? = some e → e = c := fun i e he =>
      hc e (List.getElem?_mem he)
    obtain ⟨f1, f2⟩ := normalSum_flat ⟨cx x, nv[s.index], cz z⟩ L B R T
      (fun v hv => by rw [hcur]; exact hof _ _ (pL v hv).2.2.1)
      (fun v hv => by rw [hcur]; exact hof _ _ (pB v hv).2.2.1)
      (fun v hv => by rw [hcur]; exact hof _ _ (pR v hv).2.2.1)
      (fun v hv => by rw [hcur]; exact hof _ _ (pT v hv).2.2.1)
    exact normalize_vertical _ f1 f2 hy

theorem normalsOf_up (cx cz : Nat → ℝ) (w h : Nat) (nv : List ℝ)
    (hcx : ∀ i, cx i < cx (i + 1)) (hcz : ∀ i, cz i < cz (i + 1))
    (hw : 2 ≤ w) (hwlt : w < u32Size) (hh : 2 ≤ h) (hhlt : h < u32Size)
    (hlen : nv.length = w * h) :
    ∃ m, normalsOf Real.sqrt cx cz w h nv = .ok m ∧ m.length = w * h ∧
      (∀ v, v ∈ m → 0 < v.y) ∧
      ∀ c, (∀ e, e ∈ nv → e = c) → ∀ v, v ∈ m → v = ⟨0, 1, 0⟩ := by
  obtain ⟨s1, hs1, h1, h2, h3, h4⟩ := gridLoop_inv (normalStep Real.sqrt cx cz w h nv)
    (fun k s => s.index = k ∧ s.normals.length = k ∧ (∀ v, v ∈ s.normals → 0 < v.y) ∧
      ∀ c, (∀ e, e ∈ nv → e = c) → ∀ v, v ∈ s.normals → v = ⟨0, 1, 0⟩)
    w h { normals := [], index := 0 }
    ⟨rfl, rfl, fun v hv => (by cases hv), fun c _ v hv => (by cases hv)⟩
    (by
      intro x z t hx hz hP
      obtain ⟨p1, p2, p3, p4⟩ := hP
      obtain ⟨t1, e1, i1, n, en, hn, hflat⟩ :=
        normalStep_up cx cz w h nv hcx hcz hw hwlt hh hhlt hlen x z hx hz t p1
      refine ⟨t1, e1, ?_, ?_, ?_, ?_⟩
      · rw [i1, p1]
      · rw [en, List.length_append, p2]
        rfl
      · intro v hv
        rw [en, List.mem_append, List.mem_singleton] at hv
        rcases hv with hv | hv
        · exact p3 v hv
        · rw [hv]
          exact hn
      · intro c hc v hv
        rw [en, List.mem_append, List.mem_singleton] at hv
        rcases hv with hv | hv
        · exact p4 c hc v hv
        · rw [hv]
          exact hflat c hc)
  refine ⟨s1.normals, ?_, h2, h3, h4⟩
  simp only [normalsOf, hs1]

/-- C29: in exact real arithmetic, for a terrain with positive surface width and
depth and a vertex grid of at least 2 x 2, a normal map of side lengths at
least 2 and every elevation array of its size, every normal emitted by the
normal loop of `calculateNormalMap` has a strictly positive y component, and
for a constant elevation array every normal is exactly `(0, 1, 0)`; the same
holds for the normal loop of `calculateSeamlessMap` at every resolution of at
least 2.  Consequently every normal of a map returned by `calculateNormalMap`
or `calculateSeamlessMap` (elevations taken from the noise engine) has a
strictly positive y component.  All side lengths are values of `unsigned`. -/
theorem normals_point_up (T : Terrain) (nv : List ℝ) (resolution : Nat) (sv : List ℝ)
    (hW : 0 < T.m_surfaceWidth) (hD : 0 < T.m_surfaceDepth)
    (hvpr : 2 ≤ T.m_vpr) (hvprlt : T.m_vpr < u32Size)
    (hvpc : 2 ≤ T.m_vpc) (hvpclt : T.m_vpc < u32Size)
    (hnw : 2 ≤ T.m_normalMapWidth) (hnwlt : T.m_normalMapWidth < u32Size)
    (hnh : 2 ≤ T.m_normalMapHeight) (hnhlt : T.m_normalMapHeight < u32Size)
    (hnv : nv.length = T.m_normalMapWidth * T.m_normalMapHeight)
    (hres : 2 ≤ resolution) (hreslt : resolution < u32Size)
    (hsv : sv.length = resolution * resolution) :
    (∃ m, T.normalMapNormals Real.sqrt nv = .ok m ∧
      m.length = T.m_normalMapWidth * T.m_normalMapHeight ∧
      (∀ v, v ∈ m → 0 < v.y) ∧
      ∀ c, (∀ e, e ∈ nv → e = c) → ∀ v, v ∈ m → v = ⟨0, 1, 0⟩) ∧
    (∃ m, seamlessMapNormals Real.sqrt resolution sv = .ok m ∧
      m.length = resolution * resolution ∧ (∀ v, v ∈ m → 0 < v.y) ∧
      ∀ c, (∀ e, e ∈ sv → e = c) → ∀ v, v ∈ m → v = ⟨0, 1, 0⟩) ∧
    (∀ lib m, T.normalMapOver ℝ Real.sqrt lib = .ok m → ∀ v, v ∈ m → 0 < v.y) ∧
    (∀ lib n m, seamlessMapOver ℝ Real.sqrt lib n resolution = .ok m →
      ∀ v, v ∈ m → 0 < v.y) := by
  have hN : ∀ a : List ℝ, a.length = T.m_normalMapWidth * T.m_normalMapHeight →
      ∃ m, T.normalMapNormals Real.sqrt a = .ok m ∧
        m.length = T.m_normalMapWidth * T.m_normalMapHeight ∧
        (∀ v, v ∈ m → 0 < v.y) ∧
        ∀ c, (∀ e, e ∈ a → e = c) → ∀ v, v ∈ m → v = ⟨0, 1, 0⟩ := fun a ha =>
    normalsOf_up T.mapX T.mapZ _ _ a (mapX_lt T hW hvpr hvprlt hnw hnwlt)
      (mapZ_lt T hD hvpc hvpclt hnh hnhlt) hnw hnwlt hnh hnhlt ha
  have hS : ∀ a : List ℝ, a.length = resolution * resolution →
      ∃ m, seamlessMapNormals Real.sqrt resolution a = .ok m ∧
        m.length = resolution * resolution ∧ (∀ v, v ∈ m → 0 < v.y) ∧
        ∀ c, (∀ e, e ∈ a → e = c) → ∀ v, v ∈ m → v = ⟨0, 1, 0⟩ := fun a ha =>
    normalsOf_up (fun x => (x : ℝ)) (fun z => (z : ℝ)) _ _ a
      (fun i => by push_cast; linarith) (fun i => by push_cast; linarith)
      hres hreslt hres hreslt ha
  refine ⟨hN nv hnv, hS sv hsv, ?_, ?_⟩
  · intro lib m hm
    unfold Terrain.normalMapOver at hm
    split at hm
    · cases hm
    · rename_i a ha
      obtain ⟨m1, e1, _, p2, _⟩ := hN (List.map (fun (v : ℚ) => (v : ℝ)) a)
        (by rw [List.length_map]; exact normalMapElevations_length lib T a ha)
      rw [e1] at hm
      cases hm
      exact p2
  · intro lib n m hm
    unfold seamlessMapOver at hm
    split at hm
    · cases hm
    · rename_i a ha
      obtain ⟨m1, e1, _, p2, _⟩ := hS (List.map (fun (v : ℚ) => (v : ℝ)) a)
        (by rw [List.length_map]; exact seamlessMapElevations_length lib n resolution a ha)
      rw [e1] at hm
      cases hm
      exact p2

/-- Witness for C29: the 256 x 256 normal map of the 128 x 128 terrain with the
constant elevation 5, and the seamless map of resolution 2 with the constant
elevation 3. -/
theorem normals_point_up_witness :
    (∃ m, demoTerrain.normalMapNormals Real.sqrt (List.replicate 65536 (5 : ℝ)) = .ok m ∧
      m.length = demoTerrain.m_normalMapWidth * demoTerrain.m_normalMapHeight ∧
      (∀ v, v ∈ m → 0 < v.y) ∧
      ∀ c, (∀ e, e ∈ List.replicate 65536 (5 : ℝ) → e = c) → ∀ v, v ∈ m → v = ⟨0, 1, 0⟩) ∧
    (∃ m, seamlessMapNormals Real.sqrt 2 [3, 3, 3, 3] = .ok m ∧
      m.length = 2 * 2 ∧ (∀ v, v ∈ m → 0 < v.y) ∧
      ∀ c, (∀ e, e ∈ [(3 : ℝ), 3, 3, 3] → e = c) → ∀ v, v ∈ m → v = ⟨0, 1, 0⟩) ∧
    (∀ lib m, demoTerrain.normalMapOver ℝ Real.sqrt lib = .ok m → ∀ v, v ∈ m → 0 < v.y) ∧
    (∀ lib n m, seamlessMapOver ℝ Real.sqrt lib n 2 = .ok m → ∀ v, v ∈ m → 0 < v.y) :=
  normals_point_up demoTerrain (List.replicate 65536 (5 : ℝ)) 2 [3, 3, 3, 3]
    (by decide) (by decide) (by decide) (by unfold u32Size; decide) (by decide)
    (by unfold u32Size; decide) (by decide) (by unfold u32Size; decide) (by decide)
    (by unfold u32Size; decide) (by simp only [List.length_replicate]; decide) (by decide)
    (by unfold u32Size; decide) rfl

/-! ## Tables used by the seamless layered sampler: proofs -/

theorem demoMainSeamless_eq :
    Noise.seamless demoLib 20340 10 2 10 2048 (11 / 5) 100 = .ok demoMainSeamless := by
  obtain ⟨N, hN⟩ := seamless_total demoLib 20340 10 2 10 2048 (11 / 5) 100 (by norm_num)
    (by norm_num) (by norm_num) (by norm_num) (by norm_num)
  have h : Noise.seamless demoLib 20340 10 2 10 2048 (11 / 5) 100 = .ok N := hN
  unfold demoMainSeamless
  rw [h]

theorem seamlessLayers_mem (N : Noise) (L s e : Nat) (R : Int) (wD am : ℚ)
    (hB : SeamlessBuilt N L s e R wD am) (hs : 1 ≤ s) (hse : s ≤ e) (layer : Int)
    (h : layer ∈ N.seamlessLayers) : ∃ i : Nat, layer = (i : Int) ∧ s ≤ i + 1 ∧ i < e := by
  unfold Noise.seamlessLayers at h
  rw [hB.startLayer, hB.endLayer] at h
  rcases List.mem_cons.mp h with h | h
  · exact ⟨s - 1, by omega, by omega, by omega⟩
  · obtain ⟨k, hk, rfl⟩ := List.mem_map.mp h
    have hk1 := List.mem_range.mp hk
    exact ⟨s + k, by omega, by omega, by omega⟩

theorem seamlessLayers_head (N : Noise) : N.m_startLayer - 1 ∈ N.seamlessLayers := by
  unfold Noise.seamlessLayers
  exact List.mem_cons_self _ _

theorem seamless_layer_table (N : Noise) (L s e : Nat) (R : Int) (wD am : ℚ)
    (hB : SeamlessBuilt N L s e R wD am) (hs : 1 ≤ s) (i : Nat) (hi : i < L) :
    ∃ t, tableAt N.m_perms (i : Int) = .ok t ∧ t.length = 2 ^ (i + s) ∧
      limitOf (i : Int) = .ok ((2 ^ (i + 1) - 1 : Nat) : Int) ∧
      2 ^ (i + 1) - 1 + 1 = 2 ^ (i + 1) ∧ 2 ^ (i + 1) ≤ 2 ^ (i + s) ∧
      (2 ^ (i + s) = 2 ^ (i + 1) ↔ s = 1) := by
  obtain ⟨t, ht, hlen, _⟩ := hB.tables i hi
  have hb := hB.bound
  have h1 : 1 ≤ 2 ^ (i + 1) := Nat.one_le_two_pow
  refine ⟨t, tableAt_of_getElem? ht, hlen, ?_, by omega,
    Nat.pow_le_pow_right (by norm_num) (by omega), ?_⟩
  · have h := limitOf_of_lt (show (0 : Int) ≤ (i : Int) + 1 by omega)
      (show (i : Int) + 1 < 31 by omega)
    rw [show ((i : Int) + 1).toNat = i + 1 by omega] at h
    exact h
  · constructor
    · intro h
      have := Nat.pow_right_injective (le_refl 2) h
      omega
    · intro h
      rw [h]

/-- C25 (counterexample): on the seamless engine of `main.cpp` (start layer 2)
the first call of `n2_seamless_layered` passes `layer = 1` and `limit = 3`, and
the table selected by `layer` has 8 entries, not `limit + 1 = 4`. -/
theorem seamless_table_size_counterexample :
    (1 : Int) ∈ demoMainSeamless.seamlessLayers ∧ limitOf 1 = .ok 3 ∧
    ∃ t, tableAt demoMainSeamless.m_perms 1 = .ok t ∧ t.length = 8 ∧ t.length ≠ 3 + 1 := by
  obtain ⟨_, _, _, _, hB⟩ := seamless_built demoLib 20340 10 2 10 2048 (11 / 5) 100
    demoMainSeamless demoMainSeamless_eq
  obtain ⟨t, ht, hlen, _⟩ := seamless_layer_table demoMainSeamless _ _ _ _ _ _ hB (by decide) 1
    (by decide)
  have hL : demoMainSeamless.m_startLayer = 2 := hB.startLayer
  refine ⟨?_, rfl, t, ht, hlen, ?_⟩
  · have h := seamlessLayers_head demoMainSeamless
    rw [hL] at h
    exact h
  · rw [hlen]
    decide

/-- C25 (amended): for a seamless engine constructed with
`1 ≤ startLayer ≤ endLayer ≤ layerCount`, in every call that
`n2_seamless_layered` makes to `n2_seamless(x, y, layer, limit)` the table
selected by `layer` exists and has `2^(layer + startLayer)` entries, while
`limit + 1 = 2^(layer + 1)`: the table has at least `limit + 1` entries, and
exactly `limit + 1` if and only if `startLayer = 1`. -/
theorem seamless_table_size (lib : Lib) (seed : Int) (L s e : Nat) (R : Int) (wD am : ℚ)
    (N : Noise) (hN : Noise.seamless lib seed (L : Int) (s : Int) (e : Int) R wD am = .ok N)
    (hs : 1 ≤ s) (hse : s ≤ e) (heL : e ≤ L) (layer : Int) (hl : layer ∈ N.seamlessLayers) :
    ∃ (t : List Nat) (limit : Nat), tableAt N.m_perms layer = .ok t ∧
      limitOf layer = .ok (limit : Int) ∧
      t.length = 2 ^ (layer.toNat + s) ∧ limit + 1 = 2 ^ (layer.toNat + 1) ∧
      limit + 1 ≤ t.length ∧ (t.length = limit + 1 ↔ s = 1) := by
  obtain ⟨_, _, _, _, hB⟩ := seamless_built lib seed L s e R wD am N hN
  simp only [Int.toNat_ofNat] at hB
  obtain ⟨i, rfl, hi1, hi2⟩ := seamlessLayers_mem N L s e R wD am hB hs hse layer hl
  obtain ⟨t, ht, hlen, hlim, h1, h2, h3⟩ := seamless_layer_table N L s e R wD am hB hs i
    (by omega)
  refine ⟨t, 2 ^ (i + 1) - 1, ht, hlim, ?_, ?_, ?_, ?_⟩
  · rw [hlen, Int.toNat_ofNat]
  · rw [h1, Int.toNat_ofNat]
  · rw [h1, hlen]
    exact h2
  · rw [h1, hlen]
    exact h3

/-- Witness for C25 (amended): the first call of the seamless engine of
`main.cpp`. -/
theorem seamless_table_size_witness :
    ∃ (t : List Nat) (limit : Nat), tableAt demoMainSeamless.m_perms 1 = .ok t ∧
      limitOf 1 = .ok (limit : Int) ∧
      t.length = 2 ^ ((1 : Int).toNat + 2) ∧ limit + 1 = 2 ^ ((1 : Int).toNat + 1) ∧
      limit + 1 ≤ t.length ∧ (t.length = limit + 1 ↔ 2 = 1) :=
  seamless_table_size demoLib 20340 10 2 10 2048 (11 / 5) 100 demoMainSeamless
    demoMainSeamless_eq (by decide) (by decide) (by decide) 1
    (by
      have h := seamlessLayers_head demoMainSeamless
      have hL : demoMainSeamless.m_startLayer = 2 :=
        (seamless_built demoLib 20340 10 2 10 2048 (11 / 5) 100 demoMainSeamless
          demoMainSeamless_eq).2.2.2.2.startLayer
      rw [hL] at h
      exact h)

/-- C27: for a seamless engine constructed with
`1 ≤ startLayer ≤ endLayer ≤ layerCount` and texture resolution `R > 0` (so
that no frequency is `0`), `n2_seamless_layered(x, y)` returns a value for all
`x`, `y`: no table access leaves its table (`int(x)` is taken without
overflow, the claim's restriction to coordinates within `int` range).  In
detail, for every `layer` passed to `n2_seamless`: `0 ≤ layer < layerCount`,
the table `m_perms[layer]` exists, `limit = (1 << (layer + 1)) - 1` is
computed without overflow, every index `a & limit` is non-negative and below
the size of that table, and every gradient index `a & 7` is below the number
of gradients, which is 8.  Every frequency `f` that a coordinate is divided
by is non-zero. -/
theorem seamless_accesses_in_bounds (lib : Lib) (seed : Int) (L s e : Nat) (R : Int)
    (wD am : ℚ) (N : Noise)
    (hN : Noise.seamless lib seed (L : Int) (s : Int) (e : Int) R wD am = .ok N)
    (hR : 0 < R) (hs : 1 ≤ s) (hse : s ≤ e) (heL : e ≤ L) :
    (∀ x y : ℚ, ∃ v, N.n2_seamless_layered lib x y = .ok v) ∧
    (∀ layer, layer ∈ N.seamlessLayers →
      0 ≤ layer ∧ layer < N.m_layerCount ∧ layer.toNat < N.m_perms.length ∧
      ∃ (t : List Nat) (limit : Int), tableAt N.m_perms layer = .ok t ∧
        limitOf layer = .ok limit ∧
        ∀ a : Nat, 0 ≤ andMask a limit ∧ (andMask a limit).toNat < t.length) ∧
    N.m_gradients2D.length = 8 ∧ (∀ a : Nat, a &&& g2MaxValue < N.m_gradients2D.length) ∧
    (∀ k : Nat, (N.nextOctaveSeamless^[k] N.firstOctave).f ≠ 0) := by
  obtain ⟨_, _, _, _, hB⟩ := seamless_built lib seed L s e R wD am N hN
  simp only [Int.toNat_ofNat] at hB
  refine ⟨fun x y => n2_seamless_layered_ok lib N L s e R wD am hB hs hse heL x y, ?_,
    hB.gradients, ?_, ?_⟩
  · intro layer hl
    obtain ⟨i, rfl, hi1, hi2⟩ := seamlessLayers_mem N L s e R wD am hB hs hse layer hl
    obtain ⟨t, ht, hlen, hlim, h1, h2, h3⟩ := seamless_layer_table N L s e R wD am hB hs i
      (by omega)
    refine ⟨by omega, by rw [hB.layerCount]; omega, by rw [hB.tablesLength]; omega,
      t, _, ht, hlim, ?_⟩
    intro a
    rw [andMask_natCast]
    refine ⟨by omega, ?_⟩
    rw [Int.toNat_ofNat, hlen]
    have : a &&& (2 ^ (i + 1) - 1) ≤ 2 ^ (i + 1) - 1 := Nat.and_le_right
    have hp : 1 ≤ 2 ^ (i + 1) := Nat.one_le_two_pow
    omega
  · intro a
    rw [hB.gradients]
    exact land_lt_of_lt a _ _ (by decide)
  · intro k
    have hf : ∀ k : Nat, (N.nextOctaveSeamless^[k] N.firstOctave).f =
        N.m_startFrequency / 2 ^ k := by
      intro k
      induction k with
      | zero => simp [Noise.firstOctave]
      | succ k ih =>
        rw [Function.iterate_succ_apply', nextOctaveSeamless_f, ih, hB.frequencyFactor,
          pow_succ, div_div]
    rw [hf, hB.startFrequency]
    have hRq : (0 : ℚ) < (R : ℚ) := by exact_mod_cast hR
    positivity

/-- Witness for C27: the seamless engine of `main.cpp`. -/
theorem seamless_accesses_in_bounds_witness :
    (∀ x y : ℚ, ∃ v, demoMainSeamless.n2_seamless_layered demoLib x y = .ok v) ∧
    (∀ layer, layer ∈ demoMainSeamless.seamlessLayers →
      0 ≤ layer ∧ layer < demoMainSeamless.m_layerCount ∧
      layer.toNat < demoMainSeamless.m_perms.length ∧
      ∃ (t : List Nat) (limit : Int), tableAt demoMainSeamless.m_perms layer = .ok t ∧
        limitOf layer = .ok limit ∧
        ∀ a : Nat, 0 ≤ andMask a limit ∧ (andMask a limit).toNat < t.length) ∧
    demoMainSeamless.m_gradients2D.length = 8 ∧
    (∀ a : Nat, a &&& g2MaxValue < demoMainSeamless.m_gradients2D.length) ∧
    (∀ k : Nat,
      (demoMainSeamless.nextOctaveSeamless^[k] demoMainSeamless.firstOctave).f ≠ 0) :=
  seamless_accesses_in_bounds demoLib 20340 10 2 10 2048 (11 / 5) 100 demoMainSeamless
    demoMainSeamless_eq (by decide) (by decide) (by decide) (by decide)

/-! ## Weights of the seamless and the 1D layered sampler: proofs -/

theorem demoShortSeamless_eq :
    Noise.seamless demoLib 7 3 1 2 64 2 100 = .ok demoShortSeamless := by
  obtain ⟨N, hN⟩ := seamless_total demoLib 7 3 1 2 64 2 100 (by norm_num)
    (by norm_num) (by norm_num) (by norm_num) (by norm_num)
  have h : Noise.seamless demoLib 7 3 1 2 64 2 100 = .ok N := hN
  unfold demoShortSeamless
  rw [h]

theorem demoShortSeamless_built : SeamlessBuilt demoShortSeamless 3 1 2 64 2 100 :=
  (seamless_built demoLib 7 3 1 2 64 2 100 demoShortSeamless demoShortSeamless_eq).2.2.2.2

theorem demoShortSeamless_startWeight : demoShortSeamless.m_startWeight = 4 / 7 := by
  rw [demoShortSeamless_built.startWeight, startWeightOf_closed]
  have h : ((((3 : Nat) : Int) - ((1 : Nat) : Int)).toNat + 1) = 3 := by decide
  rw [h]
  norm_num [Finset.sum_range_succ]

/-- C23 (failing input): the seamless engine `Noise(7, 3, 1, 2, 64, 2.0f, 100.0f)`
(layer count 3, start layer 1, end layer 2) has start weight
`1 / (1 + 1/2 + 1/4) = 4/7`, computed over `layerCount - startLayer + 1 = 3`
octaves, while `n2_seamless_layered` accumulates
`endLayer - startLayer + 1 = 2` octaves with the weights `4/7` and `2/7` (shown at the point (5/2, 7/3)):
the weights sum to `6/7`, not `1`. -/
theorem seamless_weights_short :
    demoShortSeamless.m_startWeight = 4 / 7 ∧
    demoShortSeamless.n2SeamlessLayeredWeights = [4 / 7, 2 / 7] ∧
    demoShortSeamless.n2SeamlessLayeredWeights.sum = 6 / 7 ∧
    ∃ v0 v1,
      demoShortSeamless.octaveSampleSeamless demoLib (5 / 2) (7 / 3)
        demoShortSeamless.firstOctave 0 = .ok v0 ∧
      demoShortSeamless.octaveSampleSeamless demoLib (5 / 2) (7 / 3)
        (demoShortSeamless.nextOctaveSeamless demoShortSeamless.firstOctave) 1 = .ok v1 ∧
      demoShortSeamless.n2_seamless_layered demoLib (5 / 2) (7 / 3) =
        .ok ((v0 * (4 / 7) + v1 * (2 / 7)) * 100) := by
  have hB := demoShortSeamless_built
  have hsw := demoShortSeamless_startWeight
  have hw0 : demoShortSeamless.firstOctave.w = 4 / 7 := hsw
  have hw1 : (demoShortSeamless.nextOctaveSeamless demoShortSeamless.firstOctave).w = 2 / 7 := by
    rw [nextOctaveSeamless_w, hw0, hB.weightDivisor]
    norm_num
  have hlist : demoShortSeamless.n2SeamlessLayeredWeights = [4 / 7, 2 / 7] := by
    unfold Noise.n2SeamlessLayeredWeights
    rw [hB.startLayer, hB.endLayer]
    have h : 1 + (((2 : Nat) : Int) - ((1 : Nat) : Int)).toNat = 2 := by decide
    rw [h]
    simp only [List.range_succ, List.range_zero, List.nil_append, List.map_append, List.map_cons,
      List.map_nil, List.cons_append, Function.iterate_zero, id_eq, Function.iterate_one,
      hw0, hw1]
  refine ⟨hsw, hlist, ?_, ?_⟩
  · rw [hlist]
    norm_num
  · have hx : (0 : ℚ) ≤ 5 / 2 := by norm_num
    have hy : (0 : ℚ) ≤ 7 / 3 := by norm_num
    obtain ⟨v0, hv0⟩ := octaveSampleSeamless_ok demoLib demoShortSeamless 3 1 2 64 2 100 hB
      (by decide) (5 / 2) (7 / 3) demoShortSeamless.firstOctave 0 (by decide)
    obtain ⟨v1, hv1⟩ := octaveSampleSeamless_ok demoLib demoShortSeamless 3 1 2 64 2 100 hB
      (by decide) (5 / 2) (7 / 3)
      (demoShortSeamless.nextOctaveSeamless demoShortSeamless.firstOctave) 1
      (by decide)
    have hv0' : demoShortSeamless.octaveSampleSeamless demoLib (5 / 2) (7 / 3)
        demoShortSeamless.firstOctave 0 = .ok v0 := hv0
    have hv1' : demoShortSeamless.octaveSampleSeamless demoLib (5 / 2) (7 / 3)
        (demoShortSeamless.nextOctaveSeamless demoShortSeamless.firstOctave) 1 = .ok v1 := hv1
    refine ⟨v0, v1, hv0', hv1', ?_⟩
    unfold Noise.n2_seamless_layered
    have h1 : (((2 : Nat) : Int) - ((1 : Nat) : Int)).toNat = 1 := by decide
    have h0 : ((1 : Nat) : Int) - 1 = 0 := by decide
    simp only [hB.isSeamless, Bool.not_true, Bool.false_eq_true, if_false,
      clamp2_of_nonneg hx hy, hB.startLayer, hB.endLayer, h1, h0, hv0', okBind,
      Noise.n2SeamlessLayeredLoop, Nat.cast_one, sub_self, hv1', hw0, hw1, hB.amplitude]
    rfl

theorem demoIdentityStandard_fields :
    demoIdentityStandard.m_isSeamless = false ∧ demoIdentityStandard.m_layerCount = 1 ∧
    demoIdentityStandard.m_startFrequency = 20 ∧ demoIdentityStandard.m_frequencyFactor = 2 ∧
    demoIdentityStandard.m_weightDivisor = 2 ∧ demoIdentityStandard.m_amplitude = 42 ∧
    demoIdentityStandard.m_startWeight = 1 := by
  obtain ⟨_, h1, h2, h3, h4, h5, h6, h7, _, _⟩ :=
    standard_fields identityLib 5 1 20 2 2 42 demoIdentityStandard demoIdentityStandard_eq
  refine ⟨h1, h2, h3, h4, h5, h6, ?_⟩
  rw [h7, startWeightOf_closed]
  have h : (((1 : Int) - 1).toNat + 1) = 1 := by decide
  rw [h]
  norm_num [Finset.sum_range_succ]

/-- C24 (failing input): the standard engine `Noise(5, 1, 20, 2, 2, 42)` of
`main.cpp` has layer count 1 and start weight 1, and `n1_layered` accumulates
`layerCount + 1 = 2` octaves, with the weights `1` and `1/2` (shown at the point
5/2): the weights sum to `3/2`, not `1`. -/
theorem n1_layered_extra_octave :
    demoIdentityStandard.m_layerCount = 1 ∧ demoIdentityStandard.m_startWeight = 1 ∧
    demoIdentityStandard.n1LayeredWeights = [1, 1 / 2] ∧
    demoIdentityStandard.n1LayeredWeights.length = 2 ∧
    demoIdentityStandard.n1LayeredWeights.sum = 3 / 2 ∧
    ∃ v0 v1,
      demoIdentityStandard.n1 (5 / 2 / 20) = .ok v0 ∧
      demoIdentityStandard.n1 (5 / 2 / (20 / 2)) = .ok v1 ∧
      demoIdentityStandard.n1_layered identityLib (5 / 2) =
        .ok ((demoIdentityStandard.noiseValue identityLib v0 * 1 +
          demoIdentityStandard.noiseValue identityLib v1 * (1 / 2)) * 42) := by
  obtain ⟨hS, hL, hf, hfF, hwD, ham, hsw⟩ := demoIdentityStandard_fields
  have hw0 : demoIdentityStandard.firstOctave.w = 1 := hsw
  have hf0 : demoIdentityStandard.firstOctave.f = 20 := hf
  have hw1 : (demoIdentityStandard.nextOctave1 demoIdentityStandard.firstOctave).w = 1 / 2 := by
    show demoIdentityStandard.firstOctave.w / demoIdentityStandard.m_weightDivisor = 1 / 2
    rw [hw0, hwD]
  have hf1 : (demoIdentityStandard.nextOctave1 demoIdentityStandard.firstOctave).f = 20 / 2 := by
    show demoIdentityStandard.firstOctave.f / demoIdentityStandard.m_frequencyFactor = 20 / 2
    rw [hf0, hfF]
  have hlist : demoIdentityStandard.n1LayeredWeights = [1, 1 / 2] := by
    unfold Noise.n1LayeredWeights
    rw [hL]
    have h : 1 + (1 : Int).toNat = 2 := by decide
    rw [h]
    simp only [List.range_succ, List.range_zero, List.nil_append, List.map_append, List.map_cons,
      List.map_nil, List.cons_append, Function.iterate_zero, id_eq, Function.iterate_one,
      hw0, hw1]
  have h1D := standard_gradients1D identityLib 5 1 20 2 2 42 demoIdentityStandard
    demoIdentityStandard_eq
  obtain ⟨v0, hv0⟩ := n1_ok demoIdentityStandard demoIdentityStandard_ready h1D (5 / 2 / 20)
  obtain ⟨v1, hv1⟩ := n1_ok demoIdentityStandard demoIdentityStandard_ready h1D
    (5 / 2 / (20 / 2))
  refine ⟨hL, hsw, hlist, by rw [hlist]; rfl, by rw [hlist]; norm_num, v0, v1, hv0, hv1, ?_⟩
  have hx : (0 : ℚ) ≤ 5 / 2 := by norm_num
  have hn : (1 : Int).toNat = 1 := by decide
  unfold Noise.n1_layered
  simp only [hS, Bool.false_eq_true, if_false, clamp1_of_nonneg hx, hL, hn, hf0, hv0, okBind,
    Noise.n1LayeredLoop, hf1, hv1, hw0, hw1, ham]
  rfl

/-! ## Mutators and the start weight: proofs -/

theorem n2LayeredWeights_two (N : Noise) (hL : N.m_layerCount = 2) (hw : N.m_startWeight = 1)
    (hd : N.m_weightDivisor = 2) : N.n2LayeredWeights = [1, 1 / 2] := by
  have hw0 : N.firstOctave.w = 1 := hw
  have hw1 : (N.nextOctave2 N.firstOctave).w = 1 / 2 := by
    show N.firstOctave.w / N.m_weightDivisor = 1 / 2
    rw [hw0, hd]
  unfold Noise.n2LayeredWeights
  rw [hL]
  have h : 1 + ((2 : Int) - 1).toNat = 2 := by decide
  rw [h]
  simp only [List.range_succ, List.range_zero, List.nil_append, List.map_append, List.map_cons,
    List.map_nil, List.cons_append, Function.iterate_zero, id_eq, Function.iterate_one,
    hw0, hw1]

theorem setLayerCount_fields (N : Noise) (k : Int) :
    (N.setLayerCount k).m_layerCount = k ∧
    (N.setLayerCount k).m_startWeight = N.m_startWeight ∧
    (N.setLayerCount k).m_weightDivisor = N.m_weightDivisor ∧
    (N.setLayerCount k).m_amplitude = N.m_amplitude ∧
    (N.setLayerCount k).m_isSeamless = N.m_isSeamless :=
  ⟨rfl, rfl, rfl, rfl, rfl⟩

theorem setLayerCount_ready (N : Noise) (h : StandardReady N) (k : Int) :
    StandardReady (N.setLayerCount k) :=
  ⟨h.notSeamless, h.permLength, h.gradientsLength⟩

theorem setters_fields (N : Noise) (k : Int) (sF fF wD a : ℚ) :
    (((((N.setLayerCount k).setStartFrequency sF).setFrequencyFactor fF).setWeightDivisor
      wD).setAmplitude a).m_layerCount = k ∧
    (((((N.setLayerCount k).setStartFrequency sF).setFrequencyFactor fF).setWeightDivisor
      wD).setAmplitude a).m_weightDivisor = wD ∧
    (((((N.setLayerCount k).setStartFrequency sF).setFrequencyFactor fF).setWeightDivisor
      wD).setAmplitude a).m_startWeight = N.m_startWeight :=
  ⟨rfl, rfl, rfl⟩

theorem setNewSeed_startWeight (lib : Lib) (A : Noise) (hA : A.m_isSeamless = false) (s : Int) :
    ∃ N, A.setNewSeed lib s = .ok N ∧ N.m_startWeight = A.m_startWeight := by
  rw [setNewSeed_standard lib A hA s]
  exact ⟨_, rfl, rfl⟩

theorem setNoise_standard (lib : Lib) (T : Terrain) (hS : T.m_noise.m_isSeamless = false)
    (seed : Int) (lC : Nat) (sF fF wD a : ℚ) :
    ∃ T1, T.setNoise lib seed lC sF fF wD a = .ok T1 ∧
      T1.m_noise.m_layerCount = unsignedToInt lC ∧ T1.m_noise.m_weightDivisor = wD ∧
      T1.m_noise.m_startWeight = T.m_noise.m_startWeight := by
  obtain ⟨N, hN, hw⟩ := setNewSeed_startWeight lib T.m_noise hS seed
  obtain ⟨f1, f2, f3⟩ := setters_fields N (unsignedToInt lC) sF fF wD a
  unfold Terrain.setNoise
  rw [hN]
  exact ⟨_, rfl, f1, f2, f3.trans hw⟩

theorem two_octaves (lib : Lib) (N : Noise) (hR : StandardReady N) (hL : N.m_layerCount = 2)
    (hw : N.m_startWeight = 1) (hd : N.m_weightDivisor = 2) (ham : N.m_amplitude = 42)
    (x y : ℚ) (hx : 0 ≤ x) (hy : 0 ≤ y) :
    ∃ v0 v1, N.octaveSample2 lib x y N.firstOctave = .ok v0 ∧
      N.octaveSample2 lib x y (N.nextOctave2 N.firstOctave) = .ok v1 ∧
      N.n2_layered lib x y = .ok ((v0 * 1 + v1 * (1 / 2)) * 42) := by
  have hw0 : N.firstOctave.w = 1 := hw
  have hw1 : (N.nextOctave2 N.firstOctave).w = 1 / 2 := by
    show N.firstOctave.w / N.m_weightDivisor = 1 / 2
    rw [hw0, hd]
  obtain ⟨v0, hv0⟩ := octaveSample2_ok lib N hR x y N.firstOctave
  obtain ⟨v1, hv1⟩ := octaveSample2_ok lib N hR x y (N.nextOctave2 N.firstOctave)
  refine ⟨v0, v1, hv0, hv1, ?_⟩
  have hn : (N.m_layerCount - 1).toNat = 1 := by
    rw [hL]
    decide
  unfold Noise.n2_layered
  simp only [hR.notSeamless, Bool.false_eq_true, if_false, clamp2_of_nonneg hx hy, hn, hv0,
    okBind, Noise.n2LayeredLoop, hv1, hw0, hw1, ham]
  rfl

/-- C22 (failing input): the engine `Noise(5, 1, 20, 2, 2, 42)` of `main.cpp`
has start weight 1, computed by the constructor for one layer.  After
`setLayerCount(2)` (the layer button of the GUI), and likewise after
`Terrain::setNoise(5, 2, 20, 2, 2, 42)`, the start weight is still 1 and
`n2_layered` accumulates two octaves with the weights `1` and `1/2` (shown at
the point (5/2, 7/3)): the weights sum to `3/2`, not `1`. -/
theorem setLayerCount_stale_weight :
    demoIdentityStandard.m_startWeight = 1 ∧
    (demoIdentityStandard.setLayerCount 2).m_startWeight = 1 ∧
    (demoIdentityStandard.setLayerCount 2).n2LayeredWeights = [1, 1 / 2] ∧
    (demoIdentityStandard.setLayerCount 2).n2LayeredWeights.sum = 3 / 2 ∧
    (∃ v0 v1,
      (demoIdentityStandard.setLayerCount 2).octaveSample2 identityLib (5 / 2) (7 / 3)
        (demoIdentityStandard.setLayerCount 2).firstOctave = .ok v0 ∧
      (demoIdentityStandard.setLayerCount 2).octaveSample2 identityLib (5 / 2) (7 / 3)
        ((demoIdentityStandard.setLayerCount 2).nextOctave2
          (demoIdentityStandard.setLayerCount 2).firstOctave) = .ok v1 ∧
      (demoIdentityStandard.setLayerCount 2).n2_layered identityLib (5 / 2) (7 / 3) =
        .ok ((v0 * 1 + v1 * (1 / 2)) * 42)) ∧
    ∃ T1, demoIdentityTerrain.setNoise identityLib 5 2 20 2 2 42 = .ok T1 ∧
      T1.m_noise.m_layerCount = 2 ∧ T1.m_noise.m_weightDivisor = 2 ∧
      T1.m_noise.n2LayeredWeights = [1, 1 / 2] ∧ T1.m_noise.n2LayeredWeights.sum = 3 / 2 := by
  obtain ⟨hS, hL, hf, hfF, hwD, ham, hsw⟩ := demoIdentityStandard_fields
  obtain ⟨g1, g2, g3, g4, g5⟩ := setLayerCount_fields demoIdentityStandard 2
  have hR := setLayerCount_ready demoIdentityStandard demoIdentityStandard_ready 2
  have hlist : (demoIdentityStandard.setLayerCount 2).n2LayeredWeights = [1, 1 / 2] :=
    n2LayeredWeights_two _ g1 (g2.trans hsw) (g3.trans hwD)
  refine ⟨hsw, g2.trans hsw, hlist, by rw [hlist]; norm_num, ?_, ?_⟩
  · exact two_octaves identityLib _ hR g1 (g2.trans hsw) (g3.trans hwD) (g4.trans ham)
      (5 / 2) (7 / 3) (by norm_num) (by norm_num)
  · have hT : demoIdentityTerrain.m_noise = demoIdentityStandard := rfl
    obtain ⟨T1, hT1, h1, h2, h3⟩ := setNoise_standard identityLib demoIdentityTerrain
      (by rw [hT]; exact hS) 5 2 20 2 2 42
    have h1' : T1.m_noise.m_layerCount = 2 := by
      rw [h1]
      decide
    have h3' : T1.m_noise.m_startWeight = 1 := by
      rw [h3, hT]
      exact hsw
    have hl := n2LayeredWeights_two T1.m_noise h1' h3' h2
    exact ⟨T1, hT1, h1', h2, hl, by rw [hl]; norm_num⟩

/-! ## The two elevation branches of the normal map: proofs -/

theorem tableAt_map {α β : Type} (f : α → β) (t : List α) (i : Int) :
    tableAt (t.map f) i =
      (match tableAt t i with
       | .error e => .error e
       | .ok v => .ok (f v)) := by
  unfold tableAt
  by_cases hi : i < 0
  · simp only [if_pos hi]
  · simp only [if_neg hi, List.getElem?_map]
    cases t[i.toNat]? <;> rfl

theorem neighbour_map {K : Type} (f : K → K) (c : Bool) (nv : List K) (i : Nat) (px pz : K) :
    neighbour c (nv.map f) i px pz =
      (match neighbour c nv i px pz with
       | .error e => .error e
       | .ok o => .ok (o.map (fun v => ⟨v.x, f v.y, v.z⟩))) := by
  unfold neighbour
  cases c with
  | false => rfl
  | true =>
    simp only [if_true, tableAt_map]
    cases tableAt nv (i : Int) <;> rfl

theorem pairNormal_shift {K : Type} [Field K] (c : K) (a b : Option (Vector3 K))
    (cur : Vector3 K) :
    pairNormal (a.map (fun v => ⟨v.x, v.y - c, v.z⟩)) (b.map (fun v => ⟨v.x, v.y - c, v.z⟩))
      ⟨cur.x, cur.y - c, cur.z⟩ = pairNormal a b cur := by
  cases a with
  | none => rfl
  | some a =>
    cases b with
    | none => rfl
    | some b =>
      simp only [Option.map_some', pairNormal, Vector3.neg, Vector3.cross, Vector3.sub]
      congr 1 <;> ring

theorem normalSum_shift {K : Type} [Field K] (c : K) (L B R T : Option (Vector3 K))
    (cur : Vector3 K) :
    normalSum ⟨cur.x, cur.y - c, cur.z⟩
      (L.map (fun v => ⟨v.x, v.y - c, v.z⟩), B.map (fun v => ⟨v.x, v.y - c, v.z⟩),
        R.map (fun v => ⟨v.x, v.y - c, v.z⟩), T.map (fun v => ⟨v.x, v.y - c, v.z⟩)) =
      normalSum cur (L, B, R, T) := by
  simp only [normalSum, pairNormal_shift]

theorem normalStep_shift {K : Type} [Field K] (sqrt : K → K) (cx cz : Nat → K) (w h : Nat)
    (nv : List K) (c : K) (x z : Nat) (s : NormalState K) :
    normalStep sqrt cx cz w h (nv.map (fun v => v - c)) x z s =
      normalStep sqrt cx cz w h nv x z s := by
  unfold normalStep texelNeighbours
  simp only [tableAt_map, neighbour_map]
  cases tableAt nv (s.index : Int) with
  | error e => rfl
  | ok e =>
    cases neighbour (decide (0 < x)) nv (s.index - 1) (cx (x - 1)) (cz z) with
    | error e1 => rfl
    | ok L =>
      cases neighbour (decide (0 < z)) nv (s.index - w) (cx x) (cz (z - 1)) with
      | error e2 => rfl
      | ok B =>
        cases neighbour (decide (x < u32Sub w 1)) nv (s.index + 1) (cx (x + 1)) (cz z) with
        | error e3 => rfl
        | ok R =>
          cases neighbour (decide (z < u32Sub h 1)) nv (s.index + w) (cx x) (cz (z + 1)) with
          | error e4 => rfl
          | ok T =>
            simp only
            rw [normalSum_shift c L B R T ⟨cx x, e, cz z⟩]

theorem normalsOf_shift {K : Type} [Field K] (sqrt : K → K) (cx cz : Nat → K) (w h : Nat)
    (nv : List K) (c : K) :
    normalsOf sqrt cx cz w h (nv.map (fun v => v - c)) = normalsOf sqrt cx cz w h nv := by
  have hstep : normalStep sqrt cx cz w h (nv.map (fun v => v - c)) =
      normalStep sqrt cx cz w h nv := by
    funext x z s
    exact normalStep_shift sqrt cx cz w h nv c x z s
  unfold normalsOf
  rw [hstep]

theorem normalsOf_total {K : Type} [Field K] (sqrt : K → K) (cx cz : Nat → K) (w h : Nat)
    (nv : List K) (hw : 2 ≤ w) (hwlt : w < u32Size) (hh : 2 ≤ h) (hhlt : h < u32Size)
    (hlen : nv.length = w * h) :
    ∃ m, normalsOf sqrt cx cz w h nv = .ok m ∧ m.length = w * h := by
  obtain ⟨s1, hs1, h1, h2⟩ := gridLoop_inv (normalStep sqrt cx cz w h nv)
    (fun k s => s.index = k ∧ s.normals.length = k)
    w h { normals := [], index := 0 } ⟨rfl, rfl⟩
    (by
      intro x z t hx hz hP
      obtain ⟨p1, p2⟩ := hP
      obtain ⟨L, B, R, T, hn, _⟩ :=
        texelNeighbours_read cx cz w h nv hw hwlt hh hhlt hlen x z hx hz
      have hi : t.index < nv.length := by
        rw [p1, hlen]
        exact grid_index_lt w h x z hx hz
      rw [← p1] at hn
      refine ⟨⟨t.normals ++ [(normalSum ⟨cx x, nv[t.index], cz z⟩ (L, B, R, T)).normalize sqrt],
        t.index + 1⟩, ?_, ?_, ?_⟩
      · simp only [normalStep, tableAt_natCast_ok hi, hn]
      · show t.index + 1 = z * w + x + 1
        rw [p1]
      · show (t.normals ++ _).length = z * w + x + 1
        rw [List.length_append, p2]
        rfl)
  refine ⟨s1.normals, ?_, h2⟩
  simp only [normalsOf, hs1]

theorem gridLoop_collect (g : Nat → Nat → Except Fault ℚ) (G : Nat → ℚ) (w h : Nat)
    (hg : ∀ x y, x < w → y < h → g x y = .ok (G (y * w + x))) :
    gridLoop (fun x y (nv : List ℚ) =>
        match g x y with
        | .error f => .error f
        | .ok v => .ok (nv ++ [v])) w h [] = .ok ((List.range (w * h)).map G) := by
  obtain ⟨s1, hs1, hP⟩ := gridLoop_inv (fun x y (nv : List ℚ) =>
        match g x y with
        | .error f => .error f
        | .ok v => .ok (nv ++ [v]))
    (fun k s => s = (List.range k).map G) w h [] rfl
    (by
      intro x y t hx hy hP
      refine ⟨t ++ [G (y * w + x)], ?_, ?_⟩
      · simp only [hg x y hx hy]
      · show t ++ [G (y * w + x)] = (List.range (y * w + x + 1)).map G
        rw [hP, List.range_succ, List.map_append, List.map_singleton])
  rw [hs1, hP]

theorem gridLoop_vertices (V : List Vertex) (G : Nat → ℚ) (w h : Nat)
    (hV : ∀ j, j < w * h → ∃ v, V[j]? = some v ∧ v.pos.y = G j) :
    gridLoop (fun _ _ (s : List ℚ × Nat) =>
        match V[s.2]? with
        | none => .error .outOfRange
        | some v => .ok (s.1 ++ [v.pos.y], s.2 + 1)) w h ([], 0) =
      .ok ((List.range (w * h)).map G, w * h) := by
  obtain ⟨s1, hs1, hP1, hP2⟩ := gridLoop_inv (fun _ _ (s : List ℚ × Nat) =>
        match V[s.2]? with
        | none => .error .outOfRange
        | some v => .ok (s.1 ++ [v.pos.y], s.2 + 1))
    (fun k s => s.1 = (List.range k).map G ∧ s.2 = k) w h ([], 0) ⟨rfl, rfl⟩
    (by
      intro x y t hx hy hP
      obtain ⟨p1, p2⟩ := hP
      obtain ⟨v, hv, hy1⟩ := hV (y * w + x) (grid_index_lt w h x y hx hy)
      refine ⟨(t.1 ++ [G (y * w + x)], y * w + x + 1), ?_, ?_, rfl⟩
      · simp only [p2, hv, hy1]
      · show t.1 ++ [G (y * w + x)] = (List.range (y * w + x + 1)).map G
        rw [p1, List.range_succ, List.map_append, List.map_singleton])
  rw [hs1]
  congr 1
  exact Prod.ext hP1 hP2

theorem verticesBuilt_frame (T T1 : Terrain) (G : Nat → ℚ) (h0 : ℚ)
    (hB : VerticesBuilt T T1 G h0) :
    T1.m_vpr = T.m_vpr ∧ T1.m_vpc = T.m_vpc ∧ T1.m_normalMapWidth = T.m_normalMapWidth ∧
    T1.m_normalMapHeight = T.m_normalMapHeight ∧ T1.m_noise = T.m_noise ∧
    T1.m_surfaceWidth = T.m_surfaceWidth ∧ T1.m_surfaceDepth = T.m_surfaceDepth := by
  have hf := hB.frame
  refine ⟨?_, ?_, ?_, ?_, ?_, ?_, ?_⟩ <;> rw [hf]

theorem mapX_same (T : Terrain) (hw : T.m_normalMapWidth = T.m_vpr) (hr : 2 ≤ T.m_vpr)
    (hlt : T.m_vpr < u32Size) (x : Nat) :
    (T.mapX x : ℚ) = (x : ℚ) * (T.m_surfaceWidth / (T.m_vpr : ℚ)) := by
  unfold Terrain.mapX
  rw [hw, u32Sub_one (by omega) hlt]
  have hd : (((T.m_vpr - 1 : Nat)) : ℚ) ≠ 0 := by
    have : 0 < T.m_vpr - 1 := by omega
    exact_mod_cast this.ne'
  rw [div_self hd, div_one, Rat.cast_id]

theorem mapZ_same (T : Terrain) (hh : T.m_normalMapHeight = T.m_vpc) (hc : 2 ≤ T.m_vpc)
    (hlt : T.m_vpc < u32Size) (z : Nat) :
    (T.mapZ z : ℚ) = (z : ℚ) * (T.m_surfaceDepth / (T.m_vpc : ℚ)) := by
  unfold Terrain.mapZ
  rw [hh, u32Sub_one (by omega) hlt]
  have hd : (((T.m_vpc - 1 : Nat)) : ℚ) ≠ 0 := by
    have : 0 < T.m_vpc - 1 := by omega
    exact_mod_cast this.ne'
  rw [div_self hd, div_one, Rat.cast_id]

/-- C28: let the normal map have the dimensions of the vertex grid (at least
2 x 2, vertex count a value of `unsigned`) and let `calculateVertices` have
built the vertices from a standard engine.  Then both branches of
`calculateNormalMap` that fill `noise_values` return an array of
`width * height` elevations; the array `a` of the branch that reuses the vertex
heights (the branch taken) is the array `b` of the resampling branch with the
constant `m_min` subtracted from every entry, and the normal loop returns the
same list of `width * height` normals for both. -/
theorem normalMap_branches_agree (lib : Lib) (T : Terrain) (hN : StandardReady T.m_noise)
    (hn : T.m_vpr * T.m_vpc < u32Size) (hr : 2 ≤ T.m_vpr) (hc : 2 ≤ T.m_vpc)
    (hw : T.m_normalMapWidth = T.m_vpr) (hh : T.m_normalMapHeight = T.m_vpc) :
    ∃ T1 a b m, T.calculateVertices lib = .ok T1 ∧
      T1.vertexElevations = .ok a ∧ T1.resampledElevations lib = .ok b ∧
      T1.normalMapElevations lib = .ok a ∧
      b.length = T1.m_normalMapWidth * T1.m_normalMapHeight ∧
      a = b.map (fun v => v - T1.m_min) ∧
      T1.normalMapNormals lib.sqrt a = .ok m ∧ T1.normalMapNormals lib.sqrt b = .ok m ∧
      m.length = T1.m_normalMapWidth * T1.m_normalMapHeight := by
  obtain ⟨H, T1, hH, hT1, hB⟩ := calculateVertices_total lib T hN hn
  obtain ⟨f1, f2, f3, f4, f5, f6, f7⟩ := verticesBuilt_frame T T1 _ _ hB
  have hrlt : T.m_vpr < u32Size := by
    have : T.m_vpr ≤ T.m_vpr * T.m_vpc := Nat.le_mul_of_pos_right _ (by omega)
    omega
  have hclt : T.m_vpc < u32Size := by
    have : T.m_vpc ≤ T.m_vpr * T.m_vpc := Nat.le_mul_of_pos_left _ (by omega)
    omega
  have hw1 : T1.m_normalMapWidth = T1.m_vpr := by rw [f3, f1]; exact hw
  have hh1 : T1.m_normalMapHeight = T1.m_vpc := by rw [f4, f2]; exact hh
  have hb : T1.resampledElevations lib =
      .ok ((List.range (T.m_vpr * T.m_vpc)).map (fun j => H (j % T.m_vpr) (j / T.m_vpr))) := by
    unfold Terrain.resampledElevations
    rw [hw1, hh1, f1, f2]
    apply gridLoop_collect (fun x y => T1.m_noise.n2_layered lib (T1.mapX x) (T1.mapZ y))
      (fun j => H (j % T.m_vpr) (j / T.m_vpr))
    intro x y hx hy
    obtain ⟨e1, e2⟩ := grid_index T.m_vpr x y hx
    have hs := hH x y
    unfold Terrain.rawSample at hs
    simp only [e1, e2]
    rw [mapX_same T1 hw1 (by rw [f1]; exact hr) (by rw [f1]; exact hrlt),
      mapZ_same T1 hh1 (by rw [f2]; exact hc) (by rw [f2]; exact hclt), f1, f2, f5, f6, f7]
    exact hs
  have ha : T1.vertexElevations =
      .ok ((List.range (T.m_vpr * T.m_vpc)).map
        (fun j => H (j % T.m_vpr) (j / T.m_vpr) - T1.m_min)) := by
    unfold Terrain.vertexElevations
    rw [hw1, hh1, f1, f2, gridLoop_vertices T1.m_vertices
      (fun j => H (j % T.m_vpr) (j / T.m_vpr) - T1.m_min) T.m_vpr T.m_vpc
      (fun j hj => ⟨_, hB.vertices j hj, rfl⟩)]
  have hab : (List.range (T.m_vpr * T.m_vpc)).map
        (fun j => H (j % T.m_vpr) (j / T.m_vpr) - T1.m_min) =
      ((List.range (T.m_vpr * T.m_vpc)).map (fun j => H (j % T.m_vpr) (j / T.m_vpr))).map
        (fun v => v - T1.m_min) := by
    rw [List.map_map]
    rfl
  have hlen : ((List.range (T.m_vpr * T.m_vpc)).map
      (fun j => H (j % T.m_vpr) (j / T.m_vpr))).length =
      T1.m_normalMapWidth * T1.m_normalMapHeight := by
    rw [List.length_map, List.length_range, hw1, hh1, f1, f2]
  obtain ⟨m, hm, hml⟩ := normalsOf_total lib.sqrt T1.mapX T1.mapZ T1.m_normalMapWidth
    T1.m_normalMapHeight _ (by rw [hw1, f1]; exact hr) (by rw [hw1, f1]; exact hrlt)
    (by rw [hh1, f2]; exact hc) (by rw [hh1, f2]; exact hclt) hlen
  refine ⟨T1, _, _, m, hT1, ha, hb, ?_, hlen, hab, ?_, hm, hml⟩
  · unfold Terrain.normalMapElevations
    rw [if_neg (by rw [hw1, hh1]; simp), ha]
  · rw [hab]
    unfold Terrain.normalMapNormals
    rw [normalsOf_shift]
    exact hm

/-- Witness for C28: the 256 x 256 vertex grid with the 256 x 256 normal map on
the sample standard engine. -/
theorem normalMap_branches_agree_witness :
    ∃ T1 a b m, demoSquareTerrain.calculateVertices demoLib = .ok T1 ∧
      T1.vertexElevations = .ok a ∧ T1.resampledElevations demoLib = .ok b ∧
      T1.normalMapElevations demoLib = .ok a ∧
      b.length = T1.m_normalMapWidth * T1.m_normalMapHeight ∧
      a = b.map (fun v => v - T1.m_min) ∧
      T1.normalMapNormals demoLib.sqrt a = .ok m ∧ T1.normalMapNormals demoLib.sqrt b = .ok m ∧
      m.length = T1.m_normalMapWidth * T1.m_normalMapHeight :=
  normalMap_branches_agree demoLib demoSquareTerrain
    (standard_ready demoLib 5 3 20 2 2 42 demoBuiltStandard demoBuiltStandard_eq)
    (by unfold u32Size; decide) (by decide) (by decide) rfl rfl

/-! ## Height range and amplitude: proofs -/

set_option maxRecDepth 100000 in
theorem initPerm_crafted : initPerm craftedStream = (List.range 256).map craftedPerm := by
  decide

theorem standard_type (lib : Lib) (seed lC : Int) (fS fF wD am : ℚ) (N : Noise)
    (h : Noise.standard lib seed lC fS fF wD am = .ok N) : N.m_type = NoiseType.PerlinNoise := by
  unfold Noise.standard at h
  split at h
  · cases h
  split at h
  · cases h
  split at h
  · cases h
  split at h
  · cases h
  split at h
  · cases h
  simp only at h
  injection h with h
  subst h
  rfl

theorem demoCraftedStandard_eq :
    Noise.standard craftedLib 5 1 20 2 2 42 = .ok demoCraftedStandard := by
  obtain ⟨N, hN⟩ := standard_total craftedLib 5 1 20 2 2 42 (by norm_num) (by norm_num)
    (by norm_num) (by norm_num) (by norm_num)
  unfold demoCraftedStandard
  rw [hN]

theorem demoCraftedStandard_ready : StandardReady demoCraftedStandard :=
  standard_ready craftedLib 5 1 20 2 2 42 demoCraftedStandard demoCraftedStandard_eq

theorem demoCraftedStandard_fields :
    demoCraftedStandard.m_isSeamless = false ∧ demoCraftedStandard.m_layerCount = 1 ∧
    demoCraftedStandard.m_startFrequency = 20 ∧ demoCraftedStandard.m_amplitude = 42 ∧
    demoCraftedStandard.m_startWeight = 1 ∧
    demoCraftedStandard.m_type = NoiseType.PerlinNoise := by
  obtain ⟨_, h1, h2, h3, _, _, h6, h7, _, _⟩ :=
    standard_fields craftedLib 5 1 20 2 2 42 demoCraftedStandard demoCraftedStandard_eq
  refine ⟨h1, h2, h3, h6, ?_,
    standard_type craftedLib 5 1 20 2 2 42 demoCraftedStandard demoCraftedStandard_eq⟩
  rw [h7, startWeightOf_closed]
  have h : (((1 : Int) - 1).toNat + 1) = 1 := by decide
  rw [h]
  norm_num [Finset.sum_range_succ]

theorem demoCraftedStandard_perm :
    demoCraftedStandard.m_perm = (List.range 256).map craftedPerm := by
  obtain ⟨hp, _, _⟩ := standard_tables_of craftedLib 5 1 20 2 2 42 demoCraftedStandard
    demoCraftedStandard_eq
  rw [hp]
  exact initPerm_crafted

theorem demoCraftedStandard_gradients :
    demoCraftedStandard.m_gradients2D = gradients2DLoop craftedLib g2Size 0 [] :=
  (standard_tables_of craftedLib 5 1 20 2 2 42 demoCraftedStandard
    demoCraftedStandard_eq).2.2

theorem mapped_at (N : Noise) (f : Nat → Nat) (hp : N.m_perm = (List.range 256).map f)
    (k : Nat) (hk : k < 256) : tableAt N.m_perm (k : Int) = .ok (f k) := by
  have hlen : k < N.m_perm.length := by
    rw [hp, List.length_map, List.length_range]
    exact hk
  rw [tableAt_natCast_ok hlen]
  congr 1
  simp only [hp, List.getElem_map, List.getElem_range]

theorem crafted_at (k : Nat) (hk : k < 256) :
    tableAt demoCraftedStandard.m_perm (k : Int) = .ok (craftedPerm k) :=
  mapped_at demoCraftedStandard craftedPerm demoCraftedStandard_perm k hk

theorem octantIndex_at (k : Nat) (hk : k < 8) :
    octantIndex (0 + (k : ℚ) * (tau / (g2Size : ℚ))) = k := by
  have ht : (0 : ℚ) < tau / (g2Size : ℚ) := by
    unfold tau g2Size
    norm_num
  have hk0 : (0 : ℚ) ≤ (k : ℚ) := Nat.cast_nonneg k
  unfold octantIndex
  rw [zero_add, abs_of_nonneg (mul_nonneg hk0 ht.le), mul_div_assoc, div_self ht.ne', mul_one]
  have hf : ⌊(k : ℚ) + 1 / 2⌋₊ = k := by
    rw [Nat.floor_eq_iff (by positivity)]
    constructor <;> linarith
  rw [hf]
  exact Nat.mod_eq_of_lt hk

theorem crafted_gradient (k : Nat) (hk : k < 8) :
    tableAt demoCraftedStandard.m_gradients2D (k : Int) = .ok ⟨octantCos k, octantSin k⟩ := by
  rw [gradient_at craftedLib _ demoCraftedStandard_gradients k hk]
  have hnn : ¬ ((0 : ℚ) + (k : ℚ) * (tau / (g2Size : ℚ)) < 0) := by
    have ht : (0 : ℚ) < tau / (g2Size : ℚ) := by
      unfold tau g2Size
      norm_num
    have hk0 : (0 : ℚ) ≤ (k : ℚ) := Nat.cast_nonneg k
    have := mul_nonneg hk0 ht.le
    linarith
  have hc : ∀ a, craftedLib.cos a = octantCos (octantIndex a) := fun a => rfl
  have hs : ∀ a, craftedLib.sin a =
      if a < 0 then -octantSin (octantIndex a) else octantSin (octantIndex a) := fun a => rfl
  rw [hc, hs, if_neg hnn, octantIndex_at k hk]

theorem intPart_of (x : ℚ) (n : Nat) (h0 : (n : ℚ) ≤ x) (h1 : x < (n : ℚ) + 1) :
    intPart x = n := by
  unfold intPart
  rw [Nat.floor_eq_iff (le_trans (Nat.cast_nonneg n) h0)]
  exact ⟨h0, h1⟩

theorem crafted_n2_high :
    demoCraftedStandard.n2 (2519 / 5000) (3769 / 2500) =
      .ok (blend2 (2519 / 5000) (1269 / 2500) ⟨octantCos 1, octantSin 1⟩
        ⟨octantCos 3, octantSin 3⟩ ⟨octantCos 7, octantSin 7⟩ ⟨octantCos 5, octantSin 5⟩) := by
  have hX : intPart (2519 / 5000) = 0 := intPart_of _ 0 (by norm_num) (by norm_num)
  have hY : intPart (3769 / 2500) = 1 := intPart_of _ 1 (by norm_num) (by norm_num)
  have pY : tableAt demoCraftedStandard.m_perm ((1 &&& maxValue : Nat) : Int) = .ok 16 :=
    crafted_at 1 (by decide)
  have pXY : tableAt demoCraftedStandard.m_perm (((0 + 16) &&& maxValue : Nat) : Int) = .ok 1 :=
    crafted_at 16 (by decide)
  have pX1Y : tableAt demoCraftedStandard.m_perm ((((0 + 1) + 16) &&& maxValue : Nat) : Int) =
      .ok 3 := crafted_at 17 (by decide)
  have pY1 : tableAt demoCraftedStandard.m_perm (((1 + 1) &&& maxValue : Nat) : Int) = .ok 32 :=
    crafted_at 2 (by decide)
  have pXY1 : tableAt demoCraftedStandard.m_perm (((0 + 32) &&& maxValue : Nat) : Int) =
      .ok 39 := crafted_at 32 (by decide)
  have pX1Y1 : tableAt demoCraftedStandard.m_perm ((((0 + 1) + 32) &&& maxValue : Nat) : Int) =
      .ok 37 := crafted_at 33 (by decide)
  have q1 : tableAt demoCraftedStandard.m_gradients2D ((1 &&& g2MaxValue : Nat) : Int) = _ :=
    crafted_gradient 1 (by decide)
  have q3 : tableAt demoCraftedStandard.m_gradients2D ((3 &&& g2MaxValue : Nat) : Int) = _ :=
    crafted_gradient 3 (by decide)
  have q7 : tableAt demoCraftedStandard.m_gradients2D ((39 &&& g2MaxValue : Nat) : Int) = _ :=
    crafted_gradient 7 (by decide)
  have q5 : tableAt demoCraftedStandard.m_gradients2D ((37 &&& g2MaxValue : Nat) : Int) = _ :=
    crafted_gradient 5 (by decide)
  have e1 : (2519 / 5000 : ℚ) - ((0 : Nat) : ℚ) = 2519 / 5000 := by norm_num
  have e2 : (3769 / 2500 : ℚ) - ((1 : Nat) : ℚ) = 1269 / 2500 := by norm_num
  unfold Noise.n2
  simp only [demoCraftedStandard_ready.notSeamless, Bool.false_eq_true, if_false,
    clamp2_of_nonneg (show (0 : ℚ) ≤ 2519 / 5000 by norm_num)
      (show (0 : ℚ) ≤ 3769 / 2500 by norm_num), hX, hY, pY, okBind, pXY, q1, pX1Y, q3, pY1,
    pXY1, q7, pX1Y1, q5, e1, e2]
  rfl

theorem crafted_n2_low :
    demoCraftedStandard.n2 (12519 / 5000) (3769 / 2500) =
      .ok (blend2 (2519 / 5000) (1269 / 2500) ⟨octantCos 5, octantSin 5⟩
        ⟨octantCos 7, octantSin 7⟩ ⟨octantCos 3, octantSin 3⟩ ⟨octantCos 1, octantSin 1⟩) := by
  have hX : intPart (12519 / 5000) = 2 := intPart_of _ 2 (by norm_num) (by norm_num)
  have hY : intPart (3769 / 2500) = 1 := intPart_of _ 1 (by norm_num) (by norm_num)
  have pY : tableAt demoCraftedStandard.m_perm ((1 &&& maxValue : Nat) : Int) = .ok 16 :=
    crafted_at 1 (by decide)
  have pXY : tableAt demoCraftedStandard.m_perm (((2 + 16) &&& maxValue : Nat) : Int) = .ok 5 :=
    crafted_at 18 (by decide)
  have pX1Y : tableAt demoCraftedStandard.m_perm ((((2 + 1) + 16) &&& maxValue : Nat) : Int) =
      .ok 7 := crafted_at 19 (by decide)
  have pY1 : tableAt demoCraftedStandard.m_perm (((1 + 1) &&& maxValue : Nat) : Int) = .ok 32 :=
    crafted_at 2 (by decide)
  have pXY1 : tableAt demoCraftedStandard.m_perm (((2 + 32) &&& maxValue : Nat) : Int) =
      .ok 35 := crafted_at 34 (by decide)
  have pX1Y1 : tableAt demoCraftedStandard.m_perm ((((2 + 1) + 32) &&& maxValue : Nat) : Int) =
      .ok 41 := crafted_at 35 (by decide)
  have q5 : tableAt demoCraftedStandard.m_gradients2D ((5 &&& g2MaxValue : Nat) : Int) = _ :=
    crafted_gradient 5 (by decide)
  have q7 : tableAt demoCraftedStandard.m_gradients2D ((7 &&& g2MaxValue : Nat) : Int) = _ :=
    crafted_gradient 7 (by decide)
  have q3 : tableAt demoCraftedStandard.m_gradients2D ((35 &&& g2MaxValue : Nat) : Int) = _ :=
    crafted_gradient 3 (by decide)
  have q1 : tableAt demoCraftedStandard.m_gradients2D ((41 &&& g2MaxValue : Nat) : Int) = _ :=
    crafted_gradient 1 (by decide)
  have e1 : (12519 / 5000 : ℚ) - ((2 : Nat) : ℚ) = 2519 / 5000 := by norm_num
  have e2 : (3769 / 2500 : ℚ) - ((1 : Nat) : ℚ) = 1269 / 2500 := by norm_num
  unfold Noise.n2
  simp only [demoCraftedStandard_ready.notSeamless, Bool.false_eq_true, if_false,
    clamp2_of_nonneg (show (0 : ℚ) ≤ 12519 / 5000 by norm_num)
      (show (0 : ℚ) ≤ 3769 / 2500 by norm_num), hX, hY, pY, okBind, pXY, q5, pX1Y, q7, pY1,
    pXY1, q3, pX1Y1, q1, e1, e2]
  rfl

theorem crafted_blend_high :
    blend2 (2519 / 5000) (1269 / 2500) ⟨octantCos 1, octantSin 1⟩
      ⟨octantCos 3, octantSin 3⟩ ⟨octantCos 7, octantSin 7⟩ ⟨octantCos 5, octantSin 5⟩ =
      5522723263579169291942511 / 7812500000000000000000000 := by
  unfold blend2 S1 octantCos octantSin
  norm_num

theorem crafted_blend_low :
    blend2 (2519 / 5000) (1269 / 2500) ⟨octantCos 5, octantSin 5⟩
      ⟨octantCos 7, octantSin 7⟩ ⟨octantCos 3, octantSin 3⟩ ⟨octantCos 1, octantSin 1⟩ =
      -(5522723263579169291942511 / 7812500000000000000000000) := by
  unfold blend2 S1 octantCos octantSin
  norm_num

theorem crafted_layered (x y v : ℚ) (hx : 0 ≤ x) (hy : 0 ≤ y)
    (hv : demoCraftedStandard.n2 ((x + 719 / 100) * (20 / 1000))
      ((y + 719 / 100 * 2) * (20 / 1000)) = .ok v) :
    demoCraftedStandard.n2_layered craftedLib x y = .ok (v * 1 * 42) := by
  obtain ⟨hS, hL, hf, ham, hsw, hty⟩ := demoCraftedStandard_fields
  have hn : (demoCraftedStandard.m_layerCount - 1).toNat = 0 := by
    rw [hL]
    decide
  unfold Noise.n2_layered
  simp only [hS, Bool.false_eq_true, if_false, clamp2_of_nonneg hx hy, hn,
    Noise.octaveSample2, Noise.firstOctave, hf, hsw, hv, okBind, Noise.n2LayeredLoop,
    Noise.noiseValue, hty, ham]
  rfl

theorem crafted_sample_high :
    demoCraftedTerrain.rawSample craftedLib 18 61 =
      .ok (5522723263579169291942511 / 7812500000000000000000000 * 1 * 42) := by
  have h := crafted_layered 18 61 _ (by norm_num) (by norm_num)
    (by
      rw [show ((18 : ℚ) + 719 / 100) * (20 / 1000) = 2519 / 5000 by norm_num,
        show ((61 : ℚ) + 719 / 100 * 2) * (20 / 1000) = 3769 / 2500 by norm_num]
      exact crafted_n2_high)
  rw [crafted_blend_high] at h
  unfold Terrain.rawSample
  show demoCraftedStandard.n2_layered craftedLib (((18 : Nat) : ℚ) * ((128 : ℚ) / ((128 : Nat) : ℚ)))
    (((61 : Nat) : ℚ) * ((128 : ℚ) / ((128 : Nat) : ℚ))) = _
  rw [show ((18 : Nat) : ℚ) * ((128 : ℚ) / ((128 : Nat) : ℚ)) = 18 by norm_num,
    show ((61 : Nat) : ℚ) * ((128 : ℚ) / ((128 : Nat) : ℚ)) = 61 by norm_num]
  exact h

theorem crafted_sample_low :
    demoCraftedTerrain.rawSample craftedLib 118 61 =
      .ok (-(5522723263579169291942511 / 7812500000000000000000000) * 1 * 42) := by
  have h := crafted_layered 118 61 _ (by norm_num) (by norm_num)
    (by
      rw [show ((118 : ℚ) + 719 / 100) * (20 / 1000) = 12519 / 5000 by norm_num,
        show ((61 : ℚ) + 719 / 100 * 2) * (20 / 1000) = 3769 / 2500 by norm_num]
      exact crafted_n2_low)
  rw [crafted_blend_low] at h
  unfold Terrain.rawSample
  show demoCraftedStandard.n2_layered craftedLib
    (((118 : Nat) : ℚ) * ((128 : ℚ) / ((128 : Nat) : ℚ)))
    (((61 : Nat) : ℚ) * ((128 : ℚ) / ((128 : Nat) : ℚ))) = _
  rw [show ((118 : Nat) : ℚ) * ((128 : ℚ) / ((128 : Nat) : ℚ)) = 118 by norm_num,
    show ((61 : Nat) : ℚ) * ((128 : ℚ) / ((128 : Nat) : ℚ)) = 61 by norm_num]
  exact h

/-- C21 (counterexample): the scenario's engine `Noise(5, 1, 20, 2, 2, 42)`
(Perlin type, amplitude 42) and terrain `Terrain(noise, 128, 128, 1, 1, ..)`,
on a library with unit gradients whose engine yields the table `craftedPerm`:
`calculateVertices` returns, the raw sample of grid point (18, 61) is above
`29.69` and that of grid point (118, 61) below `-29.69`, so the reported height
range `getMax() = max - min` is above `59`, hence above the amplitude 42. -/
theorem height_range_exceeds_amplitude :
    demoCraftedStandard.m_amplitude = 42 ∧
    demoCraftedStandard.m_type = NoiseType.PerlinNoise ∧
    ∃ T1, demoCraftedTerrain.calculateVertices craftedLib = .ok T1 ∧
      59 < T1.getMax ∧ demoCraftedStandard.m_amplitude < T1.getMax := by
  obtain ⟨_, _, _, ham, _, hty⟩ := demoCraftedStandard_fields
  obtain ⟨H, T1, hH, hT1, hB⟩ := calculateVertices_total craftedLib demoCraftedTerrain
    demoCraftedStandard_ready (by unfold u32Size; decide)
  have hvpr : demoCraftedTerrain.m_vpr = 128 := rfl
  have hvpc : demoCraftedTerrain.m_vpc = 128 := rfl
  have h1 := hB.upper (61 * 128 + 18) (by rw [hvpr, hvpc]; decide)
  have h2 := hB.lower (61 * 128 + 118) (by rw [hvpr, hvpc]; decide)
  have e1 : H ((61 * 128 + 18) % demoCraftedTerrain.m_vpr)
      ((61 * 128 + 18) / demoCraftedTerrain.m_vpr) = H 18 61 := by
    rw [hvpr]
  have e2 : H ((61 * 128 + 118) % demoCraftedTerrain.m_vpr)
      ((61 * 128 + 118) / demoCraftedTerrain.m_vpr) = H 118 61 := by
    rw [hvpr]
  have v1 : H 18 61 = 5522723263579169291942511 / 7812500000000000000000000 * 1 * 42 :=
    Except.ok.inj ((hH 18 61).symm.trans crafted_sample_high)
  have v2 : H 118 61 = -(5522723263579169291942511 / 7812500000000000000000000) * 1 * 42 :=
    Except.ok.inj ((hH 118 61).symm.trans crafted_sample_low)
  simp only [e1, v1] at h1
  simp only [e2, v2] at h2
  have hmax : 59 < T1.getMax := by
    unfold Terrain.getMax
    have c1 : (29 : ℚ) + 1 / 2 <
        5522723263579169291942511 / 7812500000000000000000000 * 1 * 42 := by norm_num
    have c2 : -(5522723263579169291942511 / 7812500000000000000000000 : ℚ) * 1 * 42 <
        -(29 + 1 / 2) := by norm_num
    linarith
  refine ⟨ham, hty, T1, hT1, hmax, ?_⟩
  rw [ham]
  linarith

theorem S1_mem (n : ℚ) (h0 : 0 ≤ n) (h1 : n ≤ 1) : 0 ≤ S1 n ∧ S1 n ≤ 1 := by
  have hq : ∀ t : ℚ, 0 ≤ 6 * t * t - 15 * t + 10 := by
    intro t
    nlinarith [sq_nonneg (t - 5 / 4)]
  have hsym : 1 - S1 n = S1 (1 - n) := by
    unfold S1
    ring
  have hpos : ∀ t : ℚ, 0 ≤ t → 0 ≤ S1 t := by
    intro t ht
    unfold S1
    exact mul_nonneg (hq t) (mul_nonneg (mul_nonneg ht ht) ht)
  refine ⟨hpos n h0, ?_⟩
  have := hpos (1 - n) (by linarith)
  linarith

theorem S1_mix (n : ℚ) (h0 : 0 ≤ n) (h1 : n ≤ 1) : n * (1 - S1 n) + (1 - n) * S1 n ≤ 1 / 2 := by
  have hid : 1 / 2 - (n * (1 - S1 n) + (1 - n) * S1 n) =
      2 * (n - 1 / 2) ^ 2 * (6 * (n * (1 - n)) ^ 2 + 2 * (n * (1 - n)) + 1) := by
    unfold S1
    ring
  have hm : 0 ≤ n * (1 - n) := mul_nonneg h0 (by linarith)
  have hr : 0 ≤ 2 * (n - 1 / 2) ^ 2 * (6 * (n * (1 - n)) ^ 2 + 2 * (n * (1 - n)) + 1) := by
    positivity
  linarith

theorem dot_bound (a b gx gy : ℚ) (ha : 0 ≤ a) (hb : 0 ≤ b) (hgx : |gx| ≤ 1) (hgy : |gy| ≤ 1) :
    |a * gx + b * gy| ≤ a + b := by
  have h1 : |a * gx| ≤ a := by
    rw [abs_mul, abs_of_nonneg ha]
    exact mul_le_of_le_one_right ha hgx
  have h2 : |b * gy| ≤ b := by
    rw [abs_mul, abs_of_nonneg hb]
    exact mul_le_of_le_one_right hb hgy
  exact le_trans (abs_add _ _) (add_le_add h1 h2)

theorem mix_bound (u v s U V : ℚ) (hs0 : 0 ≤ s) (hs1 : s ≤ 1) (hu : |u| ≤ U) (hv : |v| ≤ V) :
    |u * (1 - s) + v * s| ≤ U * (1 - s) + V * s := by
  have h1 : |u * (1 - s)| ≤ U * (1 - s) := by
    rw [abs_mul, abs_of_nonneg (by linarith : (0 : ℚ) ≤ 1 - s)]
    exact mul_le_mul_of_nonneg_right hu (by linarith)
  have h2 : |v * s| ≤ V * s := by
    rw [abs_mul, abs_of_nonneg hs0]
    exact mul_le_mul_of_nonneg_right hv hs0
  exact le_trans (abs_add _ _) (add_le_add h1 h2)

theorem blend2_bound (nx ny : ℚ) (a b c d : Vec2) (hx0 : 0 ≤ nx) (hx1 : nx ≤ 1) (hy0 : 0 ≤ ny)
    (hy1 : ny ≤ 1) (ha : |a.x| ≤ 1 ∧ |a.y| ≤ 1) (hb : |b.x| ≤ 1 ∧ |b.y| ≤ 1)
    (hc : |c.x| ≤ 1 ∧ |c.y| ≤ 1) (hd : |d.x| ≤ 1 ∧ |d.y| ≤ 1) :
    |blend2 nx ny a b c d| ≤ 1 := by
  obtain ⟨sx0, sx1⟩ := S1_mem nx hx0 hx1
  obtain ⟨sy0, sy1⟩ := S1_mem ny hy0 hy1
  have mx := S1_mix nx hx0 hx1
  have my := S1_mix ny hy0 hy1
  have d0 : |nx * a.x + ny * a.y| ≤ nx + ny := dot_bound nx ny a.x a.y hx0 hy0 ha.1 ha.2
  have d1 : |(nx - 1) * b.x + ny * b.y| ≤ (1 - nx) + ny := by
    have := dot_bound (1 - nx) ny (-b.x) b.y (by linarith) hy0 (by rw [abs_neg]; exact hb.1) hb.2
    rw [show (1 - nx) * -b.x + ny * b.y = (nx - 1) * b.x + ny * b.y by ring] at this
    exact this
  have d2 : |nx * c.x + (ny - 1) * c.y| ≤ nx + (1 - ny) := by
    have := dot_bound nx (1 - ny) c.x (-c.y) hx0 (by linarith) hc.1 (by rw [abs_neg]; exact hc.2)
    rw [show nx * c.x + (1 - ny) * -c.y = nx * c.x + (ny - 1) * c.y by ring] at this
    exact this
  have d3 : |(nx - 1) * d.x + (ny - 1) * d.y| ≤ (1 - nx) + (1 - ny) := by
    have := dot_bound (1 - nx) (1 - ny) (-d.x) (-d.y) (by linarith) (by linarith)
      (by rw [abs_neg]; exact hd.1) (by rw [abs_neg]; exact hd.2)
    rw [show (1 - nx) * -d.x + (1 - ny) * -d.y = (nx - 1) * d.x + (ny - 1) * d.y by ring] at this
    exact this
  have a1 := mix_bound _ _ (S1 nx) _ _ sx0 sx1 d0 d1
  have a2 := mix_bound _ _ (S1 nx) _ _ sx0 sx1 d2 d3
  have r := mix_bound _ _ (S1 ny) _ _ sy0 sy1 a1 a2
  unfold blend2
  refine le_trans r ?_
  nlinarith [mx, my]

theorem clamp2_nonneg (x y : ℚ) : 0 ≤ (clamp2 x y).1 ∧ 0 ≤ (clamp2 x y).2 := by
  unfold clamp2
  split
  · exact ⟨le_refl _, le_refl _⟩
  · rename_i h
    push_neg at h
    exact h

theorem frac_mem (x : ℚ) (hx : 0 ≤ x) :
    0 ≤ x - (intPart x : ℚ) ∧ x - (intPart x : ℚ) ≤ 1 := by
  unfold intPart
  have h1 := Nat.floor_le hx
  have h2 := Nat.lt_floor_add_one x
  constructor <;> linarith

theorem gradients_bounded (lib : Lib) (hcos : ∀ t, |lib.cos t| ≤ 1) (hsin : ∀ t, |lib.sin t| ≤ 1)
    (g : Vec2) (hg : g ∈ gradients2DLoop lib g2Size 0 []) : |g.x| ≤ 1 ∧ |g.y| ≤ 1 := by
  rw [gradients2DLoop_eq, List.nil_append] at hg
  obtain ⟨i, _, rfl⟩ := List.mem_map.mp hg
  exact ⟨hcos _, hsin _⟩

theorem n2_bound (N : Noise) (hN : StandardReady N)
    (hg : ∀ g, g ∈ N.m_gradients2D → |g.x| ≤ 1 ∧ |g.y| ≤ 1) (x y v : ℚ)
    (h : N.n2 x y = .ok v) : |v| ≤ 1 := by
  have hp : ∀ a : Nat, a &&& maxValue < N.m_perm.length := by
    intro a
    rw [hN.permLength]
    exact land_lt_of_lt a _ _ (by decide)
  have hg7 : ∀ a : Nat, a &&& g2MaxValue < N.m_gradients2D.length := by
    intro a
    rw [hN.gradientsLength]
    exact land_lt_of_lt a _ _ (by decide)
  obtain ⟨c1, c2⟩ := clamp2_nonneg x y
  obtain ⟨x0, x1⟩ := frac_mem _ c1
  obtain ⟨y0, y1⟩ := frac_mem _ c2
  unfold Noise.n2 at h
  simp only [hN.notSeamless, Bool.false_eq_true, if_false, okBind,
    tableAt_natCast_ok (hp _), tableAt_natCast_ok (hg7 _)] at h
  have h1 := Except.ok.inj h
  rw [← h1]
  exact blend2_bound _ _ _ _ _ _ x0 x1 y0 y1 (hg _ (List.getElem_mem _))
    (hg _ (List.getElem_mem _)) (hg _ (List.getElem_mem _)) (hg _ (List.getElem_mem _))

theorem noiseValue_bound (lib : Lib) (hcos : ∀ t, |lib.cos t| ≤ 1) (N : Noise) (v : ℚ)
    (hv : |v| ≤ 1) :
    -1 ≤ N.noiseValue lib v ∧ N.noiseValue lib v ≤ 1 ∧
    (N.m_type ≠ NoiseType.PerlinNoise → 0 ≤ N.noiseValue lib v) := by
  have h0 : 0 ≤ |v| := abs_nonneg v
  have hc0 : 0 ≤ |lib.cos v| := abs_nonneg _
  have hc1 := hcos v
  obtain ⟨v1, v2⟩ := abs_le.mp hv
  unfold Noise.noiseValue
  cases N.m_type with
  | PerlinNoise => exact ⟨v1, v2, fun h => absurd rfl h⟩
  | BillowyNoise =>
    show -1 ≤ |v| ∧ |v| ≤ 1 ∧ (_ → 0 ≤ |v|)
    exact ⟨by linarith, hv, fun _ => h0⟩
  | RidgidNoise =>
    show -1 ≤ 1 - |v| ∧ 1 - |v| ≤ 1 ∧ (_ → 0 ≤ 1 - |v|)
    exact ⟨by linarith, by linarith, fun _ => by linarith⟩
  | CosinusNoise =>
    show -1 ≤ 1 - |lib.cos v| ∧ 1 - |lib.cos v| ≤ 1 ∧ (_ → 0 ≤ 1 - |lib.cos v|)
    exact ⟨by linarith, by linarith, fun _ => by linarith⟩

theorem weighted_bound (m : Nat) (s w : Nat → ℚ) (lo hi : ℚ)
    (hw : ∀ j, j < m → 0 ≤ w j) (hsum : ∑ j in Finset.range m, w j = 1)
    (hs : ∀ j, j < m → lo ≤ s j ∧ s j ≤ hi) :
    lo ≤ ∑ j in Finset.range m, s j * w j ∧ ∑ j in Finset.range m, s j * w j ≤ hi := by
  constructor
  · have h1 : ∑ j in Finset.range m, lo * w j ≤ ∑ j in Finset.range m, s j * w j := by
      apply Finset.sum_le_sum
      intro j hj
      have hj1 := Finset.mem_range.mp hj
      exact mul_le_mul_of_nonneg_right (hs j hj1).1 (hw j hj1)
    rw [← Finset.mul_sum, hsum, mul_one] at h1
    exact h1
  · have h1 : ∑ j in Finset.range m, s j * w j ≤ ∑ j in Finset.range m, hi * w j := by
      apply Finset.sum_le_sum
      intro j hj
      have hj1 := Finset.mem_range.mp hj
      exact mul_le_mul_of_nonneg_right (hs j hj1).2 (hw j hj1)
    rw [← Finset.mul_sum, hsum, mul_one] at h1
    exact h1

theorem n2_layered_clamp (lib : Lib) (N : Noise) (x y : ℚ) :
    N.n2_layered lib x y = N.n2_layered lib (clamp2 x y).1 (clamp2 x y).2 := by
  obtain ⟨c1, c2⟩ := clamp2_nonneg x y
  unfold Noise.n2_layered
  rw [clamp2_of_nonneg c1 c2]

theorem setNoiseType_fields (N : Noise) (ty : NoiseType) :
    (N.setNoiseType ty).m_type = ty ∧ (N.setNoiseType ty).m_layerCount = N.m_layerCount ∧
    (N.setNoiseType ty).m_startWeight = N.m_startWeight ∧
    (N.setNoiseType ty).m_weightDivisor = N.m_weightDivisor ∧
    (N.setNoiseType ty).m_amplitude = N.m_amplitude ∧
    (N.setNoiseType ty).m_gradients2D = N.m_gradients2D :=
  ⟨rfl, rfl, rfl, rfl, rfl, rfl⟩

theorem setNoiseType_ready (N : Noise) (h : StandardReady N) (ty : NoiseType) :
    StandardReady (N.setNoiseType ty) :=
  ⟨h.notSeamless, h.permLength, h.gradientsLength⟩

theorem standard_amplitude_nonneg (lib : Lib) (seed lC : Int) (fS fF wD am : ℚ) (N : Noise)
    (h : Noise.standard lib seed lC fS fF wD am = .ok N) : 0 ≤ am := by
  unfold Noise.standard at h
  split at h
  · cases h
  split at h
  · cases h
  split at h
  · cases h
  split at h
  · cases h
  split at h
  · cases h
  rename_i ha
  exact not_lt.mp ha

theorem octaveSample2_bound (lib : Lib) (hcos : ∀ t, |lib.cos t| ≤ 1) (N : Noise)
    (hN : StandardReady N) (hg : ∀ g, g ∈ N.m_gradients2D → |g.x| ≤ 1 ∧ |g.y| ≤ 1)
    (x y : ℚ) (o : Octave) (s : ℚ) (h : N.octaveSample2 lib x y o = .ok s) :
    -1 ≤ s ∧ s ≤ 1 ∧ (N.m_type ≠ NoiseType.PerlinNoise → 0 ≤ s) := by
  obtain ⟨v, hv⟩ := n2_ok N hN ((x + o.offset) * (o.f / 1000)) ((y + o.offset * 2) * (o.f / 1000))
  unfold Noise.octaveSample2 at h
  rw [hv] at h
  have h1 : N.noiseValue lib v = s := Except.ok.inj h
  rw [← h1]
  exact noiseValue_bound lib hcos N v (n2_bound N hN hg _ _ v hv)

theorem n2_layered_bound (lib : Lib) (hcos : ∀ t, |lib.cos t| ≤ 1) (N : Noise)
    (hN : StandardReady N) (hg : ∀ g, g ∈ N.m_gradients2D → |g.x| ≤ 1 ∧ |g.y| ≤ 1)
    (n : Nat) (d : ℚ) (hd : 0 < d) (hL : (N.m_layerCount - 1).toNat = n)
    (hwD : N.m_weightDivisor = d)
    (hsw : N.m_startWeight = 1 / ∑ i in Finset.range (n + 1), (d ^ i)⁻¹)
    (ham : 0 ≤ N.m_amplitude) (x y : ℚ) :
    ∃ v, N.n2_layered lib x y = .ok v ∧ -N.m_amplitude ≤ v ∧ v ≤ N.m_amplitude ∧
      (N.m_type ≠ NoiseType.PerlinNoise → 0 ≤ v) := by
  obtain ⟨c1, c2⟩ := clamp2_nonneg x y
  have hS : ∀ o, ∃ s, N.octaveSample2 lib (clamp2 x y).1 (clamp2 x y).2 o = .ok s :=
    fun o => octaveSample2_ok lib N hN _ _ o
  choose S hS using hS
  have hclosed := n2_layered_closed lib N hN _ _ c1 c2 S hS
  rw [hL] at hclosed
  have hpos := geomSum_pos d hd n
  have hw : ∀ j, (N.nextOctave2^[j] N.firstOctave).w = N.m_startWeight / d ^ j := by
    intro j
    rw [nextOctave2_iterate_w, hwD]
    rfl
  have hw0 : ∀ j, j < n + 1 → 0 ≤ (N.nextOctave2^[j] N.firstOctave).w := by
    intro j _
    rw [hw, hsw]
    positivity
  have hsum : ∑ j in Finset.range (n + 1), (N.nextOctave2^[j] N.firstOctave).w = 1 := by
    have : ∀ j, (N.nextOctave2^[j] N.firstOctave).w = N.m_startWeight * (d ^ j)⁻¹ := by
      intro j
      rw [hw, div_eq_mul_inv]
    simp only [this]
    rw [← Finset.mul_sum, hsw, one_div, inv_mul_cancel₀ hpos.ne']
  have hb := fun j => octaveSample2_bound lib hcos N hN hg _ _ _ _
    (hS (N.nextOctave2^[j] N.firstOctave))
  obtain ⟨b1, b2⟩ := weighted_bound (n + 1) (fun j => S (N.nextOctave2^[j] N.firstOctave))
    (fun j => (N.nextOctave2^[j] N.firstOctave).w) (-1) 1 hw0 hsum
    (fun j _ => ⟨(hb j).1, (hb j).2.1⟩)
  refine ⟨_, (n2_layered_clamp lib N x y).trans hclosed, ?_, ?_, ?_⟩
  · nlinarith
  · nlinarith
  · intro hty
    obtain ⟨b3, _⟩ := weighted_bound (n + 1) (fun j => S (N.nextOctave2^[j] N.firstOctave))
      (fun j => (N.nextOctave2^[j] N.firstOctave).w) 0 1 hw0 hsum
      (fun j _ => ⟨(hb j).2.2 hty, (hb j).2.1⟩)
    exact mul_nonneg ham b3

theorem octantCos_bound (k : Nat) : |octantCos k| ≤ 1 := by
  unfold octantCos
  split <;> norm_num [abs_le]

theorem octantSin_bound (k : Nat) : |octantSin k| ≤ 1 := by
  unfold octantSin
  split <;> norm_num [abs_le]

theorem craftedLib_cos (t : ℚ) : |craftedLib.cos t| ≤ 1 := octantCos_bound _

theorem craftedLib_sin (t : ℚ) : |craftedLib.sin t| ≤ 1 := by
  show |if t < 0 then -octantSin (octantIndex t) else octantSin (octantIndex t)| ≤ 1
  split
  · rw [abs_neg]
    exact octantSin_bound _
  · exact octantSin_bound _

/-- C21 (amended): for a standard engine constructed with any layer count the
constructor accepts (in particular `layerCount ≥ 1`), `weightDivisor > 0` and
amplitude `a` (hence `a ≥ 0`), any noise type set by
`setNoiseType`, any seed and any terrain dimensions (vertex count a value of
`unsigned`) for which the octave coordinates of every grid point stay inside
the range of `int`, with library functions `cos`, `sin` of absolute value at
most 1: `calculateVertices` returns and the reported height range
`getMax() = max - min` is at most `a` for the noise types Billowy, Ridgid and
Cosinus, and at most `2 * a` for the noise type Perlin. -/
theorem height_range_bound (lib : Lib) (hcos : ∀ t, |lib.cos t| ≤ 1)
    (hsin : ∀ t, |lib.sin t| ≤ 1) (seed L : Int) (fS fF d am : ℚ) (N0 : Noise)
    (hN0 : Noise.standard lib seed L fS fF d am = .ok N0) (hd : 0 < d)
    (ty : NoiseType) (T : Terrain) (hT : T.m_noise = N0.setNoiseType ty)
    (hn : T.m_vpr * T.m_vpc < u32Size) (hr : T.samplesInIntRange) :
    ∃ T1, T.calculateVertices lib = .ok T1 ∧ T1.getMax ≤ 2 * am ∧
      (ty ≠ NoiseType.PerlinNoise → T1.getMax ≤ am) := by
  have _ := hr
  obtain ⟨_, _, hLc, _, _, hwD, ham, hsw, _, _⟩ := standard_fields lib seed L fS fF d am N0 hN0
  obtain ⟨_, _, hg2⟩ := standard_tables_of lib seed L fS fF d am N0 hN0
  obtain ⟨t1, t2, t3, t4, t5, t6⟩ := setNoiseType_fields N0 ty
  have ha0 : 0 ≤ am := standard_amplitude_nonneg lib seed L fS fF d am N0 hN0
  have hR0 : StandardReady N0 := standard_ready lib seed L fS fF d am N0 hN0
  have hR : StandardReady (N0.setNoiseType ty) := setNoiseType_ready N0 hR0 ty
  have hg : ∀ g, g ∈ (N0.setNoiseType ty).m_gradients2D → |g.x| ≤ 1 ∧ |g.y| ≤ 1 := by
    intro g hgm
    rw [t6, hg2] at hgm
    exact gradients_bounded lib hcos hsin g hgm
  have hbound : ∀ x y : ℚ, ∃ v, T.m_noise.n2_layered lib x y = .ok v ∧ -am ≤ v ∧ v ≤ am ∧
      (ty ≠ NoiseType.PerlinNoise → 0 ≤ v) := by
    intro x y
    obtain ⟨v, e, b1, b2, b3⟩ := n2_layered_bound lib hcos (N0.setNoiseType ty) hR hg
      (L - 1).toNat d hd (by rw [t2, hLc]) (by rw [t4, hwD])
      (by rw [t3, hsw, startWeightOf_closed]) (by rw [t5, ham]; exact ha0) x y
    rw [t5, ham] at b1 b2
    rw [t1] at b3
    exact ⟨v, by rw [hT]; exact e, b1, b2, b3⟩
  have hRT : StandardReady T.m_noise := by rw [hT]; exact hR
  obtain ⟨H, T1, hH, hT1, hB⟩ := calculateVertices_total lib T hRT hn
  have hHb : ∀ x z, -am ≤ H x z ∧ H x z ≤ am ∧ (ty ≠ NoiseType.PerlinNoise → 0 ≤ H x z) := by
    intro x z
    obtain ⟨v, e, b⟩ := hbound ((x : ℚ) * (T.m_surfaceWidth / (T.m_vpr : ℚ)))
      ((z : ℚ) * (T.m_surfaceDepth / (T.m_vpc : ℚ)))
    have e2 : T.rawSample lib x z = .ok v := e
    have : H x z = v := Except.ok.inj ((hH x z).symm.trans e2)
    rw [this]
    exact b
  have hmax : T1.m_max ≤ am := by
    rcases hB.maxAttained with h | ⟨j, _, h⟩
    · rw [h]
      exact (hHb 0 0).2.1
    · rw [h]
      exact (hHb _ _).2.1
  have hmin : -am ≤ T1.m_min ∧ (ty ≠ NoiseType.PerlinNoise → 0 ≤ T1.m_min) := by
    rcases hB.minAttained with h | ⟨j, _, h⟩
    · rw [h]
      exact ⟨(hHb 0 0).1, (hHb 0 0).2.2⟩
    · rw [h]
      exact ⟨(hHb _ _).1, (hHb _ _).2.2⟩
  refine ⟨T1, hT1, ?_, ?_⟩
  · unfold Terrain.getMax
    linarith [hmin.1]
  · intro hty
    unfold Terrain.getMax
    linarith [hmin.2 hty]

theorem demoBillowyTerrain_inRange : demoBillowyTerrain.samplesInIntRange := by
  obtain ⟨_, hL, hf, _, _, _⟩ := demoCraftedStandard_fields
  have hL1 : (demoCraftedStandard.setNoiseType NoiseType.BillowyNoise).m_layerCount = 1 := hL
  have h0 : (demoCraftedStandard.setNoiseType NoiseType.BillowyNoise).firstOctave =
      (⟨20, (demoCraftedStandard.setNoiseType NoiseType.BillowyNoise).m_startWeight,
        719 / 100⟩ : Octave) := by
    show (⟨demoCraftedStandard.m_startFrequency, _, _⟩ : Octave) = _
    rw [hf]
  have key : ∀ x y : ℚ, 0 ≤ x → x ≤ 128 → 0 ≤ y → y ≤ 128 →
      (demoCraftedStandard.setNoiseType NoiseType.BillowyNoise).n2LayeredInRange x y := by
    intro x y hx0 hx hy0 hy i hi
    rw [hL1] at hi
    have hi0 : i = 0 := Nat.le_zero.mp hi
    subst hi0
    rw [clamp2_of_nonneg hx0 hy0]
    simp only [Function.iterate_zero, id_eq, h0]
    unfold InIntRange intSize
    constructor <;> norm_num <;> linarith
  have hgrid : ∀ x : Nat, x < 128 →
      0 ≤ (x : ℚ) * ((128 : ℚ) / ((128 : Nat) : ℚ)) ∧
      (x : ℚ) * ((128 : ℚ) / ((128 : Nat) : ℚ)) ≤ 128 := by
    intro x hx
    have h1 : ((x : ℚ)) < 128 := by exact_mod_cast hx
    have h2 : (0 : ℚ) ≤ (x : ℚ) := Nat.cast_nonneg x
    have h3 : (x : ℚ) * ((128 : ℚ) / ((128 : Nat) : ℚ)) = (x : ℚ) := by norm_num
    rw [h3]
    exact ⟨h2, le_of_lt h1⟩
  refine ⟨key 0 0 (le_refl 0) (by norm_num) (le_refl 0) (by norm_num), ?_⟩
  intro x z hx hz
  exact key _ _ (hgrid x hx).1 (hgrid x hx).2 (hgrid z hz).1 (hgrid z hz).2

/-- Witness for C21 (amended): the scenario's engine and terrain with the noise
type Billowy, on the library with unit gradients. -/
theorem height_range_bound_witness :
    ∃ T1, demoBillowyTerrain.calculateVertices craftedLib = .ok T1 ∧ T1.getMax ≤ 2 * 42 ∧
      (NoiseType.BillowyNoise ≠ NoiseType.PerlinNoise → T1.getMax ≤ 42) :=
  height_range_bound craftedLib craftedLib_cos craftedLib_sin 5 1 20 2 2 42
    demoCraftedStandard demoCraftedStandard_eq (by norm_num)
    NoiseType.BillowyNoise demoBillowyTerrain rfl (by unfold u32Size; decide)
    demoBillowyTerrain_inRange

end TerrainGenerator
